import Mathlib

/-!
# mp3_converter: WAV container parsing, format dispatch and channel splitting

A shallow embedding of `src/include/WavefileChunks.h`,
`src/src/WavefileConversionTask.cpp`, of the interface of
`src/include/LameEncodingTask.h`, and of the report loop, the semaphore and
`conversion_task` of `src/src/main.cpp`.

Conventions of the embedding

* A byte (`char`) is a `UInt8`; a file, a buffer and the object representation
  of a POD struct are `List UInt8`.
* The host is little-endian (x86-64, LP64): `sizeof(short) = 2`,
  `sizeof(int) = sizeof(float) = 4`, `sizeof(long) = sizeof(double) = 8`.
* `std::ifstream` is a record holding the file contents, the get position and
  the `eofbit` / `failbit` flags; `read` and `seekg` follow the standard
  (sentry, partial reads set `eofbit | failbit`, `seekg` clears `eofbit` first,
  seeking forward past the end of a file succeeds).  The input file is taken to
  open; I/O errors (`badbit`) are outside the model.
* Locals that the source leaves uninitialised (`RiffHeader header`,
  `CommonHeader potential_chunk`) start with indeterminate contents, which are
  parameters of the embedding.
* `throw` and undefined behaviour the source can reach (integer division by
  zero, reading past the sample array, writing past the local `format_header`)
  are explicit outcomes.
* The lame library is a parameter: a predicate telling whether an `Encode`
  call completes without lame reporting an error.
* The threads of `main.cpp` are a transition system: a state holds the counter
  of the semaphore and the place of each thread in `conversion_task`, and a
  schedule names the thread that takes the next step.
-/

namespace wavefile
namespace chunks

/-- Little-endian value of a byte sequence. -/
def le_value : List UInt8 → Nat
  | [] => 0
  | b :: bs => b.toNat + 256 * le_value bs

/-- Unsigned integer field of `width` bytes at byte offset `off` of an object
representation. -/
def field (m : List UInt8) (off width : Nat) : Nat :=
  le_value ((m.drop off).take width)

/-- Bytes `src` copied over the start of the object representation `dst`: what
`istream::read` leaves in the destination after extracting `src`. -/
def store (dst src : List UInt8) : List UInt8 :=
  src ++ dst.drop src.length

/-- The test `strncmp(a, b, n) == 0`.  Reading past the end of a list yields the
terminating NUL of `c_str()`. -/
def strncmp_eq_zero : List UInt8 → List UInt8 → Nat → Bool
  | _, _, 0 => true
  | a, b, n + 1 =>
    if a.headD 0 != b.headD 0 then false
    else if a.headD 0 == 0 then true
    else strncmp_eq_zero a.tail b.tail n

/-- `struct FourUnterminatedChars`: `std::array<char, 4> chars`. -/
structure FourUnterminatedChars where
  chars : List UInt8
deriving DecidableEq, Repr

/-- `FourUnterminatedChars::operator==(const std::string &literal)`. -/
def FourUnterminatedChars.eq (c : FourUnterminatedChars) (literal : List UInt8) : Bool :=
  if strncmp_eq_zero c.chars literal 4 then true else false

/-- `FourUnterminatedChars::operator!=(const std::string &literal)`. -/
def FourUnterminatedChars.ne (c : FourUnterminatedChars) (literal : List UInt8) : Bool :=
  !c.eq literal

/-- `struct CommonHeader` (8 bytes): `ChunkID`, then `uint32_t ChunkSize`. -/
structure CommonHeader where
  ChunkID : FourUnterminatedChars
  ChunkSize : Nat
deriving DecidableEq, Repr

/-- The `CommonHeader` whose object representation is `m`. -/
def CommonHeader.of_bytes (m : List UInt8) : CommonHeader :=
  { ChunkID := ⟨m.take 4⟩, ChunkSize := field m 4 4 }

/-- `struct RiffHeader` (12 bytes): `Chunk_header`, then `Format`. -/
structure RiffHeader where
  Chunk_header : CommonHeader
  Format : FourUnterminatedChars
deriving DecidableEq, Repr

/-- The `RiffHeader` whose object representation is `m`. -/
def RiffHeader.of_bytes (m : List UInt8) : RiffHeader :=
  { Chunk_header := CommonHeader.of_bytes m, Format := ⟨(m.drop 8).take 4⟩ }

/-- `struct FormatHeader` (24 bytes). -/
structure FormatHeader where
  Chunk_header : CommonHeader
  AudioFormat : Nat
  NumChannels : Nat
  SampleRate : Nat
  ByteRate : Nat
  BlockAlign : Nat
  BitsPerSample : Nat
deriving DecidableEq, Repr

/-- The `FormatHeader` with the given `Chunk_header` whose 16 bytes from
`&AudioFormat` on are `m`. -/
def FormatHeader.of_fields (h : CommonHeader) (m : List UInt8) : FormatHeader :=
  { Chunk_header := h
    AudioFormat := field m 0 2
    NumChannels := field m 2 2
    SampleRate := field m 4 4
    ByteRate := field m 8 4
    BlockAlign := field m 12 2
    BitsPerSample := field m 14 2 }

/-- `struct DataChunk`: `Chunk_header` and `std::vector<char> Data`. -/
structure DataChunk where
  Chunk_header : CommonHeader
  Data : List UInt8
deriving DecidableEq, Repr

end chunks
end wavefile

namespace mp3_converter

open wavefile.chunks

/-- The literal `"RIFF"`. -/
def RIFF : List UInt8 := [0x52, 0x49, 0x46, 0x46]

/-- The literal `"WAVE"`. -/
def WAVE : List UInt8 := [0x57, 0x41, 0x56, 0x45]

/-- The literal `"fmt "`. -/
def fmt_ : List UInt8 := [0x66, 0x6d, 0x74, 0x20]

/-- The literal `"data"`. -/
def data_ : List UInt8 := [0x64, 0x61, 0x74, 0x61]

/-- `std::ifstream` opened on a file in binary mode. -/
structure IStream where
  file : List UInt8
  pos : Nat
  eofbit : Bool
  failbit : Bool
deriving DecidableEq, Repr

/-- `i_stream.good()`. -/
def IStream.good (s : IStream) : Bool :=
  !s.eofbit && !s.failbit

/-- `i_stream.read(buf, n)`: the bytes extracted and the stream afterwards.
A stream that is not good extracts nothing and gets `failbit`; fewer than `n`
bytes available sets `eofbit | failbit` after the available ones are stored. -/
def IStream.read (s : IStream) (n : Nat) : List UInt8 × IStream :=
  if s.good then
    let got := (s.file.drop s.pos).take n
    if got.length = n then (got, { s with pos := s.pos + n })
    else (got, { s with pos := s.pos + got.length, eofbit := true, failbit := true })
  else ([], { s with failbit := true })

/-- `i_stream.seekg(off, std::ios_base::cur)` with `off ≥ 0`: `eofbit` is
cleared, then the position moves unless the stream has failed. -/
def IStream.seekg_cur (s : IStream) (off : Nat) : IStream :=
  if s.failbit then { s with eofbit := false, failbit := true }
  else { s with eofbit := false, pos := s.pos + off }

/-- `struct wave_format_error`, one constructor per `throw` site of `run`. -/
inductive wave_format_error
  | no_riff_header
  | no_wave_header
  | fmt_not_found
  | too_many_channels
  | data_not_found
  | unsupported_integer_width
  | unsupported_encoding
deriving DecidableEq, Repr

/-- The message given to the constructor of `wave_format_error`. -/
def wave_format_error.what : wave_format_error → String
  | .no_riff_header => "File does not contain a RIFF file header."
  | .no_wave_header => "File does not contain a WAVE file header."
  | .fmt_not_found => "Did not find fmt chunk in file."
  | .too_many_channels => "Found more than two channels in wave file, unsuported"
  | .data_not_found => "Did not find data chunk in file."
  | .unsupported_integer_width =>
    "Found integer samples that don't align to: this platforms length of short, int, long. Unsupported."
  | .unsupported_encoding => "Wave format is neither PCM nor IEEE_FLOAT. Unsupported."

/-- Template argument `R` of `convert_from_raw` and `LameEncodingTask`. -/
inductive SampleType
  | short
  | int
  | long
  | float
  | double
deriving DecidableEq, Repr

/-- `sizeof(R)` on LP64. -/
def SampleType.sizeof : SampleType → Nat
  | .short => 2
  | .int => 4
  | .long => 8
  | .float => 4
  | .double => 8

/-- One value of a sample type: its `sizeof(R)` bytes. -/
abbrev Sample := List UInt8

/-- Arguments of one call of `LameEncodingTask<R>::Encode`.  A buffer is the
array of samples found at the pointer passed. -/
structure EncodeCall where
  R : SampleType
  num_samples : Nat
  sample_rate : Nat
  num_channels : Nat
  buffer_l : List Sample
  buffer_r : List Sample
deriving DecidableEq, Repr

/-- Observable steps of `run`. -/
inductive Event
  | find_chunk (identifier : List UInt8)
  | open_output (R : SampleType)
  | Encode (call : EncodeCall)
deriving DecidableEq, Repr

/-- Undefined behaviour that `run` can reach. -/
inductive Undefined
  | division_by_zero
  | out_of_bounds_read
  | buffer_overflow
deriving DecidableEq, Repr

/-- How a call ends. -/
inductive Outcome
  | returned (conversion_success : Bool)
  | threw (e : wave_format_error)
  | threw_lame_encoding_error
  | undefined (ub : Undefined)
deriving DecidableEq, Repr

/-- `LameEncodingTask<R>::Encode`: throws `lame_encoding_error` when lame
reports an error, returns `true` otherwise. -/
def Encode (lame : EncodeCall → Bool) (call : EncodeCall) : Outcome :=
  if lame call then .returned true else .threw_lame_encoding_error

/-- The array `reinterpret_cast<const R *>(data.Data.data())`: element `i` is
the bytes `[i * w, (i + 1) * w)` of the buffer, `w = sizeof(R)`. -/
def interpret (w : Nat) (bytes : List UInt8) : List Sample :=
  (List.range (bytes.length / w)).map fun i => (bytes.drop (i * w)).take w

/-- One iteration of the loop of `convert_from_raw` (lines 55-65); `none` once
an element outside the array has been read. -/
def split_step (arr : List Sample) (acc : Option (List Sample × List Sample)) (i : Nat) :
    Option (List Sample × List Sample) :=
  match acc, arr[i]? with
  | some (l_buffer, r_buffer), some x =>
    if i % 2 = 0 then some (l_buffer ++ [x], r_buffer) else some (l_buffer, r_buffer ++ [x])
  | _, _ => none

/-- The loop `for (size_t i = 0; i < num_samples * 2; ++i)` of
`convert_from_raw`, from empty `l_buffer` and `r_buffer`. -/
def split_channels (arr : List Sample) (num_samples : Nat) :
    Option (List Sample × List Sample) :=
  (List.range (num_samples * 2 % 2 ^ 64)).foldl (split_step arr) (some ([], []))

/-- `convert_from_raw<R>(to_file, data, num_samples, num_channels, sample_rate)`:
how the call ends and the events it causes. -/
def convert_from_raw (lame : EncodeCall → Bool) (R : SampleType) (data : DataChunk)
    (num_samples num_channels sample_rate : Nat) : Outcome × List Event :=
  let interpreted_array_ptr := interpret R.sizeof data.Data
  if num_channels = 1 then
    let call : EncodeCall :=
      ⟨R, num_samples, sample_rate, num_channels, interpreted_array_ptr, interpreted_array_ptr⟩
    (Encode lame call, [.open_output R, .Encode call])
  else if num_channels = 2 then
    match split_channels interpreted_array_ptr num_samples with
    | some (l_buffer, r_buffer) =>
      let call : EncodeCall := ⟨R, num_samples, sample_rate, num_channels, l_buffer, r_buffer⟩
      (Encode lame call, [.open_output R, .Encode call])
    | none => (.undefined .out_of_bounds_read, [.open_output R])
  else (.returned false, [.open_output R])

/-- The loop of the lambda `find_chunk` with `fuel` iterations allowed:
`potential_chunk` is the object representation of the local of that name.
`none` when the iterations allowed are used up. -/
def find_chunk_loop (identifier : List UInt8) :
    Nat → List UInt8 → IStream → Option (Option CommonHeader × IStream)
  | 0, _, _ => none
  | fuel + 1, potential_chunk, i_stream =>
    if i_stream.good then
      let potential_chunk := store potential_chunk (i_stream.read 8).1
      let i_stream := (i_stream.read 8).2
      if (CommonHeader.of_bytes potential_chunk).ChunkID.eq identifier then
        some (some (CommonHeader.of_bytes potential_chunk), i_stream)
      else
        let to_skip := (CommonHeader.of_bytes potential_chunk).ChunkSize
        find_chunk_loop identifier fuel potential_chunk (i_stream.seekg_cur to_skip)
    else some (none, i_stream)

/-- The lambda `find_chunk` of `run`: the header found, if any, and the stream
afterwards.  `potential_chunk` is the indeterminate initial content of the
local.  The loop runs at most `file.length + 2` times (`find_chunk_loop_total`). -/
def find_chunk (identifier : List UInt8) (potential_chunk : List UInt8) (i_stream : IStream) :
    Option CommonHeader × IStream :=
  (find_chunk_loop identifier (i_stream.file.length + 2) potential_chunk i_stream).getD
    (none, i_stream)

/-- The event is a call of `Encode`. -/
def Event.is_Encode : Event → Bool
  | .Encode _ => true
  | _ => false

/-- Indeterminate initial contents of the uninitialised locals of `run`. -/
structure Indeterminate where
  header : List UInt8
  potential_chunk_fmt : List UInt8
  potential_chunk_data : List UInt8
deriving DecidableEq, Repr

/-- How `run` ends, the events up to there, and `i_stream` at that point. -/
structure RunResult where
  outcome : Outcome
  trace : List Event
  i_stream : IStream
deriving DecidableEq, Repr

/-- Locals of `run` after line 154. -/
structure Validated where
  format_header : FormatHeader
  num_channels : Nat
  sample_rate : Nat
  i_stream : IStream
deriving DecidableEq, Repr

/-- Locals of `run` after line 170. -/
structure Parsed where
  format_header : FormatHeader
  num_channels : Nat
  sample_rate : Nat
  num_frames : Nat
  data : DataChunk
  i_stream : IStream
deriving DecidableEq, Repr

/-- Lines 139-154 of `run`: search for `"fmt "`, read of the format fields,
channel check.  The read of lines 146-147 stores the bytes it extracts from
`&format_header.AudioFormat` on, where the local `format_header` has
`sizeof(FormatHeader) - sizeof(CommonHeader) = 16` bytes left: when it extracts
more than 16 bytes it writes past the object. -/
def run_format (u : Indeterminate) (i_stream : IStream) : Except RunResult Validated :=
  match find_chunk fmt_ u.potential_chunk_fmt i_stream with
  | (none, i_stream) => .error ⟨.threw .fmt_not_found, [.find_chunk fmt_], i_stream⟩
  | (some maybe_format_start, i_stream) =>
    if (i_stream.read maybe_format_start.ChunkSize).1.length > 16 then
      .error ⟨.undefined .buffer_overflow, [.find_chunk fmt_],
        (i_stream.read maybe_format_start.ChunkSize).2⟩
    else
      let fields := store (List.replicate 16 0) (i_stream.read maybe_format_start.ChunkSize).1
      let format_header := FormatHeader.of_fields maybe_format_start fields
      let i_stream := (i_stream.read maybe_format_start.ChunkSize).2
      let num_channels := format_header.NumChannels
      if num_channels > 2 then
        .error ⟨.threw .too_many_channels, [.find_chunk fmt_], i_stream⟩
      else
        .ok ⟨format_header, num_channels, format_header.SampleRate % 2 ^ 16, i_stream⟩

/-- Lines 93-154 of `run`: envelope check, then `run_format`. -/
def run_validate (file : List UInt8) (u : Indeterminate) : Except RunResult Validated :=
  let i_stream : IStream := ⟨file, 0, false, false⟩
  let header := RiffHeader.of_bytes (store u.header (i_stream.read 12).1)
  let i_stream := (i_stream.read 12).2
  if header.Chunk_header.ChunkID.ne RIFF then
    .error ⟨.threw .no_riff_header, [], i_stream⟩
  else if header.Format.ne WAVE then
    .error ⟨.threw .no_wave_header, [], i_stream⟩
  else run_format u i_stream

/-- Lines 156-170 of `run`: search for `"data"`, frame count, read of the
payload into `data.Data`. -/
def run_read_data (v : Validated) (u : Indeterminate) : Except RunResult Parsed :=
  match find_chunk data_ u.potential_chunk_data v.i_stream with
  | (none, i_stream) =>
    .error ⟨.threw .data_not_found, [.find_chunk fmt_, .find_chunk data_], i_stream⟩
  | (some maybe_data_start, i_stream) =>
    let data_size := maybe_data_start.ChunkSize
    if v.format_header.BlockAlign = 0 then
      .error ⟨.undefined .division_by_zero, [.find_chunk fmt_, .find_chunk data_], i_stream⟩
    else
      let num_frames := data_size / v.format_header.BlockAlign
      let data : DataChunk :=
        ⟨maybe_data_start, store (List.replicate data_size 0) (i_stream.read data_size).1⟩
      .ok ⟨v.format_header, v.num_channels, v.sample_rate, num_frames, data,
        (i_stream.read data_size).2⟩

/-- Result of `run` when `convert_from_raw<R>` is called at line 177, 182,
187, 201 or 206 and nothing follows it. -/
def run_convert (lame : EncodeCall → Bool) (R : SampleType) (p : Parsed) : RunResult :=
  let r := convert_from_raw lame R p.data p.num_frames p.num_channels p.sample_rate
  ⟨r.1, [.find_chunk fmt_, .find_chunk data_] ++ r.2, p.i_stream⟩

/-- Lines 172-216 of `run`: choice of the sample type and conversion. -/
def run_dispatch (lame : EncodeCall → Bool) (p : Parsed) : RunResult :=
  if p.format_header.AudioFormat = 1 then
    if p.num_channels = 0 then
      ⟨.undefined .division_by_zero, [.find_chunk fmt_, .find_chunk data_], p.i_stream⟩
    else if p.format_header.BlockAlign / p.num_channels = SampleType.short.sizeof then
      run_convert lame .short p
    else if p.format_header.BlockAlign / p.num_channels = SampleType.int.sizeof then
      run_convert lame .int p
    else if p.format_header.BlockAlign / p.num_channels = SampleType.long.sizeof then
      run_convert lame .long p
    else
      ⟨.threw .unsupported_integer_width, [.find_chunk fmt_, .find_chunk data_], p.i_stream⟩
  else if p.format_header.AudioFormat = 3 then
    if p.num_channels = 0 then
      ⟨.undefined .division_by_zero, [.find_chunk fmt_, .find_chunk data_], p.i_stream⟩
    else
      let first : RunResult :=
        if p.format_header.BlockAlign / p.num_channels = SampleType.float.sizeof then
          run_convert lame .float p
        else ⟨.returned false, [.find_chunk fmt_, .find_chunk data_], p.i_stream⟩
      match first.outcome with
      | .returned _ =>
        if p.format_header.BlockAlign / p.num_channels = SampleType.double.sizeof then
          let r := convert_from_raw lame .double p.data p.num_frames p.num_channels p.sample_rate
          ⟨r.1, first.trace ++ r.2, p.i_stream⟩
        else first
      | _ => first
  else
    ⟨.threw .unsupported_encoding, [.find_chunk fmt_, .find_chunk data_], p.i_stream⟩

/-- `WavefileConversionTask::run()` on a file with the given contents. -/
def run (file : List UInt8) (u : Indeterminate) (lame : EncodeCall → Bool) : RunResult :=
  match run_validate file u with
  | .error r => r
  | .ok v =>
    match run_read_data v u with
    | .error r => r
    | .ok p => run_dispatch lame p

/-! ## Shape of the input: chunks laid out one after the other -/

/-- A chunk as it lies in a file: the 8 bytes of its header, then its payload. -/
structure Chunk where
  header : List UInt8
  payload : List UInt8
deriving DecidableEq, Repr

/-- The bytes of a chunk. -/
def Chunk.bytes (c : Chunk) : List UInt8 :=
  c.header ++ c.payload

/-- The header of a chunk as `find_chunk` reads it. -/
def Chunk.common_header (c : Chunk) : CommonHeader :=
  CommonHeader.of_bytes c.header

/-- A complete chunk: an 8-byte header followed by exactly `ChunkSize` payload
bytes. -/
def Chunk.complete (c : Chunk) : Prop :=
  c.header.length = 8 ∧ c.payload.length = c.common_header.ChunkSize

instance (c : Chunk) : Decidable c.complete :=
  inferInstanceAs (Decidable (_ ∧ _))

/-- The chunk identifier compares equal to `identifier` under
`FourUnterminatedChars::operator==`. -/
def Chunk.has_id (c : Chunk) (identifier : List UInt8) : Bool :=
  c.common_header.ChunkID.eq identifier

/-- The bytes of a sequence of chunks laid out one after the other. -/
def serialize : List Chunk → List UInt8
  | [] => []
  | c :: cs => c.bytes ++ serialize cs

/-- Content of `potential_chunk` after the headers of `cs` have been read into
it one after the other. -/
def after_headers (potential_chunk : List UInt8) : List Chunk → List UInt8
  | [] => potential_chunk
  | c :: cs => after_headers (store potential_chunk c.header) cs

/-- A 12-byte envelope that passes both checks of lines 104-111. -/
def valid_envelope (env : List UInt8) : Prop :=
  env.length = 12 ∧ (RiffHeader.of_bytes env).Chunk_header.ChunkID.eq RIFF = true ∧
    (RiffHeader.of_bytes env).Format.eq WAVE = true

instance (env : List UInt8) : Decidable (valid_envelope env) :=
  inferInstanceAs (Decidable (_ ∧ _))

/-- Lines 93-170 of `run`: `run_validate` followed by `run_read_data`. -/
def run_parse (file : List UInt8) (u : Indeterminate) : Except RunResult Parsed :=
  match run_validate file u with
  | .error r => .error r
  | .ok v => run_read_data v u

/-- Iterations that are enough for the loop of `find_chunk` to end. -/
def iterations_bound (s : IStream) : Nat :=
  if s.good then (s.file.length - s.pos) / 8 + 2 else 1

deriving instance DecidableEq for Except

/-- The values skip-invariance is about: the format fields, the data chunk
header and the payload read when line 170 has been passed, and otherwise how
`run` ended before it. -/
def parse_view : Except RunResult Parsed → Except Outcome (FormatHeader × DataChunk)
  | .error r => .error r.outcome
  | .ok p => .ok (p.format_header, p.data)

/-- The `FormatHeader` that lines 143-147 of `run` build from a complete
`"fmt "` chunk; `none` for a payload of more than 16 bytes, which the read of
lines 146-147 writes past the end of `format_header`. -/
def Chunk.format_header (fmt : Chunk) : Option FormatHeader :=
  if fmt.payload.length > 16 then none
  else some (FormatHeader.of_fields fmt.common_header (store (List.replicate 16 0) fmt.payload))

/-- The view of a container read from its first `"fmt "` chunk `fmt` and the
first `"data"` chunk `data` after it alone. -/
def container_view (fmt data : Chunk) : Except Outcome (FormatHeader × DataChunk) :=
  match fmt.format_header with
  | none => .error (.undefined .buffer_overflow)
  | some format_header =>
    if format_header.NumChannels > 2 then .error (.threw .too_many_channels)
    else if format_header.BlockAlign = 0 then .error (.undefined .division_by_zero)
    else .ok (format_header, ⟨data.common_header, data.payload⟩)

/-! ## The batch of `main.cpp` -/

/-- What `thread_result.get()` does at line 157 for one task: it yields the
`bool` that `conversion_task` returned, or rethrows the `std::exception` that
it threw, `what` being its message. -/
inductive TaskResult
  | returned (success : Bool)
  | threw (what : String)
deriving DecidableEq, Repr

/-- The local `msg_prefix` of line 150. -/
def msg_prefix (i : Nat) : String :=
  "Thread " ++ toString i ++ ": "

/-- The text that iteration `i` of the loop of lines 148-178 writes to
`std::cout`. -/
def report_entry (i : Nat) (wav_file : String) : TaskResult → String
  | .returned true => msg_prefix i ++ "converted file " ++ wav_file ++ "\n"
  | .returned false => msg_prefix i ++ "failed.\n"
  | .threw what =>
    msg_prefix i ++ "converting file " ++ wav_file ++ " failed with exception: " ++ what ++ "\n"

/-- One iteration of the loop of lines 148-178 (`cout` is what has been written
so far). -/
def report_step (wav_file_list : List String) (futures : List TaskResult) (cout : List String)
    (i : Nat) : List String :=
  match futures[i]?, wav_file_list[i]? with
  | some thread_result, some wav_file => cout ++ [report_entry i wav_file thread_result]
  | _, _ => cout

/-- The loop `for (size_t i = 0; i < futures.size(); ++i)` of lines 148-178. -/
def report_loop (wav_file_list : List String) (futures : List TaskResult) : List String :=
  (List.range futures.length).foldl (report_step wav_file_list futures) []

/-- `class Semaphore`: the counter `count` (`unsigned int`); `notify` and `wait`
run under the mutex `m`, each as one step. -/
structure Semaphore where
  count : Nat
deriving DecidableEq, Repr

/-- `Semaphore::notify()`. -/
def Semaphore.notify (s : Semaphore) : Semaphore :=
  ⟨(s.count + 1) % 2 ^ 32⟩

/-- `Semaphore::wait()`: `none` as long as `count != 0` does not hold and the
caller stays blocked. -/
def Semaphore.wait (s : Semaphore) : Option Semaphore :=
  if s.count ≠ 0 then some ⟨s.count - 1⟩ else none

/-- Where a thread stands in `conversion_task` (lines 133-137).  Line 134,
`Semaphore_waiter_notifier {thread_limiter};`, is an expression statement: it
creates a temporary, whose constructor calls `wait` and whose destructor calls
`notify` at the end of that statement. -/
inductive TaskPc
  | waiting
  | holding
  | released
  | running
  | finished
deriving DecidableEq, Repr

/-- The semaphore `thread_limiter` and the threads started by `std::async`. -/
structure BatchState where
  thread_limiter : Semaphore
  tasks : List TaskPc
deriving DecidableEq, Repr

/-- The next step of thread `i`: `wait` returns in the constructor of the
temporary (`waiting` to `holding`), the temporary is destroyed (`holding` to
`released`), `task.run()` is entered (`released` to `running`), `task.run()`
returns or throws (`running` to `finished`).  `none` when the thread is
blocked, has finished or does not exist. -/
def BatchState.step (s : BatchState) (i : Nat) : Option BatchState :=
  match s.tasks[i]? with
  | some .waiting =>
    match s.thread_limiter.wait with
    | some sem => some ⟨sem, s.tasks.set i .holding⟩
    | none => none
  | some .holding => some ⟨s.thread_limiter.notify, s.tasks.set i .released⟩
  | some .released => some ⟨s.thread_limiter, s.tasks.set i .running⟩
  | some .running => some ⟨s.thread_limiter, s.tasks.set i .finished⟩
  | _ => none

/-- The state when `n` tasks have been started against a semaphore of
capacity `c`. -/
def BatchState.initial (c n : Nat) : BatchState :=
  ⟨⟨c⟩, List.replicate n .waiting⟩

/-- The state reached when the threads named in the schedule take one step
each, in that order; a thread that cannot step leaves the state as it is. -/
def BatchState.after (s : BatchState) : List Nat → BatchState
  | [] => s
  | i :: schedule =>
    match s.step i with
    | some t => t.after schedule
    | none => s.after schedule

/-- The number of threads inside `task.run()`. -/
def BatchState.executing (s : BatchState) : Nat :=
  (s.tasks.filter fun pc => pc == .running).length

/-- The number of threads that hold a unit of the semaphore. -/
def BatchState.holders (s : BatchState) : Nat :=
  (s.tasks.filter fun pc => pc == .holding).length

/-! ## Sample inputs -/

/-- A `"LIST"` chunk with a 2-byte payload. -/
def sample_list_chunk : Chunk :=
  ⟨[0x4c, 0x49, 0x53, 0x54, 2, 0, 0, 0], [0xaa, 0xbb]⟩

/-- A `"fmt "` chunk: integer PCM, 2 channels, 44100 Hz, 176400 bytes per
second, 4 bytes per frame, 16 bits per sample. -/
def sample_fmt_chunk : Chunk :=
  ⟨[0x66, 0x6d, 0x74, 0x20, 16, 0, 0, 0],
    [1, 0, 2, 0, 0x44, 0xac, 0, 0, 0x10, 0xb1, 2, 0, 4, 0, 16, 0]⟩

/-- A `"data"` chunk with two stereo frames of 16-bit samples. -/
def sample_data_chunk : Chunk :=
  ⟨[0x64, 0x61, 0x74, 0x61, 8, 0, 0, 0], [1, 0, 2, 0, 3, 0, 4, 0]⟩

/-- A `"RIFF"` / `"WAVE"` envelope. -/
def sample_envelope : List UInt8 :=
  [0x52, 0x49, 0x46, 0x46, 44, 0, 0, 0, 0x57, 0x41, 0x56, 0x45]

/-- Indeterminate contents that happen to be all zero. -/
def zeroed : Indeterminate :=
  ⟨List.replicate 12 0, List.replicate 8 0, List.replicate 8 0⟩

/-- A `"fmt "` chunk: integer PCM, 1 channel, 8000 Hz, 16000 bytes per second,
2 bytes per frame, 16 bits per sample. -/
def sample_mono_fmt_chunk : Chunk :=
  ⟨[0x66, 0x6d, 0x74, 0x20, 16, 0, 0, 0],
    [1, 0, 1, 0, 0x40, 0x1f, 0, 0, 0x80, 0x3e, 0, 0, 2, 0, 16, 0]⟩

/-- The file made of `sample_envelope`, `sample_fmt_chunk` and
`sample_data_chunk`. -/
def sample_stereo_file : List UInt8 :=
  sample_envelope ++ serialize [sample_fmt_chunk, sample_data_chunk]

/-- The file made of `sample_envelope`, `sample_mono_fmt_chunk` and
`sample_data_chunk`. -/
def sample_mono_file : List UInt8 :=
  sample_envelope ++ serialize [sample_mono_fmt_chunk, sample_data_chunk]

/-- A `"fmt "` chunk as `sample_fmt_chunk`, with 3 channels. -/
def sample_three_channel_fmt_chunk : Chunk :=
  ⟨[0x66, 0x6d, 0x74, 0x20, 16, 0, 0, 0],
    [1, 0, 3, 0, 0x44, 0xac, 0, 0, 0x10, 0xb1, 2, 0, 4, 0, 16, 0]⟩

/-- A `"fmt "` chunk as `sample_fmt_chunk`, with 0 channels. -/
def sample_zero_channel_fmt_chunk : Chunk :=
  ⟨[0x66, 0x6d, 0x74, 0x20, 16, 0, 0, 0],
    [1, 0, 0, 0, 0x44, 0xac, 0, 0, 0x10, 0xb1, 2, 0, 4, 0, 16, 0]⟩

/-- The file made of `sample_envelope`, `sample_zero_channel_fmt_chunk` and
`sample_data_chunk`. -/
def sample_zero_channel_file : List UInt8 :=
  sample_envelope ++ serialize [sample_zero_channel_fmt_chunk, sample_data_chunk]

/-- A `"fmt "` chunk: IEEE float, 1 channel, 8000 Hz, 32000 bytes per second,
4 bytes per frame, 32 bits per sample. -/
def sample_float_fmt_chunk : Chunk :=
  ⟨[0x66, 0x6d, 0x74, 0x20, 16, 0, 0, 0],
    [3, 0, 1, 0, 0x40, 0x1f, 0, 0, 0, 0x7d, 0, 0, 4, 0, 32, 0]⟩

/-- The file made of `sample_envelope`, `sample_float_fmt_chunk` and
`sample_data_chunk`. -/
def sample_float_file : List UInt8 :=
  sample_envelope ++ serialize [sample_float_fmt_chunk, sample_data_chunk]

/-- Locals of `run` after line 170 on `sample_stereo_file`. -/
def sample_stereo_parsed : Parsed :=
  ⟨⟨⟨⟨fmt_⟩, 16⟩, 1, 2, 44100, 176400, 4, 16⟩, 2, 44100, 2,
    ⟨⟨⟨data_⟩, 8⟩, [1, 0, 2, 0, 3, 0, 4, 0]⟩, ⟨sample_stereo_file, 52, false, false⟩⟩

/-- Locals of `run` after line 170 on `sample_float_file`. -/
def sample_float_parsed : Parsed :=
  ⟨⟨⟨⟨fmt_⟩, 16⟩, 3, 1, 8000, 32000, 4, 32⟩, 1, 8000, 2,
    ⟨⟨⟨data_⟩, 8⟩, [1, 0, 2, 0, 3, 0, 4, 0]⟩, ⟨sample_float_file, 52, false, false⟩⟩

/-- A `"fmt "` chunk: IEEE float, 1 channel, 2 bytes per frame. -/
def sample_half_float_fmt_chunk : Chunk :=
  ⟨[0x66, 0x6d, 0x74, 0x20, 16, 0, 0, 0],
    [3, 0, 1, 0, 0x40, 0x1f, 0, 0, 0x80, 0x3e, 0, 0, 2, 0, 16, 0]⟩

/-- The file made of `sample_envelope`, `sample_half_float_fmt_chunk` and
`sample_data_chunk`. -/
def sample_half_float_file : List UInt8 :=
  sample_envelope ++ serialize [sample_half_float_fmt_chunk, sample_data_chunk]

/-- A `"fmt "` chunk: encoding kind 2, 2 channels, 0 bytes per frame. -/
def sample_other_encoding_fmt_chunk : Chunk :=
  ⟨[0x66, 0x6d, 0x74, 0x20, 16, 0, 0, 0],
    [2, 0, 2, 0, 0x44, 0xac, 0, 0, 0, 0, 0, 0, 0, 0, 4, 0]⟩

/-- The file made of `sample_envelope`, `sample_other_encoding_fmt_chunk` and
`sample_data_chunk`. -/
def sample_other_encoding_file : List UInt8 :=
  sample_envelope ++ serialize [sample_other_encoding_fmt_chunk, sample_data_chunk]

/-- A `"fmt "` chunk: encoding kind 2, 2 channels, 4 bytes per frame. -/
def sample_adpcm_fmt_chunk : Chunk :=
  ⟨[0x66, 0x6d, 0x74, 0x20, 16, 0, 0, 0],
    [2, 0, 2, 0, 0x44, 0xac, 0, 0, 0x10, 0xb1, 2, 0, 4, 0, 4, 0]⟩

/-- The file made of `sample_envelope`, `sample_adpcm_fmt_chunk` and
`sample_data_chunk`. -/
def sample_adpcm_file : List UInt8 :=
  sample_envelope ++ serialize [sample_adpcm_fmt_chunk, sample_data_chunk]

/-- A `"data"` chunk of 6 bytes: one stereo frame of 16-bit samples and half
a frame. -/
def sample_partial_frame_data_chunk : Chunk :=
  ⟨[0x64, 0x61, 0x74, 0x61, 6, 0, 0, 0], [1, 0, 2, 0, 3, 0]⟩

/-- The file made of `sample_envelope`, `sample_fmt_chunk` and
`sample_partial_frame_data_chunk`. -/
def sample_partial_frame_file : List UInt8 :=
  sample_envelope ++ serialize [sample_fmt_chunk, sample_partial_frame_data_chunk]

/-- Locals of `run` after line 170 on `sample_partial_frame_file`. -/
def sample_partial_frame_parsed : Parsed :=
  ⟨⟨⟨⟨fmt_⟩, 16⟩, 1, 2, 44100, 176400, 4, 16⟩, 2, 44100, 1,
    ⟨⟨⟨data_⟩, 6⟩, [1, 0, 2, 0, 3, 0]⟩, ⟨sample_partial_frame_file, 50, false, false⟩⟩

/-- The file made of `sample_envelope`, `sample_fmt_chunk` and the four bytes
`"data"`: it ends in the middle of a chunk header. -/
def sample_truncated_header_file : List UInt8 :=
  sample_envelope ++ serialize [sample_fmt_chunk] ++ data_

/-- A `"LIST"` chunk that declares 100 payload bytes and holds 2. -/
def sample_overlong_chunk : Chunk :=
  ⟨[0x4c, 0x49, 0x53, 0x54, 100, 0, 0, 0], [0xaa, 0xbb]⟩

/-- A `"fmt "` chunk as `sample_fmt_chunk`, with `BlockAlign` 0. -/
def sample_zero_block_align_fmt_chunk : Chunk :=
  ⟨[0x66, 0x6d, 0x74, 0x20, 16, 0, 0, 0],
    [1, 0, 2, 0, 0x44, 0xac, 0, 0, 0x10, 0xb1, 2, 0, 0, 0, 16, 0]⟩

/-- The file made of `sample_envelope`, `sample_zero_block_align_fmt_chunk` and
`sample_data_chunk`. -/
def sample_zero_block_align_file : List UInt8 :=
  sample_envelope ++ serialize [sample_zero_block_align_fmt_chunk, sample_data_chunk]

/-- A `"fmt "` chunk: integer PCM, 2 channels, 96000 Hz, 384000 bytes per
second, 4 bytes per frame, 16 bits per sample. -/
def sample_96k_fmt_chunk : Chunk :=
  ⟨[0x66, 0x6d, 0x74, 0x20, 16, 0, 0, 0],
    [1, 0, 2, 0, 0x00, 0x77, 0x01, 0, 0x00, 0xdc, 0x05, 0, 4, 0, 16, 0]⟩

/-- The file made of `sample_envelope`, `sample_96k_fmt_chunk` and
`sample_data_chunk`. -/
def sample_96k_file : List UInt8 :=
  sample_envelope ++ serialize [sample_96k_fmt_chunk, sample_data_chunk]

/-- A `"fmt "` chunk: integer PCM, 2 channels, 6 bytes per frame, 24 bits per
sample. -/
def sample_24bit_fmt_chunk : Chunk :=
  ⟨[0x66, 0x6d, 0x74, 0x20, 16, 0, 0, 0],
    [1, 0, 2, 0, 0x44, 0xac, 0, 0, 0x98, 0x09, 0x04, 0, 6, 0, 24, 0]⟩

/-- The file made of `sample_envelope`, `sample_24bit_fmt_chunk` and
`sample_data_chunk`. -/
def sample_24bit_file : List UInt8 :=
  sample_envelope ++ serialize [sample_24bit_fmt_chunk, sample_data_chunk]

/-- A `"fmt "` chunk of 40 payload bytes in the extensible layout: format tag
0xFFFE, 2 channels, 44100 Hz, 176400 bytes per second, 4 bytes per frame, 16
bits per sample, 22 bytes of extension (16 valid bits, channel mask 3, the PCM
sub-format GUID). -/
def sample_extensible_fmt_chunk : Chunk :=
  ⟨[0x66, 0x6d, 0x74, 0x20, 40, 0, 0, 0],
    [0xfe, 0xff, 2, 0, 0x44, 0xac, 0, 0, 0x10, 0xb1, 2, 0, 4, 0, 16, 0,
      22, 0, 16, 0, 3, 0, 0, 0,
      1, 0, 0, 0, 0, 0, 0x10, 0, 0x80, 0, 0, 0xaa, 0, 0x38, 0x9b, 0x71]⟩

/-- A `"fmt "` chunk as `sample_extensible_fmt_chunk`, with 3 channels, 6 bytes
per frame and channel mask 7. -/
def sample_extensible_three_channel_fmt_chunk : Chunk :=
  ⟨[0x66, 0x6d, 0x74, 0x20, 40, 0, 0, 0],
    [0xfe, 0xff, 3, 0, 0x44, 0xac, 0, 0, 0x98, 0x09, 0x04, 0, 6, 0, 16, 0,
      22, 0, 16, 0, 7, 0, 0, 0,
      1, 0, 0, 0, 0, 0, 0x10, 0, 0x80, 0, 0, 0xaa, 0, 0x38, 0x9b, 0x71]⟩

/-- The file made of `sample_envelope`,
`sample_extensible_three_channel_fmt_chunk` and `sample_data_chunk`. -/
def sample_extensible_three_channel_file : List UInt8 :=
  sample_envelope ++ serialize [sample_extensible_three_channel_fmt_chunk, sample_data_chunk]

/-- Locals of `run` after line 170 on `sample_zero_channel_file`. -/
def sample_zero_channel_parsed : Parsed :=
  ⟨⟨⟨⟨fmt_⟩, 16⟩, 1, 0, 44100, 176400, 4, 16⟩, 0, 44100, 2,
    ⟨⟨⟨data_⟩, 8⟩, [1, 0, 2, 0, 3, 0, 4, 0]⟩, ⟨sample_zero_channel_file, 52, false, false⟩⟩

/-- A `"fmt "` chunk as `sample_float_fmt_chunk`, with 0 channels. -/
def sample_float_zero_channel_fmt_chunk : Chunk :=
  ⟨[0x66, 0x6d, 0x74, 0x20, 16, 0, 0, 0],
    [3, 0, 0, 0, 0x40, 0x1f, 0, 0, 0, 0x7d, 0, 0, 4, 0, 32, 0]⟩

/-- The file made of `sample_envelope`, `sample_float_zero_channel_fmt_chunk`
and `sample_data_chunk`. -/
def sample_float_zero_channel_file : List UInt8 :=
  sample_envelope ++ serialize [sample_float_zero_channel_fmt_chunk, sample_data_chunk]

/-- Locals of `run` after line 170 on `sample_float_zero_channel_file`. -/
def sample_float_zero_channel_parsed : Parsed :=
  ⟨⟨⟨⟨fmt_⟩, 16⟩, 3, 0, 8000, 32000, 4, 32⟩, 0, 8000, 2,
    ⟨⟨⟨data_⟩, 8⟩, [1, 0, 2, 0, 3, 0, 4, 0]⟩,
    ⟨sample_float_zero_channel_file, 52, false, false⟩⟩

/-- A `"fmt "` chunk as `sample_float_fmt_chunk` in the 18-byte layout: the 16
bytes are followed by an extension size of 0. -/
def sample_float_18_fmt_chunk : Chunk :=
  ⟨[0x66, 0x6d, 0x74, 0x20, 18, 0, 0, 0],
    [3, 0, 1, 0, 0x40, 0x1f, 0, 0, 0, 0x7d, 0, 0, 4, 0, 32, 0, 0, 0]⟩

/-- The file made of `sample_envelope`, `sample_float_18_fmt_chunk` and
`sample_data_chunk`. -/
def sample_float_18_file : List UInt8 :=
  sample_envelope ++ serialize [sample_float_18_fmt_chunk, sample_data_chunk]

/-- Contents of the uninitialised locals in which the `potential_chunk` of the
search for `"data"` holds the identifier `"data"` and a size of 8. -/
def sample_leftover : Indeterminate :=
  ⟨List.replicate 12 0, List.replicate 8 0, data_ ++ [8, 0, 0, 0]⟩

/-! # Properties -/

/-! ## Streams -/

theorem IStream.read_of_prefix (s : IStream) (n : Nat) (bs rest : List UInt8)
    (hg : s.good = true) (hf : s.file.drop s.pos = bs ++ rest) (hn : bs.length = n) :
    s.read n = (bs, { s with pos := s.pos + n }) := by
  unfold IStream.read
  have h1 : (s.file.drop s.pos).take n = bs := by
    rw [hf, ← hn, List.take_left]
  simp [hg, h1, hn]

theorem IStream.read_not_good (s : IStream) (n : Nat) (hg : s.good = false) :
    s.read n = ([], { s with failbit := true }) := by
  unfold IStream.read
  simp [hg]

theorem IStream.read_file (s : IStream) (n : Nat) : (s.read n).2.file = s.file := by
  unfold IStream.read
  split
  · dsimp only
    split <;> rfl
  · rfl

theorem IStream.seekg_cur_file (s : IStream) (n : Nat) : (s.seekg_cur n).file = s.file := by
  unfold IStream.seekg_cur
  split <;> rfl

/-! ## Termination of the chunk search -/

theorem find_chunk_loop_succ (identifier : List UInt8) :
    ∀ (fuel : Nat) (pc : List UInt8) (s : IStream) (r : Option CommonHeader × IStream),
      find_chunk_loop identifier fuel pc s = some r →
      find_chunk_loop identifier (fuel + 1) pc s = some r := by
  intro fuel
  induction fuel with
  | zero => intro pc s r h; simp [find_chunk_loop] at h
  | succ n ih =>
    intro pc s r h
    rw [find_chunk_loop] at h ⊢
    by_cases hg : s.good = true
    · simp only [hg, if_true] at h ⊢
      by_cases hm : (CommonHeader.of_bytes (store pc (s.read 8).1)).ChunkID.eq identifier = true
      · simp only [hm, if_true] at h ⊢
        exact h
      · simp only [hm] at h ⊢
        exact ih _ _ _ h
    · simp only [hg] at h ⊢
      exact h

theorem find_chunk_loop_mono (identifier : List UInt8) (n m : Nat) (pc : List UInt8)
    (s : IStream) (r : Option CommonHeader × IStream)
    (h : find_chunk_loop identifier n pc s = some r) (hnm : n ≤ m) :
    find_chunk_loop identifier m pc s = some r := by
  induction hnm with
  | refl => exact h
  | step _ ih => exact find_chunk_loop_succ identifier _ pc s r ih

theorem find_chunk_loop_total_aux (identifier : List UInt8) :
    ∀ (fuel : Nat) (pc : List UInt8) (s : IStream), iterations_bound s ≤ fuel →
      ∃ r, find_chunk_loop identifier fuel pc s = some r := by
  intro fuel
  induction fuel with
  | zero =>
    intro pc s h
    unfold iterations_bound at h
    split at h <;> omega
  | succ n ih =>
    intro pc s h
    rw [find_chunk_loop]
    by_cases hg : s.good = true
    · simp only [hg, if_true]
      by_cases hm : (CommonHeader.of_bytes (store pc (s.read 8).1)).ChunkID.eq identifier = true
      · simp only [hm, if_true]
        exact ⟨_, rfl⟩
      · simp only [hm]
        apply ih
        unfold iterations_bound at h ⊢
        simp only [hg, if_true] at h
        have hg2 := hg
        unfold IStream.good at hg2
        simp only [Bool.and_eq_true, Bool.not_eq_true'] at hg2
        unfold IStream.read IStream.seekg_cur
        simp only [hg, if_true]
        by_cases hl : ((s.file.drop s.pos).take 8).length = 8
        · simp only [hl, if_true, hg2.2]
          simp only [IStream.good, hg2.2, Bool.not_false, Bool.and_self, if_true]
          simp only [List.length_take, List.length_drop] at hl
          simp only [Bool.false_eq_true, if_false, IStream.good, Bool.not_false, Bool.and_self,
            if_true]
          omega
        · simp only [hl, if_false, if_true]
          simp only [IStream.good, Bool.not_true, Bool.and_false, Bool.false_eq_true, if_false]
          omega
    · simp only [hg]
      exact ⟨_, rfl⟩

theorem find_chunk_loop_total (identifier pc : List UInt8) (s : IStream) :
    ∃ r, find_chunk_loop identifier (s.file.length + 2) pc s = some r := by
  apply find_chunk_loop_total_aux
  unfold iterations_bound
  split
  · have : (s.file.length - s.pos) / 8 ≤ s.file.length - s.pos := Nat.div_le_self _ _
    omega
  · omega

theorem find_chunk_eq_of_loop (identifier pc : List UInt8) (s : IStream) (n : Nat)
    (r : Option CommonHeader × IStream) (h : find_chunk_loop identifier n pc s = some r) :
    find_chunk identifier pc s = r := by
  obtain ⟨r2, h2⟩ := find_chunk_loop_total identifier pc s
  have e1 := find_chunk_loop_mono identifier n (max n (s.file.length + 2)) pc s r h
    (Nat.le_max_left _ _)
  have e2 := find_chunk_loop_mono identifier (s.file.length + 2) (max n (s.file.length + 2))
    pc s r2 h2 (Nat.le_max_right _ _)
  rw [e1] at e2
  unfold find_chunk
  rw [h2]
  simp only [Option.getD_some]
  exact (Option.some.inj e2).symm

/-! ## Walking over chunks -/

theorem strncmp_eq_zero_iff (n : Nat) :
    ∀ (a lit : List UInt8), a.length = n → lit.length = n → (∀ b ∈ lit, b ≠ 0) →
      (strncmp_eq_zero a lit n = true ↔ a = lit) := by
  induction n with
  | zero =>
    intro a lit ha hl _
    rw [List.length_eq_zero] at ha hl
    simp [ha, hl, strncmp_eq_zero]
  | succ n ih =>
    intro a lit ha hl hnz
    match a, lit, ha, hl with
    | x :: a, y :: lit, ha, hl =>
      have hy : y ≠ 0 := hnz y (List.mem_cons_self _ _)
      have ih2 := ih a lit (by simpa using ha) (by simpa using hl)
        (fun b hb => hnz b (List.mem_cons_of_mem _ hb))
      by_cases hxy : x = y
      · subst hxy
        simp [strncmp_eq_zero, hy, ih2]
      · simp [strncmp_eq_zero, hxy]

theorem of_bytes_append (h x : List UInt8) (hh : h.length = 8) :
    CommonHeader.of_bytes (h ++ x) = CommonHeader.of_bytes h := by
  unfold CommonHeader.of_bytes field
  rw [List.take_append_of_le_length (by omega), List.drop_append_of_le_length (by omega),
    List.take_append_of_le_length (by simp [hh])]

theorem of_bytes_store (pc h : List UInt8) (hh : h.length = 8) :
    CommonHeader.of_bytes (store pc h) = CommonHeader.of_bytes h := by
  unfold store
  exact of_bytes_append h _ hh

theorem serialize_append (a b : List Chunk) :
    serialize (a ++ b) = serialize a ++ serialize b := by
  induction a with
  | nil => rfl
  | cons c cs ih => simp [serialize, ih]

theorem serialize_length (cs : List Chunk) (hc : ∀ c ∈ cs, c.complete) :
    (serialize cs).length = (cs.map fun c => 8 + c.common_header.ChunkSize).sum := by
  induction cs with
  | nil => rfl
  | cons c cs ih =>
    have h1 := hc c (List.mem_cons_self _ _)
    have h2 := ih (fun d hd => hc d (List.mem_cons_of_mem _ hd))
    simp only [serialize, Chunk.bytes, List.length_append, List.map_cons, List.sum_cons, h2,
      h1.1, h1.2]

theorem after_headers_snoc (pc : List UInt8) (cs : List Chunk) (c : Chunk) :
    after_headers pc (cs ++ [c]) = store (after_headers pc cs) c.header := by
  induction cs generalizing pc with
  | nil => rfl
  | cons d ds ih => simp [after_headers, ih]

/-- The loop of `find_chunk` steps over complete chunks that do not match. -/
theorem find_chunk_loop_skip (identifier : List UInt8) :
    ∀ (pre : List Chunk) (fuel : Nat) (pc file : List UInt8) (pos : Nat) (tail : List UInt8),
      (∀ c ∈ pre, c.complete ∧ c.has_id identifier = false) →
      file.drop pos = serialize pre ++ tail →
      find_chunk_loop identifier (pre.length + fuel) pc ⟨file, pos, false, false⟩ =
        find_chunk_loop identifier fuel (after_headers pc pre)
          ⟨file, pos + (serialize pre).length, false, false⟩ := by
  intro pre
  induction pre with
  | nil => intro fuel pc file pos tail _ _; simp [serialize, after_headers]
  | cons c cs ih =>
    intro fuel pc file pos tail hpre hfile
    obtain ⟨⟨hlen, hsize⟩, hid⟩ := hpre c (List.mem_cons_self _ _)
    have hrest : ∀ d ∈ cs, d.complete ∧ d.has_id identifier = false :=
      fun d hd => hpre d (List.mem_cons_of_mem _ hd)
    have hread : (IStream.mk file pos false false).read 8 =
        (c.header, ⟨file, pos + 8, false, false⟩) := by
      apply IStream.read_of_prefix ⟨file, pos, false, false⟩ 8 c.header
        (c.payload ++ serialize cs ++ tail) rfl _ hlen
      simp only [hfile, serialize, Chunk.bytes, List.append_assoc]
    have hfuel : (c :: cs).length + fuel = (cs.length + fuel) + 1 := by
      simp only [List.length_cons]; omega
    have hnext : file.drop (pos + 8 + c.common_header.ChunkSize) = serialize cs ++ tail := by
      have h1 : file.drop (pos + 8 + c.common_header.ChunkSize) =
          (file.drop pos).drop (8 + c.common_header.ChunkSize) := by
        rw [List.drop_drop]; congr 1; omega
      rw [h1, hfile]
      have h2 : serialize (c :: cs) ++ tail = (c.header ++ c.payload) ++ (serialize cs ++ tail) := by
        simp only [serialize, Chunk.bytes, List.append_assoc]
      rw [h2, List.drop_append_of_le_length (by simp [hlen, hsize])]
      rw [List.drop_of_length_le (by simp [hlen, hsize])]
      rfl
    rw [hfuel, find_chunk_loop]
    have hid2 : (CommonHeader.of_bytes (store pc c.header)).ChunkID.eq identifier = false := by
      rw [of_bytes_store pc c.header hlen]; exact hid
    simp only [hread, IStream.good, Bool.not_false, Bool.and_self, if_true, hid2,
      Bool.false_eq_true, if_false, IStream.seekg_cur, of_bytes_store pc c.header hlen]
    have := ih fuel (store pc c.header) file (pos + 8 + c.common_header.ChunkSize) tail hrest hnext
    rw [Chunk.common_header] at this
    rw [this]
    have hid3 : (CommonHeader.of_bytes c.header).ChunkID.eq identifier = false := hid
    simp only [after_headers, serialize, Chunk.bytes, List.length_append, hlen, hsize,
      Chunk.common_header, hid3, Bool.false_eq_true, if_false, Nat.add_assoc]

theorem drop_add_of_drop_eq_append (file a b : List UInt8) (pos : Nat)
    (h : file.drop pos = a ++ b) : file.drop (pos + a.length) = b := by
  have h1 : file.drop (pos + a.length) = (file.drop pos).drop a.length := by
    rw [List.drop_drop]
  rw [h1, h, List.drop_left]

/-- The loop of `find_chunk` returns the header of a matching chunk that
follows complete chunks that do not match. -/
theorem find_chunk_loop_hit (identifier pc file : List UInt8) (pos : Nat) (pre : List Chunk)
    (c : Chunk) (tail : List UInt8)
    (hpre : ∀ p ∈ pre, p.complete ∧ p.has_id identifier = false)
    (hlen : c.header.length = 8) (hid : c.has_id identifier = true)
    (hfile : file.drop pos = serialize pre ++ (c.header ++ tail)) :
    find_chunk_loop identifier (pre.length + 1) pc ⟨file, pos, false, false⟩ =
      some (some c.common_header, ⟨file, pos + (serialize pre).length + 8, false, false⟩) := by
  rw [find_chunk_loop_skip identifier pre 1 pc file pos (c.header ++ tail) hpre hfile]
  have hread : (IStream.mk file (pos + (serialize pre).length) false false).read 8 =
      (c.header, ⟨file, pos + (serialize pre).length + 8, false, false⟩) :=
    IStream.read_of_prefix ⟨file, pos + (serialize pre).length, false, false⟩ 8 c.header tail rfl
      (drop_add_of_drop_eq_append file _ _ pos hfile) hlen
  have hid3 : (CommonHeader.of_bytes c.header).ChunkID.eq identifier = true := hid
  rw [find_chunk_loop]
  simp only [hread, IStream.good, Bool.not_false, Bool.and_self, if_true,
    of_bytes_store _ c.header hlen, hid3, Chunk.common_header]

theorem first_match_split (identifier : List UInt8) :
    ∀ (chunks : List Chunk), (∃ c ∈ chunks, c.has_id identifier = true) →
      ∃ pre c post, chunks = pre ++ c :: post ∧ (∀ p ∈ pre, p.has_id identifier = false) ∧
        c.has_id identifier = true ∧
        chunks.takeWhile (fun c => !c.has_id identifier) = pre ∧
        chunks.find? (fun c => c.has_id identifier) = some c := by
  intro chunks
  induction chunks with
  | nil => intro h; obtain ⟨c, hc, _⟩ := h; simp at hc
  | cons d ds ih =>
    intro h
    by_cases hd : d.has_id identifier = true
    · exact ⟨[], d, ds, rfl, by simp, hd, by simp [List.takeWhile, hd], by simp [List.find?, hd]⟩
    · have hd2 : d.has_id identifier = false := by simpa using hd
      obtain ⟨c, hc, hcid⟩ := h
      have hcds : c ∈ ds := by
        rcases List.mem_cons.mp hc with h1 | h1
        · subst h1; rw [hd2] at hcid; cases hcid
        · exact h1
      obtain ⟨pre, c2, post, e, hp, hc2, htw, hf⟩ := ih ⟨c, hcds, hcid⟩
      refine ⟨d :: pre, c2, post, by simp [e], ?_, hc2, ?_, ?_⟩
      · intro p hp2
        rcases List.mem_cons.mp hp2 with h1 | h1
        · subst h1; exact hd2
        · exact hp p h1
      · simp [List.takeWhile, hd2, htw]
      · simp [List.find?, hd2, hf]

/-- C1. On a good stream positioned at the start of a sequence of complete
chunks of which at least one has the requested identifier, `find_chunk` returns
the header of the first such chunk, and the cursor has moved over the 8-byte
header and the `ChunkSize` payload bytes of every earlier chunk and over the
8-byte header returned. -/
theorem find_chunk_returns_first_match (identifier pc : List UInt8) (s : IStream)
    (chunks : List Chunk) (hgood : s.good = true)
    (hfile : s.file.drop s.pos = serialize chunks)
    (hcomplete : ∀ c ∈ chunks, c.complete)
    (hsome : ∃ c ∈ chunks, c.has_id identifier = true) :
    ∃ c, chunks.find? (fun c => c.has_id identifier) = some c ∧
      find_chunk identifier pc s =
        (some c.common_header,
          { s with
            pos := s.pos +
              ((chunks.takeWhile fun c => !c.has_id identifier).map
                fun c => 8 + c.common_header.ChunkSize).sum + 8 }) := by
  obtain ⟨pre, c, post, e, hp, hc, htw, hf⟩ := first_match_split identifier chunks hsome
  refine ⟨c, hf, ?_⟩
  have hpre : ∀ p ∈ pre, p.complete ∧ p.has_id identifier = false := fun p hp2 =>
    ⟨hcomplete p (by rw [e]; exact List.mem_append_left _ hp2), hp p hp2⟩
  have hclen : c.header.length = 8 :=
    (hcomplete c (by rw [e]; exact List.mem_append_right _ (List.mem_cons_self _ _))).1
  obtain ⟨file, pos, eofbit, failbit⟩ := s
  simp only [IStream.good, Bool.and_eq_true, Bool.not_eq_true'] at hgood
  obtain ⟨h1, h2⟩ := hgood
  subst h1 h2
  have hfile2 : file.drop pos = serialize pre ++ (c.header ++ (c.payload ++ serialize post)) := by
    have : List.drop pos file = serialize chunks := hfile
    rw [this, e, serialize_append]
    simp only [serialize, Chunk.bytes, List.append_assoc]
  rw [htw, ← serialize_length pre (fun p hp2 => (hpre p hp2).1)]
  exact find_chunk_eq_of_loop identifier pc _ _ _
    (find_chunk_loop_hit identifier pc file pos pre c _ hpre hclen hc hfile2)

theorem find_chunk_returns_first_match_witness :
    ∃ c, [sample_list_chunk, sample_fmt_chunk, sample_data_chunk].find?
        (fun c => c.has_id data_) = some c ∧
      find_chunk data_ [] ⟨sample_envelope ++
          serialize [sample_list_chunk, sample_fmt_chunk, sample_data_chunk], 12, false, false⟩ =
        (some c.common_header,
          { (⟨sample_envelope ++
              serialize [sample_list_chunk, sample_fmt_chunk, sample_data_chunk],
              12, false, false⟩ : IStream) with
            pos := 12 +
              (([sample_list_chunk, sample_fmt_chunk, sample_data_chunk].takeWhile
                fun c => !c.has_id data_).map fun c => 8 + c.common_header.ChunkSize).sum + 8 }) :=
  find_chunk_returns_first_match data_ []
    ⟨sample_envelope ++ serialize [sample_list_chunk, sample_fmt_chunk, sample_data_chunk],
      12, false, false⟩
    [sample_list_chunk, sample_fmt_chunk, sample_data_chunk]
    (by decide) (by decide) (by decide) (by decide)

theorem find_chunk_sample_data : find_chunk data_ [] ⟨sample_envelope ++
          serialize [sample_list_chunk, sample_fmt_chunk, sample_data_chunk], 12, false, false⟩ =
    (some ⟨⟨data_⟩, 8⟩, ⟨sample_envelope ++
          serialize [sample_list_chunk, sample_fmt_chunk, sample_data_chunk], 54, false, false⟩) := by
  decide

/-! ## Channel splitting -/

theorem interpret_length (w : Nat) (bytes : List UInt8) :
    (interpret w bytes).length = bytes.length / w := by
  simp [interpret]

theorem interpret_getElem? (w : Nat) (bytes : List UInt8) (i : Nat)
    (hi : i < bytes.length / w) :
    (interpret w bytes)[i]? = some ((bytes.drop (i * w)).take w) := by
  simp [interpret, List.getElem?_range hi]

/-- The loop of `convert_from_raw` over `2 * n` elements that lie in the array:
element `2 * i` goes to `l_buffer`, element `2 * i + 1` to `r_buffer`. -/
theorem split_fold (arr : List Sample) :
    ∀ n : Nat, 2 * n ≤ arr.length →
      (List.range (2 * n)).foldl (split_step arr) (some ([], [])) =
        some ((List.range n).map (fun i => arr[2 * i]?.getD []),
          (List.range n).map (fun i => arr[2 * i + 1]?.getD [])) := by
  intro n
  induction n with
  | zero => intro _; rfl
  | succ n ih =>
    intro h
    have e : 2 * (n + 1) = (2 * n + 1) + 1 := by omega
    rw [e, List.range_succ, List.range_succ, List.foldl_append, List.foldl_append, ih (by omega)]
    have h0 : arr[2 * n]? = some arr[2 * n] := List.getElem?_eq_getElem (by omega)
    have h1 : arr[2 * n + 1]? = some arr[2 * n + 1] := List.getElem?_eq_getElem (by omega)
    have m0 : 2 * n % 2 = 0 := by omega
    have m1 : ¬ (2 * n + 1) % 2 = 0 := by omega
    simp only [List.foldl_cons, List.foldl_nil, split_step, h0, h1, m0, m1, if_true, if_false,
      List.range_succ, List.map_append, List.map_cons, List.map_nil, Option.getD_some]

theorem split_channels_in_bounds (arr : List Sample) (n : Nat) (h : 2 * n ≤ arr.length)
    (hn : n * 2 < 2 ^ 64) :
    split_channels arr n =
      some ((List.range n).map (fun i => arr[2 * i]?.getD []),
        (List.range n).map (fun i => arr[2 * i + 1]?.getD [])) := by
  unfold split_channels
  rw [Nat.mod_eq_of_lt hn, Nat.mul_comm n 2]
  exact split_fold arr n h

/-- C3. With two channels and a buffer holding at least `2 * n` samples of
type `R`, `convert_from_raw<R>` calls `Encode` once, with buffers of length `n`
each, where `buffer_l[i]` is input sample `2 * i` and `buffer_r[i]` is input
sample `2 * i + 1` for every `i < n`. -/
theorem convert_from_raw_stereo (lame : EncodeCall → Bool) (R : SampleType) (data : DataChunk)
    (n sample_rate : Nat) (hsize : data.Data.length < 2 ^ 64)
    (hbuf : 2 * n * R.sizeof ≤ data.Data.length) :
    ∃ l r, convert_from_raw lame R data n 2 sample_rate =
        (Encode lame ⟨R, n, sample_rate, 2, l, r⟩,
          [.open_output R, .Encode ⟨R, n, sample_rate, 2, l, r⟩]) ∧
      l.length = n ∧ r.length = n ∧
      ∀ i, i < n →
        l[i]? = some ((data.Data.drop (2 * i * R.sizeof)).take R.sizeof) ∧
        r[i]? = some ((data.Data.drop ((2 * i + 1) * R.sizeof)).take R.sizeof) := by
  have hw : 0 < R.sizeof := by cases R <;> decide
  have hlen : 2 * n ≤ (interpret R.sizeof data.Data).length := by
    rw [interpret_length, Nat.le_div_iff_mul_le hw]; exact hbuf
  have hle : data.Data.length / R.sizeof ≤ data.Data.length := Nat.div_le_self _ _
  have hmod : n * 2 < 2 ^ 64 := by
    rw [interpret_length] at hlen
    omega
  refine ⟨(List.range n).map (fun i => (interpret R.sizeof data.Data)[2 * i]?.getD []),
    (List.range n).map (fun i => (interpret R.sizeof data.Data)[2 * i + 1]?.getD []), ?_, by simp,
    by simp, ?_⟩
  · simp only [convert_from_raw, split_channels_in_bounds _ n hlen hmod]
    simp
  · intro i hi
    rw [interpret_length] at hlen
    have e0 := interpret_getElem? R.sizeof data.Data (2 * i) (by omega)
    have e1 := interpret_getElem? R.sizeof data.Data (2 * i + 1) (by omega)
    simp [List.getElem?_range hi, hi, e0, e1]

theorem convert_from_raw_stereo_witness :
    ∃ l r, convert_from_raw (fun _ => true) .short ⟨⟨⟨data_⟩, 8⟩, [1, 0, 2, 0, 3, 0, 4, 0]⟩
          2 2 44100 =
        (Encode (fun _ => true) ⟨.short, 2, 44100, 2, l, r⟩,
          [.open_output .short, .Encode ⟨.short, 2, 44100, 2, l, r⟩]) ∧
      l.length = 2 ∧ r.length = 2 ∧
      ∀ i, i < 2 →
        l[i]? = some ((([1, 0, 2, 0, 3, 0, 4, 0] : List UInt8).drop
          (2 * i * SampleType.short.sizeof)).take SampleType.short.sizeof) ∧
        r[i]? = some ((([1, 0, 2, 0, 3, 0, 4, 0] : List UInt8).drop
          ((2 * i + 1) * SampleType.short.sizeof)).take SampleType.short.sizeof) :=
  convert_from_raw_stereo (fun _ => true) .short ⟨⟨⟨data_⟩, 8⟩, [1, 0, 2, 0, 3, 0, 4, 0]⟩ 2 44100
    (by simp) (by decide)

theorem convert_from_raw_sample_stereo :
    convert_from_raw (fun _ => true) .short ⟨⟨⟨data_⟩, 8⟩, [1, 0, 2, 0, 3, 0, 4, 0]⟩ 2 2 44100 =
      (.returned true, [.open_output .short,
        .Encode ⟨.short, 2, 44100, 2, [[1, 0], [3, 0]], [[2, 0], [4, 0]]⟩]) := by
  decide

/-! ## What the parsing stages establish -/

theorem IStream.read_length_le (s : IStream) (n : Nat) : (s.read n).1.length ≤ n := by
  unfold IStream.read
  split
  · dsimp only
    split <;> simp [List.length_take]
  · simp

theorem store_replicate_length (n : Nat) (src : List UInt8) (h : src.length ≤ n) :
    (store (List.replicate n 0) src).length = n := by
  simp [store]; omega

theorem run_format_ok (u : Indeterminate) (s : IStream) (v : Validated)
    (h : run_format u s = .ok v) :
    v.num_channels = v.format_header.NumChannels ∧ v.num_channels ≤ 2 ∧
      v.sample_rate = v.format_header.SampleRate % 2 ^ 16 := by
  unfold run_format at h
  split at h
  · cases h
  · split at h
    · cases h
    · simp only at h
      split at h
      · cases h
      · rename_i hch
        injection h with h
        subst h
        exact ⟨rfl, by simpa using hch, rfl⟩

theorem run_validate_ok (file : List UInt8) (u : Indeterminate) (v : Validated)
    (h : run_validate file u = .ok v) :
    v.num_channels = v.format_header.NumChannels ∧ v.num_channels ≤ 2 ∧
      v.sample_rate = v.format_header.SampleRate % 2 ^ 16 := by
  unfold run_validate at h
  simp only at h
  split at h
  · cases h
  · split at h
    · cases h
    · exact run_format_ok u _ v h

theorem run_read_data_ok (v : Validated) (u : Indeterminate) (p : Parsed)
    (h : run_read_data v u = .ok p) :
    p.format_header = v.format_header ∧ p.num_channels = v.num_channels ∧
      p.sample_rate = v.sample_rate ∧ p.format_header.BlockAlign ≠ 0 ∧
      p.num_frames = p.data.Chunk_header.ChunkSize / p.format_header.BlockAlign ∧
      p.data.Data.length = p.data.Chunk_header.ChunkSize := by
  unfold run_read_data at h
  split at h
  · cases h
  · simp only at h
    split at h
    · cases h
    · rename_i hb
      injection h with h
      subst h
      exact ⟨rfl, rfl, rfl, hb, rfl, store_replicate_length _ _ (IStream.read_length_le _ _)⟩

/-- Facts about the locals of `run` once line 170 has been passed. -/
theorem run_parse_ok (file : List UInt8) (u : Indeterminate) (p : Parsed)
    (h : run_parse file u = .ok p) :
    p.num_channels = p.format_header.NumChannels ∧ p.num_channels ≤ 2 ∧
      p.sample_rate = p.format_header.SampleRate % 2 ^ 16 ∧
      p.format_header.BlockAlign ≠ 0 ∧
      p.num_frames = p.data.Chunk_header.ChunkSize / p.format_header.BlockAlign ∧
      p.data.Data.length = p.data.Chunk_header.ChunkSize := by
  unfold run_parse at h
  split at h
  · cases h
  · rename_i v hv
    obtain ⟨a1, a2, a3⟩ := run_validate_ok file u v hv
    obtain ⟨b1, b2, b3, b4, b5, b6⟩ := run_read_data_ok v u p h
    rw [b1, b2, b3]
    rw [b1] at b4 b5
    exact ⟨a1, a2, a3, b4, b5, b6⟩

theorem run_eq_of_parse_error (file : List UInt8) (u : Indeterminate) (lame : EncodeCall → Bool)
    (r : RunResult) (h : run_parse file u = .error r) : run file u lame = r := by
  unfold run_parse at h
  unfold run
  split at h
  · injection h
  · simp only [h]

theorem run_eq_of_parse_ok (file : List UInt8) (u : Indeterminate) (lame : EncodeCall → Bool)
    (p : Parsed) (h : run_parse file u = .ok p) : run file u lame = run_dispatch lame p := by
  unfold run_parse at h
  unfold run
  split at h
  · cases h
  · simp only [h]

/-! ## The chunk search on a file made of complete chunks -/

theorem find_chunk_hit (identifier pc file : List UInt8) (pos : Nat) (pre : List Chunk)
    (c : Chunk) (tail : List UInt8)
    (hpre : ∀ p ∈ pre, p.complete ∧ p.has_id identifier = false)
    (hlen : c.header.length = 8) (hid : c.has_id identifier = true)
    (hfile : file.drop pos = serialize pre ++ (c.header ++ tail)) :
    find_chunk identifier pc ⟨file, pos, false, false⟩ =
      (some c.common_header, ⟨file, pos + (serialize pre).length + 8, false, false⟩) :=
  find_chunk_eq_of_loop identifier pc _ _ _
    (find_chunk_loop_hit identifier pc file pos pre c tail hpre hlen hid hfile)

theorem after_headers_no_match (identifier : List UInt8) :
    ∀ (pre : List Chunk) (pc : List UInt8), pre ≠ [] →
      (∀ p ∈ pre, p.complete ∧ p.has_id identifier = false) →
      (CommonHeader.of_bytes (after_headers pc pre)).ChunkID.eq identifier = false := by
  intro pre
  induction pre with
  | nil => intro pc h; exact absurd rfl h
  | cons c cs ih =>
    intro pc _ hpre
    obtain ⟨⟨hlen, _⟩, hid⟩ := hpre c (List.mem_cons_self _ _)
    by_cases hcs : cs = []
    · subst hcs
      simp only [after_headers, of_bytes_store pc c.header hlen]
      exact hid
    · exact ih (store pc c.header) hcs (fun d hd => hpre d (List.mem_cons_of_mem _ hd))

/-- The search on a file that ends after complete chunks none of which
matches: the read at the end of the file fails and leaves `potential_chunk` as
it was. -/
theorem find_chunk_exhausted (identifier pc file : List UInt8) (pos : Nat) (pre : List Chunk)
    (hpre : ∀ p ∈ pre, p.complete ∧ p.has_id identifier = false)
    (hfile : file.drop pos = serialize pre) :
    find_chunk identifier pc ⟨file, pos, false, false⟩ =
      if (CommonHeader.of_bytes (after_headers pc pre)).ChunkID.eq identifier then
        (some (CommonHeader.of_bytes (after_headers pc pre)),
          ⟨file, pos + (serialize pre).length, true, true⟩)
      else (none, ⟨file, pos + (serialize pre).length, false, true⟩) := by
  apply find_chunk_eq_of_loop identifier pc _ (pre.length + 2)
  rw [find_chunk_loop_skip identifier pre 2 pc file pos [] hpre (by simpa using hfile)]
  have hdrop : file.drop (pos + (serialize pre).length) = [] := by
    have := drop_add_of_drop_eq_append file (serialize pre) [] pos (by simpa using hfile)
    exact this
  have hread : (IStream.mk file (pos + (serialize pre).length) false false).read 8 =
      ([], ⟨file, pos + (serialize pre).length, true, true⟩) := by
    simp [IStream.read, IStream.good, hdrop]
  rw [find_chunk_loop]
  simp only [hread, IStream.good, Bool.not_false, Bool.and_self, if_true]
  have hst : store (after_headers pc pre) [] = after_headers pc pre := by simp [store]
  rw [hst]
  by_cases hm : (CommonHeader.of_bytes (after_headers pc pre)).ChunkID.eq identifier = true
  · simp only [hm, if_true]
  · simp only [hm, if_false, Bool.false_eq_true]
    rw [find_chunk_loop]
    simp [IStream.seekg_cur, IStream.good]

theorem find_chunk_not_good (identifier pc : List UInt8) (s : IStream) (h : s.good = false) :
    find_chunk identifier pc s = (none, s) := by
  apply find_chunk_eq_of_loop identifier pc s 1
  rw [find_chunk_loop]
  simp [h]

theorem riff_of_bytes_append (env x : List UInt8) (h : env.length = 12) :
    RiffHeader.of_bytes (env ++ x) = RiffHeader.of_bytes env := by
  unfold RiffHeader.of_bytes CommonHeader.of_bytes field
  rw [List.take_append_of_le_length (by omega), List.drop_append_of_le_length (by omega),
    List.take_append_of_le_length (by simp [h]), List.drop_append_of_le_length (by omega),
    List.take_append_of_le_length (by simp [h])]

/-! ## The parsing stages on a container -/

theorem run_validate_valid_envelope (env rest : List UInt8) (u : Indeterminate)
    (henv : valid_envelope env) :
    run_validate (env ++ rest) u = run_format u ⟨env ++ rest, 12, false, false⟩ := by
  obtain ⟨hlen, hriff, hwave⟩ := henv
  have hread : (IStream.mk (env ++ rest) 0 false false).read 12 =
      (env, ⟨env ++ rest, 12, false, false⟩) := by
    have := IStream.read_of_prefix ⟨env ++ rest, 0, false, false⟩ 12 env rest rfl rfl hlen
    simpa using this
  unfold run_validate
  simp only [hread, store, riff_of_bytes_append env _ hlen, FourUnterminatedChars.ne, hriff,
    hwave, Bool.not_true, Bool.false_eq_true, if_false]

theorem run_format_hit (u : Indeterminate) (file : List UInt8) (pos : Nat) (pre : List Chunk)
    (fmt : Chunk) (tail : List UInt8)
    (hpre : ∀ p ∈ pre, p.complete ∧ p.has_id fmt_ = false)
    (hfmt : fmt.complete) (hid : fmt.has_id fmt_ = true)
    (hfile : file.drop pos = serialize pre ++ (fmt.header ++ (fmt.payload ++ tail))) :
    run_format u ⟨file, pos, false, false⟩ =
      match fmt.format_header with
      | none =>
        .error ⟨.undefined .buffer_overflow, [.find_chunk fmt_],
          ⟨file, pos + (serialize pre).length + 8 + fmt.common_header.ChunkSize, false, false⟩⟩
      | some format_header =>
        if format_header.NumChannels > 2 then
          .error ⟨.threw .too_many_channels, [.find_chunk fmt_],
            ⟨file, pos + (serialize pre).length + 8 + fmt.common_header.ChunkSize, false, false⟩⟩
        else
          .ok ⟨format_header, format_header.NumChannels, format_header.SampleRate % 2 ^ 16,
            ⟨file, pos + (serialize pre).length + 8 + fmt.common_header.ChunkSize, false,
              false⟩⟩ := by
  have hfind := find_chunk_hit fmt_ u.potential_chunk_fmt file pos pre fmt (fmt.payload ++ tail)
    hpre hfmt.1 hid hfile
  have hdrop : file.drop (pos + (serialize pre).length + 8) = fmt.payload ++ tail := by
    have h1 := drop_add_of_drop_eq_append file _ _ pos hfile
    have h2 := drop_add_of_drop_eq_append file _ _ _ h1
    rw [hfmt.1] at h2
    exact h2
  have hread : (IStream.mk file (pos + (serialize pre).length + 8) false false).read
      fmt.common_header.ChunkSize = (fmt.payload,
        ⟨file, pos + (serialize pre).length + 8 + fmt.common_header.ChunkSize, false, false⟩) :=
    IStream.read_of_prefix ⟨file, pos + (serialize pre).length + 8, false, false⟩ _ fmt.payload
      tail rfl hdrop hfmt.2
  unfold run_format Chunk.format_header
  rw [hfind]
  simp only [hread]
  by_cases hlong : fmt.payload.length > 16
  · simp only [hlong, if_true]
  · simp only [hlong, if_false]

theorem run_read_data_hit (v : Validated) (u : Indeterminate) (file : List UInt8) (pos : Nat)
    (mid : List Chunk) (data : Chunk) (tail : List UInt8)
    (hs : v.i_stream = ⟨file, pos, false, false⟩)
    (hmid : ∀ p ∈ mid, p.complete ∧ p.has_id data_ = false)
    (hdata : data.complete) (hid : data.has_id data_ = true)
    (hfile : file.drop pos = serialize mid ++ (data.header ++ (data.payload ++ tail))) :
    run_read_data v u =
      if v.format_header.BlockAlign = 0 then
        .error ⟨.undefined .division_by_zero, [.find_chunk fmt_, .find_chunk data_],
          ⟨file, pos + (serialize mid).length + 8, false, false⟩⟩
      else
        .ok ⟨v.format_header, v.num_channels, v.sample_rate,
          data.common_header.ChunkSize / v.format_header.BlockAlign,
          ⟨data.common_header, data.payload⟩,
          ⟨file, pos + (serialize mid).length + 8 + data.common_header.ChunkSize, false, false⟩⟩ := by
  have hfind := find_chunk_hit data_ u.potential_chunk_data file pos mid data (data.payload ++ tail)
    hmid hdata.1 hid hfile
  have hdrop : file.drop (pos + (serialize mid).length + 8) = data.payload ++ tail := by
    have h1 := drop_add_of_drop_eq_append file _ _ pos hfile
    have h2 := drop_add_of_drop_eq_append file _ _ _ h1
    rw [hdata.1] at h2
    exact h2
  have hread : (IStream.mk file (pos + (serialize mid).length + 8) false false).read
      data.common_header.ChunkSize = (data.payload,
        ⟨file, pos + (serialize mid).length + 8 + data.common_header.ChunkSize, false, false⟩) :=
    IStream.read_of_prefix ⟨file, pos + (serialize mid).length + 8, false, false⟩ _ data.payload
      tail rfl hdrop hdata.2
  have hstore : store (List.replicate data.common_header.ChunkSize 0) data.payload =
      data.payload := by
    simp [store, hdata.2]
  unfold run_read_data
  rw [hs, hfind]
  simp only [hread, hstore]

/-- Lines 93-170 of `run` on an envelope followed by complete chunks: the
chunks before the first `"fmt "` chunk, those between it and the first `"data"`
chunk after it, and the bytes after that chunk have no influence on the format
fields and the data chunk obtained. -/
theorem run_parse_container (env : List UInt8) (pre mid : List Chunk) (fmt data : Chunk)
    (rest : List UInt8) (u : Indeterminate) (henv : valid_envelope env)
    (hpre : ∀ p ∈ pre, p.complete ∧ p.has_id fmt_ = false)
    (hfmt : fmt.complete ∧ fmt.has_id fmt_ = true)
    (hmid : ∀ p ∈ mid, p.complete ∧ p.has_id data_ = false)
    (hdata : data.complete ∧ data.has_id data_ = true) :
    parse_view (run_parse
      (env ++ serialize pre ++ fmt.bytes ++ serialize mid ++ data.bytes ++ rest) u) =
      container_view fmt data := by
  have hfile : env ++ serialize pre ++ fmt.bytes ++ serialize mid ++ data.bytes ++ rest =
      env ++ (serialize pre ++ (fmt.header ++ (fmt.payload ++
        (serialize mid ++ (data.header ++ (data.payload ++ rest)))))) := by
    simp only [Chunk.bytes, List.append_assoc]
  rw [hfile]
  generalize hT : serialize mid ++ (data.header ++ (data.payload ++ rest)) = T
  generalize hF : env ++ (serialize pre ++ (fmt.header ++ (fmt.payload ++ T))) = file
  have hd12 : file.drop 12 = serialize pre ++ (fmt.header ++ (fmt.payload ++ T)) := by
    rw [← hF, ← henv.1, List.drop_left]
  have hv : run_validate file u = run_format u ⟨file, 12, false, false⟩ := by
    rw [← hF]
    exact run_validate_valid_envelope env _ u henv
  have hf := run_format_hit u file 12 pre fmt T hpre hfmt.1 hfmt.2 hd12
  have hdT : file.drop (12 + (serialize pre).length + 8 + fmt.common_header.ChunkSize) = T := by
    have h1 := drop_add_of_drop_eq_append file _ _ 12 hd12
    have h2 := drop_add_of_drop_eq_append file _ _ _ h1
    have h3 := drop_add_of_drop_eq_append file _ _ _ h2
    rw [hfmt.1.1, hfmt.1.2] at h3
    exact h3
  unfold run_parse container_view
  rw [hv, hf]
  cases fmt.format_header with
  | none => simp only [parse_view]
  | some format_header =>
    by_cases hch : format_header.NumChannels > 2
    · simp only [hch, if_true, parse_view]
    · simp only [hch, if_false]
      rw [run_read_data_hit _ u file _ mid data rest rfl hmid hdata.1 hdata.2 (by rw [hdT, ← hT])]
      by_cases hb : format_header.BlockAlign = 0
      · simp only [hb, if_true, parse_view]
      · simp only [hb, if_false, parse_view]

/-- C2. Skip-invariance: in a container made of a valid envelope and complete
chunks, with a `"fmt "` chunk and a `"data"` chunk after it, inserting a
complete chunk that is neither `"fmt "` nor `"data"` at a chunk boundary before
the `"fmt "` chunk or between the `"fmt "` and the `"data"` chunk changes neither
the format fields parsed, nor the data chunk header, nor the payload read; a
run that ends before line 171 ends the same way with and without the chunk (at
lines 146-147 when the `"fmt "` chunk has more than 16 payload bytes). -/
theorem skip_invariance (env : List UInt8) (pre1 pre2 mid1 mid2 : List Chunk)
    (fmt data c : Chunk) (rest : List UInt8) (u u1 u2 : Indeterminate)
    (henv : valid_envelope env)
    (hpre : ∀ p ∈ pre1 ++ pre2, p.complete ∧ p.has_id fmt_ = false)
    (hfmt : fmt.complete ∧ fmt.has_id fmt_ = true)
    (hmid : ∀ p ∈ mid1 ++ mid2, p.complete ∧ p.has_id data_ = false)
    (hdata : data.complete ∧ data.has_id data_ = true)
    (hc : c.complete ∧ c.has_id fmt_ = false ∧ c.has_id data_ = false) :
    parse_view (run_parse (env ++ serialize (pre1 ++ c :: pre2) ++ fmt.bytes ++
        serialize (mid1 ++ mid2) ++ data.bytes ++ rest) u1) =
      parse_view (run_parse (env ++ serialize (pre1 ++ pre2) ++ fmt.bytes ++
        serialize (mid1 ++ mid2) ++ data.bytes ++ rest) u) ∧
    parse_view (run_parse (env ++ serialize (pre1 ++ pre2) ++ fmt.bytes ++
        serialize (mid1 ++ c :: mid2) ++ data.bytes ++ rest) u2) =
      parse_view (run_parse (env ++ serialize (pre1 ++ pre2) ++ fmt.bytes ++
        serialize (mid1 ++ mid2) ++ data.bytes ++ rest) u) := by
  have hpre2 : ∀ p ∈ pre1 ++ c :: pre2, p.complete ∧ p.has_id fmt_ = false := by
    intro p hp
    rcases List.mem_append.mp hp with h | h
    · exact hpre p (List.mem_append_left _ h)
    · rcases List.mem_cons.mp h with h | h
      · subst h; exact ⟨hc.1, hc.2.1⟩
      · exact hpre p (List.mem_append_right _ h)
  have hmid2 : ∀ p ∈ mid1 ++ c :: mid2, p.complete ∧ p.has_id data_ = false := by
    intro p hp
    rcases List.mem_append.mp hp with h | h
    · exact hmid p (List.mem_append_left _ h)
    · rcases List.mem_cons.mp h with h | h
      · subst h; exact ⟨hc.1, hc.2.2⟩
      · exact hmid p (List.mem_append_right _ h)
  rw [run_parse_container env _ _ fmt data rest u henv hpre hfmt hmid hdata,
    run_parse_container env _ _ fmt data rest u1 henv hpre2 hfmt hmid hdata,
    run_parse_container env _ _ fmt data rest u2 henv hpre hfmt hmid2 hdata]
  exact ⟨rfl, rfl⟩

theorem skip_invariance_witness :
    parse_view (run_parse (sample_envelope ++ serialize ([] ++ sample_list_chunk :: []) ++
        sample_fmt_chunk.bytes ++ serialize ([] ++ []) ++ sample_data_chunk.bytes ++ []) zeroed) =
      parse_view (run_parse (sample_envelope ++ serialize ([] ++ []) ++ sample_fmt_chunk.bytes ++
        serialize ([] ++ []) ++ sample_data_chunk.bytes ++ []) zeroed) ∧
    parse_view (run_parse (sample_envelope ++ serialize ([] ++ []) ++ sample_fmt_chunk.bytes ++
        serialize ([] ++ sample_list_chunk :: []) ++ sample_data_chunk.bytes ++ []) zeroed) =
      parse_view (run_parse (sample_envelope ++ serialize ([] ++ []) ++ sample_fmt_chunk.bytes ++
        serialize ([] ++ []) ++ sample_data_chunk.bytes ++ []) zeroed) :=
  skip_invariance sample_envelope [] [] [] [] sample_fmt_chunk sample_data_chunk
    sample_list_chunk [] zeroed zeroed zeroed (by decide) (by decide) (by decide) (by decide)
    (by decide) (by decide)

theorem parse_view_sample_stereo :
    parse_view (run_parse sample_stereo_file zeroed) =
      .ok (⟨⟨⟨fmt_⟩, 16⟩, 1, 2, 44100, 176400, 4, 16⟩,
        ⟨⟨⟨data_⟩, 8⟩, [1, 0, 2, 0, 3, 0, 4, 0]⟩) := by
  decide

/-- C4. When `run` calls `convert_from_raw<R>` for a mono input, `Encode` gets
one and the same array as left and right buffer: the samples of the data
payload, undivided and in order, `num_frames` of them. -/
theorem convert_from_raw_mono (file : List UInt8) (u : Indeterminate)
    (lame : EncodeCall → Bool) (p : Parsed) (R : SampleType)
    (hparse : run_parse file u = .ok p) (hmono : p.num_channels = 1)
    (hR : p.format_header.BlockAlign / p.num_channels = R.sizeof) :
    convert_from_raw lame R p.data p.num_frames p.num_channels p.sample_rate =
        (Encode lame ⟨R, p.num_frames, p.sample_rate, 1,
            interpret R.sizeof p.data.Data, interpret R.sizeof p.data.Data⟩,
          [.open_output R, .Encode ⟨R, p.num_frames, p.sample_rate, 1,
            interpret R.sizeof p.data.Data, interpret R.sizeof p.data.Data⟩]) ∧
      (interpret R.sizeof p.data.Data).length = p.num_frames ∧
      ∀ i, i < p.num_frames →
        (interpret R.sizeof p.data.Data)[i]? =
          some ((p.data.Data.drop (i * R.sizeof)).take R.sizeof) := by
  obtain ⟨_, _, _, _, hframes, hlen⟩ := run_parse_ok file u p hparse
  rw [hmono, Nat.div_one] at hR
  have hl : (interpret R.sizeof p.data.Data).length = p.num_frames := by
    rw [interpret_length, hlen, hframes, hR]
  refine ⟨?_, hl, ?_⟩
  · simp only [convert_from_raw, hmono, if_true]
  · intro i hi
    rw [interpret_length] at hl
    exact interpret_getElem? R.sizeof p.data.Data i (by omega)

theorem run_parse_sample_mono :
    run_parse sample_mono_file zeroed =
      .ok ⟨⟨⟨⟨fmt_⟩, 16⟩, 1, 1, 8000, 16000, 2, 16⟩, 1, 8000, 4,
        ⟨⟨⟨data_⟩, 8⟩, [1, 0, 2, 0, 3, 0, 4, 0]⟩, ⟨sample_mono_file, 52, false, false⟩⟩ := by
  decide

theorem convert_from_raw_mono_witness :
    convert_from_raw (fun _ => true) .short ⟨⟨⟨data_⟩, 8⟩, [1, 0, 2, 0, 3, 0, 4, 0]⟩ 4 1 8000 =
        (Encode (fun _ => true) ⟨.short, 4, 8000, 1,
            interpret 2 [1, 0, 2, 0, 3, 0, 4, 0], interpret 2 [1, 0, 2, 0, 3, 0, 4, 0]⟩,
          [.open_output .short, .Encode ⟨.short, 4, 8000, 1,
            interpret 2 [1, 0, 2, 0, 3, 0, 4, 0], interpret 2 [1, 0, 2, 0, 3, 0, 4, 0]⟩]) ∧
      (interpret 2 ([1, 0, 2, 0, 3, 0, 4, 0] : List UInt8)).length = 4 ∧
      ∀ i, i < 4 →
        (interpret 2 ([1, 0, 2, 0, 3, 0, 4, 0] : List UInt8))[i]? =
          some ((([1, 0, 2, 0, 3, 0, 4, 0] : List UInt8).drop (i * 2)).take 2) :=
  convert_from_raw_mono sample_mono_file zeroed (fun _ => true) _ .short run_parse_sample_mono
    rfl rfl

/-! ## Rejected inputs -/

theorem read_envelope (file : List UInt8) :
    ((IStream.mk file 0 false false).read 12).1 = file.take 12 ∧
      ((IStream.mk file 0 false false).read 12).2.pos ≤ 12 := by
  unfold IStream.read
  simp only [IStream.good, Bool.not_false, Bool.and_self, if_true, List.drop_zero]
  split
  · exact ⟨rfl, by simp⟩
  · refine ⟨rfl, ?_⟩
    simp only [List.length_take]
    omega

theorem ne_of_take_ne (a lit : List UInt8) (ha : a.length = 4) (hl : lit.length = 4)
    (hnz : ∀ b ∈ lit, b ≠ 0) (h : a ≠ lit) : FourUnterminatedChars.ne ⟨a⟩ lit = true := by
  have := strncmp_eq_zero_iff 4 a lit ha hl hnz
  unfold FourUnterminatedChars.ne FourUnterminatedChars.eq
  by_cases hs : strncmp_eq_zero a lit 4 = true
  · exact absurd (this.mp hs) h
  · simp [hs]

/-- Lines 93-111 of `run` on a file whose first four bytes are not `"RIFF"`, or
whose bytes 8 to 11 are not `"WAVE"`. -/
theorem run_validate_bad_envelope (file : List UInt8) (u : Indeterminate)
    (h : (4 ≤ file.length ∧ file.take 4 ≠ RIFF) ∨
      (12 ≤ file.length ∧ (file.drop 8).take 4 ≠ WAVE)) :
    ∃ e s, run_validate file u = .error ⟨.threw e, [], s⟩ ∧
      (e = .no_riff_header ∨ e = .no_wave_header) ∧ s.pos ≤ 12 := by
  obtain ⟨hgot, hpos⟩ := read_envelope file
  unfold run_validate
  simp only [hgot]
  by_cases hr : (RiffHeader.of_bytes (store u.header (file.take 12))).Chunk_header.ChunkID.ne RIFF
      = true
  · simp only [hr, if_true]
    exact ⟨_, _, rfl, Or.inl rfl, hpos⟩
  · simp only [hr, Bool.false_eq_true, if_false]
    have hw : (RiffHeader.of_bytes (store u.header (file.take 12))).Format.ne WAVE = true := by
      rcases h with ⟨hlen, hne⟩ | ⟨hlen, hne⟩
      · exfalso
        apply hr
        have e : (RiffHeader.of_bytes (store u.header (file.take 12))).Chunk_header.ChunkID =
            ⟨file.take 4⟩ := by
          simp only [RiffHeader.of_bytes, CommonHeader.of_bytes, store]
          rw [List.take_append_of_le_length (by simp [List.length_take]; omega), List.take_take]
          simp
        rw [e]
        exact ne_of_take_ne _ RIFF (by simp [List.length_take]; omega) rfl (by decide) hne
      · have e : (RiffHeader.of_bytes (store u.header (file.take 12))).Format =
            ⟨(file.drop 8).take 4⟩ := by
          simp only [RiffHeader.of_bytes, store]
          rw [List.drop_append_of_le_length (by simp [List.length_take]; omega),
            List.take_append_of_le_length (by simp [List.length_take]; omega), List.drop_take,
            List.take_take]
          rfl
        rw [e]
        exact ne_of_take_ne _ WAVE (by simp [List.length_take]; omega) rfl (by decide) hne
    simp only [hw, if_true]
    exact ⟨_, _, rfl, Or.inr rfl, hpos⟩

/-- C5. On a file whose first four bytes are not `"RIFF"`, or whose bytes 8 to
11 are not `"WAVE"`, `run` throws `wave_format_error` at line 106 or 110:
`find_chunk` has not been called and nothing after the 12-byte envelope has
been read. -/
theorem run_rejects_bad_envelope (file : List UInt8) (u : Indeterminate)
    (lame : EncodeCall → Bool)
    (h : (4 ≤ file.length ∧ file.take 4 ≠ RIFF) ∨
      (12 ≤ file.length ∧ (file.drop 8).take 4 ≠ WAVE)) :
    ((run file u lame).outcome = .threw .no_riff_header ∨
        (run file u lame).outcome = .threw .no_wave_header) ∧
      (run file u lame).trace = [] ∧ (run file u lame).i_stream.pos ≤ 12 := by
  obtain ⟨e, s, hv, he, hs⟩ := run_validate_bad_envelope file u h
  have hrun : run file u lame = ⟨.threw e, [], s⟩ := by
    unfold run
    rw [hv]
  rw [hrun]
  refine ⟨?_, rfl, hs⟩
  rcases he with he | he
  · exact Or.inl (by rw [he])
  · exact Or.inr (by rw [he])

theorem run_rejects_bad_envelope_witness :
    ((run (RIFF ++ [4, 0, 0, 0] ++ data_) zeroed (fun _ => true)).outcome =
          .threw .no_riff_header ∨
        (run (RIFF ++ [4, 0, 0, 0] ++ data_) zeroed (fun _ => true)).outcome =
          .threw .no_wave_header) ∧
      (run (RIFF ++ [4, 0, 0, 0] ++ data_) zeroed (fun _ => true)).trace = [] ∧
      (run (RIFF ++ [4, 0, 0, 0] ++ data_) zeroed (fun _ => true)).i_stream.pos ≤ 12 :=
  run_rejects_bad_envelope (RIFF ++ [4, 0, 0, 0] ++ data_) zeroed (fun _ => true)
    (Or.inr (by decide))

theorem run_eq_of_validate_error (file : List UInt8) (u : Indeterminate)
    (lame : EncodeCall → Bool) (r : RunResult) (h : run_validate file u = .error r) :
    run file u lame = r := by
  unfold run
  rw [h]

/-- C6. On a valid envelope followed by complete chunks none of which is a
`"fmt "` chunk, `run` throws `wave_format_error` and no `LameEncodingTask` is
constructed, so the output file is never opened.  The error is the one of line
141, except that on a file with no chunk at all the uninitialised
`potential_chunk` may compare equal to `"fmt "`, and then the error is the one
of line 158. -/
theorem run_fmt_missing (env : List UInt8) (chunks : List Chunk) (u : Indeterminate)
    (lame : EncodeCall → Bool) (henv : valid_envelope env)
    (hchunks : ∀ c ∈ chunks, c.complete ∧ c.has_id fmt_ = false) :
    (((run (env ++ serialize chunks) u lame).outcome = .threw .fmt_not_found ∧
        (run (env ++ serialize chunks) u lame).trace = [.find_chunk fmt_]) ∨
      (chunks = [] ∧ (CommonHeader.of_bytes u.potential_chunk_fmt).ChunkID.eq fmt_ = true ∧
        (run (env ++ serialize chunks) u lame).outcome = .threw .data_not_found ∧
        (run (env ++ serialize chunks) u lame).trace = [.find_chunk fmt_, .find_chunk data_])) ∧
      ∀ R, Event.open_output R ∉ (run (env ++ serialize chunks) u lame).trace := by
  have hd12 : (env ++ serialize chunks).drop 12 = serialize chunks := by
    rw [← henv.1, List.drop_left]
  have hv := run_validate_valid_envelope env (serialize chunks) u henv
  have hfind := find_chunk_exhausted fmt_ u.potential_chunk_fmt (env ++ serialize chunks) 12
    chunks hchunks hd12
  by_cases hm : (CommonHeader.of_bytes (after_headers u.potential_chunk_fmt chunks)).ChunkID.eq
      fmt_ = true
  · have hnil : chunks = [] := by
      by_contra hne
      rw [after_headers_no_match fmt_ chunks _ hne hchunks] at hm
      cases hm
    subst hnil
    simp only [hm, if_true] at hfind
    have hrun : run (env ++ serialize []) u lame =
        ⟨.threw .data_not_found, [.find_chunk fmt_, .find_chunk data_],
          ⟨env ++ serialize [], 12 + (serialize []).length, true, true⟩⟩ := by
      unfold run
      rw [hv]
      unfold run_format
      rw [hfind]
      simp only [IStream.read_not_good _ _ (rfl : IStream.good ⟨_, _, true, true⟩ = false)]
      have hshort : ¬ ([] : List UInt8).length > 16 := by decide
      have hz : ¬ (FormatHeader.of_fields (CommonHeader.of_bytes (after_headers
          u.potential_chunk_fmt [])) (store (List.replicate 16 0) [])).NumChannels > 2 := by
        show ¬ field (store (List.replicate 16 0) []) 2 2 > 2
        decide
      simp only [hshort, hz, if_false]
      unfold run_read_data
      simp only [find_chunk_not_good data_ _ _ (rfl : IStream.good ⟨_, _, true, true⟩ = false)]
    rw [hrun]
    exact ⟨Or.inr ⟨rfl, hm, rfl, rfl⟩, by intro R; simp⟩
  · simp only [hm, if_false, Bool.false_eq_true] at hfind
    have hrun : run (env ++ serialize chunks) u lame =
        ⟨.threw .fmt_not_found, [.find_chunk fmt_],
          ⟨env ++ serialize chunks, 12 + (serialize chunks).length, false, true⟩⟩ := by
      apply run_eq_of_validate_error
      rw [hv]
      unfold run_format
      rw [hfind]
    rw [hrun]
    exact ⟨Or.inl ⟨rfl, rfl⟩, by intro R; simp⟩

theorem run_fmt_missing_witness :
    (((run (sample_envelope ++ serialize [sample_list_chunk, sample_data_chunk]) zeroed
          (fun _ => true)).outcome = .threw .fmt_not_found ∧
        (run (sample_envelope ++ serialize [sample_list_chunk, sample_data_chunk]) zeroed
          (fun _ => true)).trace = [.find_chunk fmt_]) ∨
      ([sample_list_chunk, sample_data_chunk] = [] ∧
        (CommonHeader.of_bytes zeroed.potential_chunk_fmt).ChunkID.eq fmt_ = true ∧
        (run (sample_envelope ++ serialize [sample_list_chunk, sample_data_chunk]) zeroed
          (fun _ => true)).outcome = .threw .data_not_found ∧
        (run (sample_envelope ++ serialize [sample_list_chunk, sample_data_chunk]) zeroed
          (fun _ => true)).trace = [.find_chunk fmt_, .find_chunk data_])) ∧
      ∀ R, Event.open_output R ∉
        (run (sample_envelope ++ serialize [sample_list_chunk, sample_data_chunk]) zeroed
          (fun _ => true)).trace :=
  run_fmt_missing sample_envelope [sample_list_chunk, sample_data_chunk] zeroed (fun _ => true)
    (by decide) (by decide)

/-- With no chunk after the envelope and a `potential_chunk` that happens to
hold `"fmt "`, `run` ends at line 158. -/
theorem run_sample_no_chunk_garbage :
    run sample_envelope ⟨[], fmt_ ++ [0, 0, 0, 0], []⟩ (fun _ => true) =
      ⟨.threw .data_not_found, [.find_chunk fmt_, .find_chunk data_],
        ⟨sample_envelope, 12, true, true⟩⟩ := by
  decide

theorem field_store (dst payload : List UInt8) (off w : Nat) (h : off + w ≤ payload.length) :
    field (store dst payload) off w = field payload off w := by
  unfold field store
  rw [List.drop_append_of_le_length (by omega),
    List.take_append_of_le_length (by simp only [List.length_drop]; omega)]

theorem Chunk.format_header_eq_some (fmt : Chunk) (format_header : FormatHeader) :
    fmt.format_header = some format_header ↔
      fmt.payload.length ≤ 16 ∧
        format_header =
          FormatHeader.of_fields fmt.common_header (store (List.replicate 16 0) fmt.payload) := by
  unfold Chunk.format_header
  split
  · constructor
    · intro h; cases h
    · intro h; omega
  · constructor
    · intro h
      injection h with h
      exact ⟨by omega, h.symm⟩
    · intro h
      rw [h.2]

theorem Chunk.format_header_eq_none (fmt : Chunk) :
    fmt.format_header = none ↔ fmt.payload.length > 16 := by
  unfold Chunk.format_header
  split
  · simp only [true_iff]; assumption
  · simp only [reduceCtorEq, false_iff]; assumption

/-- `run` on a valid envelope followed by complete chunks up to and including
the first `"fmt "` chunk, when that chunk has more than 16 payload bytes: the
read of lines 146-147 writes past `format_header`, whatever the channel count
and whatever follows. -/
theorem run_long_fmt (env : List UInt8) (pre : List Chunk) (fmt : Chunk)
    (tail : List UInt8) (u : Indeterminate) (lame : EncodeCall → Bool)
    (henv : valid_envelope env)
    (hpre : ∀ p ∈ pre, p.complete ∧ p.has_id fmt_ = false)
    (hfmt : fmt.complete ∧ fmt.has_id fmt_ = true)
    (hlong : fmt.payload.length > 16) :
    run (env ++ serialize pre ++ fmt.bytes ++ tail) u lame =
      ⟨.undefined .buffer_overflow, [.find_chunk fmt_],
        ⟨env ++ serialize pre ++ fmt.bytes ++ tail,
          12 + (serialize pre).length + 8 + fmt.common_header.ChunkSize, false, false⟩⟩ := by
  have hfile : env ++ serialize pre ++ fmt.bytes ++ tail =
      env ++ (serialize pre ++ (fmt.header ++ (fmt.payload ++ tail))) := by
    simp only [Chunk.bytes, List.append_assoc]
  rw [hfile]
  generalize hF : env ++ (serialize pre ++ (fmt.header ++ (fmt.payload ++ tail))) = file
  have hd12 : file.drop 12 = serialize pre ++ (fmt.header ++ (fmt.payload ++ tail)) := by
    rw [← hF, ← henv.1, List.drop_left]
  have hv : run_validate file u = run_format u ⟨file, 12, false, false⟩ := by
    rw [← hF]
    exact run_validate_valid_envelope env _ u henv
  have hf := run_format_hit u file 12 pre fmt tail hpre hfmt.1 hfmt.2 hd12
  rw [(Chunk.format_header_eq_none fmt).mpr hlong] at hf
  exact run_eq_of_validate_error file u lame _ (hv.trans hf)

theorem run_long_fmt_sample :
    run (sample_envelope ++ serialize [sample_list_chunk] ++ sample_extensible_fmt_chunk.bytes ++
        sample_data_chunk.bytes) zeroed (fun _ => true) =
      ⟨.undefined .buffer_overflow, [.find_chunk fmt_],
        ⟨sample_envelope ++ serialize [sample_list_chunk] ++ sample_extensible_fmt_chunk.bytes ++
          sample_data_chunk.bytes,
          12 + (serialize [sample_list_chunk]).length + 8 +
            sample_extensible_fmt_chunk.common_header.ChunkSize, false, false⟩⟩ :=
  run_long_fmt sample_envelope [sample_list_chunk] sample_extensible_fmt_chunk
    sample_data_chunk.bytes zeroed (fun _ => true) (by decide) (by decide) (by decide)
    (by decide)

/-- On a valid envelope followed by complete chunks up to and including a
`"fmt "` chunk of at most 16 payload bytes whose channel-count field is greater
than 2, `run` throws the `wave_format_error` of line 151 whatever follows that
chunk; only the search for `"fmt "` has taken place. -/
theorem run_short_fmt_too_many_channels (env : List UInt8) (pre : List Chunk) (fmt : Chunk)
    (tail : List UInt8) (u : Indeterminate) (lame : EncodeCall → Bool)
    (henv : valid_envelope env)
    (hpre : ∀ p ∈ pre, p.complete ∧ p.has_id fmt_ = false)
    (hfmt : fmt.complete ∧ fmt.has_id fmt_ = true)
    (hfield : 4 ≤ fmt.payload.length) (hshort : fmt.payload.length ≤ 16)
    (hch : field fmt.payload 2 2 > 2) :
    (run (env ++ serialize pre ++ fmt.bytes ++ tail) u lame).outcome =
        .threw .too_many_channels ∧
      (run (env ++ serialize pre ++ fmt.bytes ++ tail) u lame).trace = [.find_chunk fmt_] ∧
      wave_format_error.too_many_channels.what =
        "Found more than two channels in wave file, unsuported" := by
  have hfile : env ++ serialize pre ++ fmt.bytes ++ tail =
      env ++ (serialize pre ++ (fmt.header ++ (fmt.payload ++ tail))) := by
    simp only [Chunk.bytes, List.append_assoc]
  rw [hfile]
  generalize hF : env ++ (serialize pre ++ (fmt.header ++ (fmt.payload ++ tail))) = file
  have hd12 : file.drop 12 = serialize pre ++ (fmt.header ++ (fmt.payload ++ tail)) := by
    rw [← hF, ← henv.1, List.drop_left]
  have hv : run_validate file u = run_format u ⟨file, 12, false, false⟩ := by
    rw [← hF]
    exact run_validate_valid_envelope env _ u henv
  have hf := run_format_hit u file 12 pre fmt tail hpre hfmt.1 hfmt.2 hd12
  have hn : (FormatHeader.of_fields fmt.common_header
      (store (List.replicate 16 0) fmt.payload)).NumChannels > 2 := by
    simp only [FormatHeader.of_fields]
    rw [field_store _ fmt.payload 2 2 (by omega)]
    exact hch
  rw [((Chunk.format_header_eq_some fmt _).mpr ⟨hshort, rfl⟩)] at hf
  simp only [hn, if_true] at hf
  rw [run_eq_of_validate_error file u lame _ (hv.trans hf)]
  exact ⟨rfl, rfl, rfl⟩

theorem run_short_fmt_too_many_channels_sample :
    (run (sample_envelope ++ serialize [sample_list_chunk] ++
        sample_three_channel_fmt_chunk.bytes ++ sample_data_chunk.bytes) zeroed
        (fun _ => true)).outcome = .threw .too_many_channels ∧
      (run (sample_envelope ++ serialize [sample_list_chunk] ++
        sample_three_channel_fmt_chunk.bytes ++ sample_data_chunk.bytes) zeroed
        (fun _ => true)).trace = [.find_chunk fmt_] ∧
      wave_format_error.too_many_channels.what =
        "Found more than two channels in wave file, unsuported" :=
  run_short_fmt_too_many_channels sample_envelope [sample_list_chunk]
    sample_three_channel_fmt_chunk sample_data_chunk.bytes zeroed (fun _ => true) (by decide)
    (by decide) (by decide) (by decide) (by decide) (by decide)

/-- C7 (the code departs from it). A valid envelope, then a complete `"fmt "`
chunk of 40 payload bytes (the extensible layout) whose channel-count field is
3, then a `"data"` chunk: `run` does not throw the `wave_format_error` of line
151.  The read of lines 146-147 stores the 40 bytes from
`&format_header.AudioFormat` on, where `format_header` has 16 bytes left, and
writes past the object before line 150 looks at the channel count. -/
theorem run_too_many_channels_long_fmt :
    valid_envelope sample_envelope ∧
      sample_extensible_three_channel_fmt_chunk.complete ∧
      sample_extensible_three_channel_fmt_chunk.has_id fmt_ = true ∧
      sample_extensible_three_channel_fmt_chunk.payload.length = 40 ∧
      field sample_extensible_three_channel_fmt_chunk.payload 2 2 = 3 ∧
      sample_data_chunk.complete ∧ sample_data_chunk.has_id data_ = true ∧
      run sample_extensible_three_channel_file zeroed (fun _ => true) =
        ⟨.undefined .buffer_overflow, [.find_chunk fmt_],
          ⟨sample_extensible_three_channel_file, 60, false, false⟩⟩ ∧
      ∀ (u : Indeterminate) (lame : EncodeCall → Bool) (e : wave_format_error),
        (run sample_extensible_three_channel_file u lame).outcome ≠ .threw e := by
  refine ⟨by decide, by decide, by decide, by decide, by decide, by decide, by decide,
    by decide, ?_⟩
  intro u lame e
  have h := run_long_fmt sample_envelope [] sample_extensible_three_channel_fmt_chunk
    sample_data_chunk.bytes u lame (by decide) (by decide) (by decide) (by decide)
  have hfile : sample_extensible_three_channel_file =
      sample_envelope ++ serialize [] ++ sample_extensible_three_channel_fmt_chunk.bytes ++
        sample_data_chunk.bytes := by
    decide
  rw [hfile, h]
  simp

/-- C8 (the code departs from it). A `"fmt "` chunk with a channel count of 0
passes the check of line 150: `run` goes on to search the `"data"` chunk and
divides `BlockAlign` by zero at line 175. -/
theorem run_validate_accepts_zero_channels :
    (∃ v, run_validate sample_zero_channel_file zeroed = .ok v ∧ v.num_channels = 0 ∧
        v.format_header.NumChannels = 0) ∧
      run sample_zero_channel_file zeroed (fun _ => true) =
        ⟨.undefined .division_by_zero, [.find_chunk fmt_, .find_chunk data_],
          ⟨sample_zero_channel_file, 52, false, false⟩⟩ := by
  refine ⟨⟨⟨⟨⟨⟨fmt_⟩, 16⟩, 1, 0, 44100, 176400, 4, 16⟩, 0, 44100,
    ⟨sample_zero_channel_file, 36, false, false⟩⟩, ?_, rfl, rfl⟩, ?_⟩
  · decide
  · decide

/-! ## Dispatch on the sample type -/

theorem open_output_mem_convert (lame : EncodeCall → Bool) (R R2 : SampleType)
    (data : DataChunk) (n c sr : Nat) :
    Event.open_output R2 ∈ (convert_from_raw lame R data n c sr).2 ↔ R2 = R := by
  unfold convert_from_raw
  simp only
  split
  · simp
  · split
    · split <;> simp
    · simp

theorem open_output_mem_run_convert (lame : EncodeCall → Bool) (R R2 : SampleType)
    (p : Parsed) : Event.open_output R2 ∈ (run_convert lame R p).trace ↔ R2 = R := by
  unfold run_convert
  simp only [List.mem_append, open_output_mem_convert]
  simp

/-- For an input with `AudioFormat == 1` that reaches line 172 with a
non-zero channel count, `run` calls `convert_from_raw<short>`, `<int>` or
`<long>` exactly when `BlockAlign / num_channels` is 2, 4 or 8, and for every
other quotient throws the `wave_format_error` of line 192 with no
`LameEncodingTask` constructed and `Encode` not called. -/
theorem run_dispatch_integer (file : List UInt8) (u : Indeterminate) (lame : EncodeCall → Bool)
    (p : Parsed) (hparse : run_parse file u = .ok p)
    (hint : p.format_header.AudioFormat = 1) (hch : p.num_channels ≠ 0) :
    (p.format_header.BlockAlign / p.num_channels = 2 →
        run file u lame = run_convert lame .short p) ∧
      (p.format_header.BlockAlign / p.num_channels = 4 →
        run file u lame = run_convert lame .int p) ∧
      (p.format_header.BlockAlign / p.num_channels = 8 →
        run file u lame = run_convert lame .long p) ∧
      (p.format_header.BlockAlign / p.num_channels ≠ 2 →
        p.format_header.BlockAlign / p.num_channels ≠ 4 →
        p.format_header.BlockAlign / p.num_channels ≠ 8 →
        run file u lame =
          ⟨.threw .unsupported_integer_width, [.find_chunk fmt_, .find_chunk data_],
            p.i_stream⟩) ∧
      ∀ R, Event.open_output R ∈ (run file u lame).trace ↔
        (R = .short ∧ p.format_header.BlockAlign / p.num_channels = 2) ∨
        (R = .int ∧ p.format_header.BlockAlign / p.num_channels = 4) ∨
        (R = .long ∧ p.format_header.BlockAlign / p.num_channels = 8) := by
  rw [run_eq_of_parse_ok file u lame p hparse]
  unfold run_dispatch
  simp only [hint, if_true, hch, if_false, SampleType.sizeof]
  generalize p.format_header.BlockAlign / p.num_channels = q
  by_cases h2 : q = 2
  · subst h2
    simp [open_output_mem_run_convert]
  · by_cases h4 : q = 4
    · subst h4
      simp [open_output_mem_run_convert]
    · by_cases h8 : q = 8
      · subst h8
        simp [open_output_mem_run_convert]
      · simp [h2, h4, h8]

theorem run_parse_sample_stereo :
    run_parse sample_stereo_file zeroed = .ok sample_stereo_parsed := by
  decide

theorem run_dispatch_integer_sample :
    (sample_stereo_parsed.format_header.BlockAlign / sample_stereo_parsed.num_channels = 2 →
        run sample_stereo_file zeroed (fun _ => true) =
          run_convert (fun _ => true) .short sample_stereo_parsed) ∧
      (sample_stereo_parsed.format_header.BlockAlign / sample_stereo_parsed.num_channels = 4 →
        run sample_stereo_file zeroed (fun _ => true) =
          run_convert (fun _ => true) .int sample_stereo_parsed) ∧
      (sample_stereo_parsed.format_header.BlockAlign / sample_stereo_parsed.num_channels = 8 →
        run sample_stereo_file zeroed (fun _ => true) =
          run_convert (fun _ => true) .long sample_stereo_parsed) ∧
      (sample_stereo_parsed.format_header.BlockAlign / sample_stereo_parsed.num_channels ≠ 2 →
        sample_stereo_parsed.format_header.BlockAlign / sample_stereo_parsed.num_channels ≠ 4 →
        sample_stereo_parsed.format_header.BlockAlign / sample_stereo_parsed.num_channels ≠ 8 →
        run sample_stereo_file zeroed (fun _ => true) =
          ⟨.threw .unsupported_integer_width, [.find_chunk fmt_, .find_chunk data_],
            sample_stereo_parsed.i_stream⟩) ∧
      ∀ R, Event.open_output R ∈ (run sample_stereo_file zeroed (fun _ => true)).trace ↔
        (R = .short ∧
          sample_stereo_parsed.format_header.BlockAlign / sample_stereo_parsed.num_channels = 2) ∨
        (R = .int ∧
          sample_stereo_parsed.format_header.BlockAlign / sample_stereo_parsed.num_channels = 4) ∨
        (R = .long ∧
          sample_stereo_parsed.format_header.BlockAlign / sample_stereo_parsed.num_channels = 8) :=
  run_dispatch_integer sample_stereo_file zeroed (fun _ => true) sample_stereo_parsed
    run_parse_sample_stereo rfl (by decide)

theorem run_sample_stereo :
    run sample_stereo_file zeroed (fun _ => true) =
      ⟨.returned true, [.find_chunk fmt_, .find_chunk data_, .open_output .short,
        .Encode ⟨.short, 2, 44100, 2, [[1, 0], [3, 0]], [[2, 0], [4, 0]]⟩],
        ⟨sample_stereo_file, 52, false, false⟩⟩ := by
  decide

/-- C9 (the code departs from it). An input with encoding kind 1, a channel
count of 0 and 4 bytes per frame reaches line 172: `run` neither calls
`convert_from_raw` nor throws `wave_format_error`, line 175 divides `BlockAlign`
by `num_channels`, which is zero. -/
theorem dispatch_integer_zero_channels :
    (∃ p, run_parse sample_zero_channel_file zeroed = .ok p ∧
        p.format_header.AudioFormat = 1 ∧ p.num_channels = 0 ∧
        p.format_header.BlockAlign = 4) ∧
      ∀ lame : EncodeCall → Bool,
        run sample_zero_channel_file zeroed lame =
            ⟨.undefined .division_by_zero, [.find_chunk fmt_, .find_chunk data_],
              ⟨sample_zero_channel_file, 52, false, false⟩⟩ ∧
          (∀ e, (run sample_zero_channel_file zeroed lame).outcome ≠ .threw e) ∧
          ∀ R, Event.open_output R ∉ (run sample_zero_channel_file zeroed lame).trace := by
  have hp : run_parse sample_zero_channel_file zeroed = .ok sample_zero_channel_parsed := by
    decide
  refine ⟨⟨sample_zero_channel_parsed, hp, rfl, rfl, rfl⟩, ?_⟩
  intro lame
  have hrun : run sample_zero_channel_file zeroed lame =
      ⟨.undefined .division_by_zero, [.find_chunk fmt_, .find_chunk data_],
        ⟨sample_zero_channel_file, 52, false, false⟩⟩ := by
    rw [run_eq_of_parse_ok _ _ lame _ hp]
    rfl
  rw [hrun]
  exact ⟨rfl, by intro e; simp, by intro R; simp⟩

theorem le_value_lt (bs : List UInt8) : le_value bs < 256 ^ bs.length := by
  induction bs with
  | nil => simp [le_value]
  | cons b bs ih =>
    have hb : b.toNat < 256 := UInt8.toNat_lt_size b
    simp only [le_value, List.length_cons, pow_succ]
    omega

theorem field_lt (m : List UInt8) (off w : Nat) : field m off w < 256 ^ w := by
  unfold field
  have h1 := le_value_lt ((m.drop off).take w)
  have h2 : ((m.drop off).take w).length ≤ w := by simp [List.length_take]
  exact lt_of_lt_of_le h1 (Nat.pow_le_pow_right (by decide) h2)

theorem find_chunk_loop_size_lt (identifier : List UInt8) :
    ∀ (fuel : Nat) (pc : List UInt8) (s s2 : IStream) (h : CommonHeader),
      find_chunk_loop identifier fuel pc s = some (some h, s2) → h.ChunkSize < 2 ^ 32 := by
  intro fuel
  induction fuel with
  | zero => intro pc s s2 h e; simp [find_chunk_loop] at e
  | succ n ih =>
    intro pc s s2 h e
    rw [find_chunk_loop] at e
    split at e
    · simp only at e
      split at e
      · injection e with e
        injection e with e1 _
        injection e1 with e1
        rw [← e1]
        exact field_lt _ 4 4
      · exact ih _ _ _ _ e
    · injection e with e
      injection e with e1 _
      cases e1

theorem find_chunk_size_lt (identifier pc : List UInt8) (s s2 : IStream) (h : CommonHeader)
    (e : find_chunk identifier pc s = (some h, s2)) : h.ChunkSize < 2 ^ 32 := by
  obtain ⟨r, hr⟩ := find_chunk_loop_total identifier pc s
  have := find_chunk_eq_of_loop identifier pc s _ r hr
  rw [e] at this
  rw [← this] at hr
  exact find_chunk_loop_size_lt identifier _ pc s s2 h hr

theorem run_parse_size_lt (file : List UInt8) (u : Indeterminate) (p : Parsed)
    (h : run_parse file u = .ok p) : p.data.Chunk_header.ChunkSize < 2 ^ 32 := by
  unfold run_parse at h
  split at h
  · cases h
  · rename_i v _
    unfold run_read_data at h
    split at h
    · cases h
    · rename_i hd s2 hf
      simp only at h
      split at h
      · cases h
      · injection h with h
        subst h
        exact find_chunk_size_lt data_ _ _ _ _ hf

/-- With one or two channels and the sample type chosen by `run`,
`convert_from_raw` constructs the task and calls `Encode` once, with
`num_frames` as number of samples and buffers that hold at least that many
elements. -/
theorem convert_from_raw_in_run (file : List UInt8) (u : Indeterminate)
    (lame : EncodeCall → Bool) (p : Parsed) (R : SampleType)
    (hparse : run_parse file u = .ok p) (hch : p.num_channels ≠ 0)
    (hR : p.format_header.BlockAlign / p.num_channels = R.sizeof) :
    ∃ call, convert_from_raw lame R p.data p.num_frames p.num_channels p.sample_rate =
        (Encode lame call, [.open_output R, .Encode call]) ∧
      call.num_samples = p.num_frames ∧ call.num_samples ≤ call.buffer_l.length ∧
      call.num_samples ≤ call.buffer_r.length := by
  obtain ⟨_, hle, _, hb, hframes, hlen⟩ := run_parse_ok file u p hparse
  have hsz := run_parse_size_lt file u p hparse
  have hcases : p.num_channels = 1 ∨ p.num_channels = 2 := by omega
  rcases hcases with h1 | h2
  · rw [h1, Nat.div_one] at hR
    have hpos : 0 < R.sizeof := by cases R <;> decide
    have hnf : p.num_frames * R.sizeof ≤ p.data.Data.length := by
      rw [hframes, hlen, ← hR]; exact Nat.div_mul_le_self _ _
    have hlen1 : p.num_frames ≤ (interpret R.sizeof p.data.Data).length := by
      rw [interpret_length, Nat.le_div_iff_mul_le hpos]; exact hnf
    exact ⟨⟨R, p.num_frames, p.sample_rate, 1, interpret R.sizeof p.data.Data,
      interpret R.sizeof p.data.Data⟩, by simp only [convert_from_raw, h1, if_true], rfl,
      hlen1, hlen1⟩
  · rw [h2] at hR ⊢
    have hw : 2 * R.sizeof ≤ p.format_header.BlockAlign := by
      rw [← hR]; exact Nat.mul_div_le _ _
    have hnf : p.num_frames * p.format_header.BlockAlign ≤ p.data.Data.length := by
      rw [hframes, hlen]; exact Nat.div_mul_le_self _ _
    have hbuf : 2 * p.num_frames * R.sizeof ≤ p.data.Data.length := by
      calc 2 * p.num_frames * R.sizeof = p.num_frames * (2 * R.sizeof) := by ring
        _ ≤ p.num_frames * p.format_header.BlockAlign := Nat.mul_le_mul_left _ hw
        _ ≤ p.data.Data.length := hnf
    have hpos : 0 < R.sizeof := by cases R <;> decide
    have hsplit := split_channels_in_bounds (interpret R.sizeof p.data.Data) p.num_frames
      (by rw [interpret_length, Nat.le_div_iff_mul_le hpos]; exact hbuf)
      (by rw [hframes]
          have := Nat.div_le_self p.data.Chunk_header.ChunkSize p.format_header.BlockAlign
          omega)
    exact ⟨⟨R, p.num_frames, p.sample_rate, 2,
      (List.range p.num_frames).map (fun i => (interpret R.sizeof p.data.Data)[2 * i]?.getD []),
      (List.range p.num_frames).map
        (fun i => (interpret R.sizeof p.data.Data)[2 * i + 1]?.getD [])⟩,
      by simp only [convert_from_raw, hsplit]; simp, rfl, by simp, by simp⟩

/-- For an input with `AudioFormat == 3` that reaches line 197 with a
non-zero channel count, `run` calls `convert_from_raw<float>` when
`BlockAlign / num_channels` is 4 and `convert_from_raw<double>` when it is 8,
`Encode` being called exactly once; when the quotient is neither, `run` throws
nothing, constructs no task, does not call `Encode` and returns `false`. -/
theorem run_dispatch_float (file : List UInt8) (u : Indeterminate) (lame : EncodeCall → Bool)
    (p : Parsed) (hparse : run_parse file u = .ok p)
    (hfloat : p.format_header.AudioFormat = 3) (hch : p.num_channels ≠ 0) :
    (p.format_header.BlockAlign / p.num_channels = 4 →
        run file u lame = run_convert lame .float p) ∧
      (p.format_header.BlockAlign / p.num_channels = 8 →
        run file u lame = run_convert lame .double p) ∧
      (p.format_header.BlockAlign / p.num_channels = 4 ∨
          p.format_header.BlockAlign / p.num_channels = 8 →
        ((run file u lame).trace.filter Event.is_Encode).length = 1) ∧
      (p.format_header.BlockAlign / p.num_channels ≠ 4 →
        p.format_header.BlockAlign / p.num_channels ≠ 8 →
        run file u lame =
          ⟨.returned false, [.find_chunk fmt_, .find_chunk data_], p.i_stream⟩) := by
  have hf4 : p.format_header.BlockAlign / p.num_channels = 4 →
      run file u lame = run_convert lame .float p := by
    intro h4
    rw [run_eq_of_parse_ok file u lame p hparse]
    unfold run_dispatch
    have h31 : ¬ (3 : Nat) = 1 := by decide
    have h48 : ¬ (4 : Nat) = 8 := by decide
    simp only [hfloat, hch, if_false, if_true, SampleType.sizeof, h4, h31, h48]
    split <;> rfl
  have hf8 : p.format_header.BlockAlign / p.num_channels = 8 →
      run file u lame = run_convert lame .double p := by
    intro h8
    rw [run_eq_of_parse_ok file u lame p hparse]
    unfold run_dispatch run_convert
    simp [hfloat, hch, SampleType.sizeof, h8]
  refine ⟨hf4, hf8, ?_, ?_⟩
  · intro h
    rcases h with h4 | h8
    · obtain ⟨call, e, _⟩ := convert_from_raw_in_run file u lame p .float hparse hch h4
      rw [hf4 h4]
      unfold run_convert
      rw [e]
      rfl
    · obtain ⟨call, e, _⟩ := convert_from_raw_in_run file u lame p .double hparse hch h8
      rw [hf8 h8]
      unfold run_convert
      rw [e]
      rfl
  · intro h4 h8
    rw [run_eq_of_parse_ok file u lame p hparse]
    unfold run_dispatch
    simp [hfloat, hch, SampleType.sizeof, h4, h8]

theorem run_parse_sample_float :
    run_parse sample_float_file zeroed = .ok sample_float_parsed := by
  decide

theorem run_dispatch_float_sample :
    (sample_float_parsed.format_header.BlockAlign / sample_float_parsed.num_channels = 4 →
        run sample_float_file zeroed (fun _ => true) =
          run_convert (fun _ => true) .float sample_float_parsed) ∧
      (sample_float_parsed.format_header.BlockAlign / sample_float_parsed.num_channels = 8 →
        run sample_float_file zeroed (fun _ => true) =
          run_convert (fun _ => true) .double sample_float_parsed) ∧
      (sample_float_parsed.format_header.BlockAlign / sample_float_parsed.num_channels = 4 ∨
          sample_float_parsed.format_header.BlockAlign / sample_float_parsed.num_channels = 8 →
        ((run sample_float_file zeroed (fun _ => true)).trace.filter Event.is_Encode).length
          = 1) ∧
      (sample_float_parsed.format_header.BlockAlign / sample_float_parsed.num_channels ≠ 4 →
        sample_float_parsed.format_header.BlockAlign / sample_float_parsed.num_channels ≠ 8 →
        run sample_float_file zeroed (fun _ => true) =
          ⟨.returned false, [.find_chunk fmt_, .find_chunk data_],
            sample_float_parsed.i_stream⟩) :=
  run_dispatch_float sample_float_file zeroed (fun _ => true) sample_float_parsed
    run_parse_sample_float rfl (by decide)

theorem run_sample_float :
    run sample_float_file zeroed (fun _ => true) =
      ⟨.returned true, [.find_chunk fmt_, .find_chunk data_, .open_output .float,
        .Encode ⟨.float, 2, 8000, 1, [[1, 0, 2, 0], [3, 0, 4, 0]], [[1, 0, 2, 0], [3, 0, 4, 0]]⟩],
        ⟨sample_float_file, 52, false, false⟩⟩ := by
  decide

theorem run_sample_half_float :
    run sample_half_float_file zeroed (fun _ => true) =
      ⟨.returned false, [.find_chunk fmt_, .find_chunk data_],
        ⟨sample_half_float_file, 52, false, false⟩⟩ := by
  decide

/-- C10 (the code departs from it). An input with encoding kind 3, a channel
count of 0 and 4 bytes per frame reaches line 197: `run` does not return
`false`, line 199 divides `BlockAlign` by `num_channels`, which is zero.  And
on an input with encoding kind 3, one channel, 4 bytes per frame and a `"fmt "`
chunk of 18 payload bytes `run` does not call `convert_from_raw<float>`: the
read of lines 146-147 writes past `format_header`. -/
theorem dispatch_float_zero_channels :
    (∃ p, run_parse sample_float_zero_channel_file zeroed = .ok p ∧
        p.format_header.AudioFormat = 3 ∧ p.num_channels = 0 ∧
        p.format_header.BlockAlign = 4) ∧
      (∀ lame : EncodeCall → Bool,
        run sample_float_zero_channel_file zeroed lame =
          ⟨.undefined .division_by_zero, [.find_chunk fmt_, .find_chunk data_],
            ⟨sample_float_zero_channel_file, 52, false, false⟩⟩) ∧
      sample_float_18_fmt_chunk.complete ∧ sample_float_18_fmt_chunk.has_id fmt_ = true ∧
      sample_float_18_fmt_chunk.payload.length = 18 ∧
      field sample_float_18_fmt_chunk.payload 0 2 = 3 ∧
      field sample_float_18_fmt_chunk.payload 2 2 = 1 ∧
      field sample_float_18_fmt_chunk.payload 12 2 = 4 ∧
      ∀ lame : EncodeCall → Bool,
        run sample_float_18_file zeroed lame =
          ⟨.undefined .buffer_overflow, [.find_chunk fmt_],
            ⟨sample_float_18_file, 38, false, false⟩⟩ := by
  have hp : run_parse sample_float_zero_channel_file zeroed =
      .ok sample_float_zero_channel_parsed := by
    decide
  refine ⟨⟨sample_float_zero_channel_parsed, hp, rfl, rfl, rfl⟩, ?_, by decide, by decide,
    by decide, by decide, by decide, by decide, ?_⟩
  · intro lame
    rw [run_eq_of_parse_ok _ _ lame _ hp]
    rfl
  · intro lame
    exact run_long_fmt sample_envelope [] sample_float_18_fmt_chunk sample_data_chunk.bytes
      zeroed lame (by decide) (by decide) (by decide) (by decide)

/-! ## Other encoding kinds -/

/-- An input that reaches line 172 with an encoding kind that is neither 1 nor
3 gets the `wave_format_error` of line 212; no task is constructed. -/
theorem run_other_encoding (file : List UInt8) (u : Indeterminate) (lame : EncodeCall → Bool)
    (p : Parsed) (hparse : run_parse file u = .ok p)
    (h1 : p.format_header.AudioFormat ≠ 1) (h3 : p.format_header.AudioFormat ≠ 3) :
    run file u lame =
      ⟨.threw .unsupported_encoding, [.find_chunk fmt_, .find_chunk data_], p.i_stream⟩ := by
  rw [run_eq_of_parse_ok file u lame p hparse]
  unfold run_dispatch
  simp only [h1, h3, if_false]

theorem run_sample_adpcm :
    run sample_adpcm_file zeroed (fun _ => true) =
      ⟨.threw .unsupported_encoding, [.find_chunk fmt_, .find_chunk data_],
        ⟨sample_adpcm_file, 52, false, false⟩⟩ := by
  decide

/-- C11 (the code departs from it). With a valid envelope, a `"fmt "` chunk
with 2 channels, encoding kind 2 and `BlockAlign` 0, and a `"data"` chunk, `run`
does not throw `wave_format_error`: line 164 divides by `BlockAlign` before the
encoding kind is looked at. -/
theorem run_other_encoding_zero_block_align :
    valid_envelope sample_envelope ∧
      sample_other_encoding_fmt_chunk.complete ∧
      sample_other_encoding_fmt_chunk.has_id fmt_ = true ∧
      field sample_other_encoding_fmt_chunk.payload 0 2 = 2 ∧
      field sample_other_encoding_fmt_chunk.payload 2 2 = 2 ∧
      sample_data_chunk.complete ∧ sample_data_chunk.has_id data_ = true ∧
      run sample_other_encoding_file zeroed (fun _ => true) =
        ⟨.undefined .division_by_zero, [.find_chunk fmt_, .find_chunk data_],
          ⟨sample_other_encoding_file, 44, false, false⟩⟩ := by
  decide

/-! ## Frame count -/

theorem encode_mem_convert (lame : EncodeCall → Bool) (R : SampleType) (data : DataChunk)
    (n c sr : Nat) (call : EncodeCall)
    (h : Event.Encode call ∈ (convert_from_raw lame R data n c sr).2) :
    call.num_samples = n ∧ (convert_from_raw lame R data n c sr).1 = Encode lame call := by
  unfold convert_from_raw at h ⊢
  simp only at h ⊢
  by_cases hc : c = 1
  · subst hc
    simp only [if_true, List.mem_cons, List.mem_singleton, Event.Encode.injEq,
      List.not_mem_nil, or_false, false_or, reduceCtorEq] at h ⊢
    subst h
    exact ⟨rfl, rfl⟩
  · by_cases hc2 : c = 2
    · subst hc2
      rcases hs : split_channels (interpret R.sizeof data.Data) n with _ | ⟨l, r⟩
      · simp [hs] at h
      · simp only [hs, hc, if_false, if_true, List.mem_cons, List.mem_singleton,
          Event.Encode.injEq, List.not_mem_nil, or_false, false_or, reduceCtorEq] at h ⊢
        subst h
        exact ⟨rfl, rfl⟩
    · simp [hc, hc2] at h

theorem encode_mem_run_convert (lame : EncodeCall → Bool) (R : SampleType) (p : Parsed)
    (call : EncodeCall) (h : Event.Encode call ∈ (run_convert lame R p).trace) :
    call.num_samples = p.num_frames ∧ (run_convert lame R p).outcome = Encode lame call := by
  unfold run_convert at h ⊢
  simp only [List.mem_append, List.mem_cons, List.mem_singleton, reduceCtorEq,
    List.not_mem_nil, or_false, false_or] at h
  exact encode_mem_convert lame R p.data p.num_frames p.num_channels p.sample_rate call h

/-- Lines 172-216 either end in one call of `convert_from_raw<R>`, with `R`
of the width `BlockAlign / num_channels`, or construct no task at all. -/
theorem run_dispatch_cases (lame : EncodeCall → Bool) (p : Parsed) :
    (∃ R : SampleType, p.num_channels ≠ 0 ∧
        p.format_header.BlockAlign / p.num_channels = R.sizeof ∧
        run_dispatch lame p = run_convert lame R p) ∨
      ∃ o, run_dispatch lame p = ⟨o, [.find_chunk fmt_, .find_chunk data_], p.i_stream⟩ := by
  by_cases h1 : p.format_header.AudioFormat = 1
  · by_cases hc : p.num_channels = 0
    · refine Or.inr ⟨.undefined .division_by_zero, ?_⟩
      unfold run_dispatch
      rw [if_pos h1, if_pos hc]
    · by_cases q2 : p.format_header.BlockAlign / p.num_channels = SampleType.short.sizeof
      · refine Or.inl ⟨.short, hc, q2, ?_⟩
        unfold run_dispatch
        rw [if_pos h1, if_neg hc, if_pos q2]
      · by_cases q4 : p.format_header.BlockAlign / p.num_channels = SampleType.int.sizeof
        · refine Or.inl ⟨.int, hc, q4, ?_⟩
          unfold run_dispatch
          rw [if_pos h1, if_neg hc, if_neg q2, if_pos q4]
        · by_cases q8 : p.format_header.BlockAlign / p.num_channels = SampleType.long.sizeof
          · refine Or.inl ⟨.long, hc, q8, ?_⟩
            unfold run_dispatch
            rw [if_pos h1, if_neg hc, if_neg q2, if_neg q4, if_pos q8]
          · refine Or.inr ⟨.threw .unsupported_integer_width, ?_⟩
            unfold run_dispatch
            rw [if_pos h1, if_neg hc, if_neg q2, if_neg q4, if_neg q8]
  · by_cases h3 : p.format_header.AudioFormat = 3
    · by_cases hc : p.num_channels = 0
      · refine Or.inr ⟨.undefined .division_by_zero, ?_⟩
        unfold run_dispatch
        rw [if_neg h1, if_pos h3, if_pos hc]
      · by_cases q4 : p.format_header.BlockAlign / p.num_channels = SampleType.float.sizeof
        · have q8 : ¬ p.format_header.BlockAlign / p.num_channels = SampleType.double.sizeof := by
            rw [q4]; decide
          refine Or.inl ⟨.float, hc, q4, ?_⟩
          unfold run_dispatch
          rw [if_neg h1, if_pos h3, if_neg hc]
          simp only [if_pos q4, if_neg q8]
          split <;> rfl
        · by_cases q8 : p.format_header.BlockAlign / p.num_channels = SampleType.double.sizeof
          · refine Or.inl ⟨.double, hc, q8, ?_⟩
            unfold run_dispatch
            rw [if_neg h1, if_pos h3, if_neg hc]
            simp only [if_neg q4, if_pos q8]
            rfl
          · refine Or.inr ⟨.returned false, ?_⟩
            unfold run_dispatch
            rw [if_neg h1, if_pos h3, if_neg hc]
            simp only [if_neg q4, if_neg q8]
    · refine Or.inr ⟨.threw .unsupported_encoding, ?_⟩
      unfold run_dispatch
      rw [if_neg h1, if_neg h3]

theorem encode_mem_run_dispatch (lame : EncodeCall → Bool) (p : Parsed) (call : EncodeCall)
    (h : Event.Encode call ∈ (run_dispatch lame p).trace) :
    call.num_samples = p.num_frames ∧ (run_dispatch lame p).outcome = Encode lame call := by
  rcases run_dispatch_cases lame p with ⟨R, _, _, e⟩ | ⟨o, e⟩
  · rw [e] at h ⊢
    exact encode_mem_run_convert lame R p call h
  · rw [e] at h
    simp at h

theorem interpret_take_getElem? (w : Nat) (bytes : List UInt8) (m k : Nat) (hw : 0 < w)
    (h : (k + 1) * w ≤ m) (hm : m ≤ bytes.length) :
    (interpret w (bytes.take m))[k]? = (interpret w bytes)[k]? := by
  have hlen : (bytes.take m).length = m := by simp [List.length_take, hm]
  have h1 : k < (bytes.take m).length / w := by
    rw [hlen]; exact (Nat.le_div_iff_mul_le hw).mpr h
  have h2 : k < bytes.length / w := (Nat.le_div_iff_mul_le hw).mpr (le_trans h hm)
  rw [interpret_getElem? w _ k h1, interpret_getElem? w _ k h2, List.drop_take, List.take_take,
    Nat.min_eq_left]
  have : (k + 1) * w = k * w + w := by ring
  omega

/-- Cutting the payload after `num_frames` whole frames changes nothing in
what `convert_from_raw<R>` does when called by `run`. -/
theorem convert_from_raw_cut (file : List UInt8) (u : Indeterminate) (lame : EncodeCall → Bool)
    (p : Parsed) (R : SampleType) (hparse : run_parse file u = .ok p)
    (hch : p.num_channels ≠ 0)
    (hR : p.format_header.BlockAlign / p.num_channels = R.sizeof) :
    convert_from_raw lame R
        ⟨p.data.Chunk_header, p.data.Data.take (p.num_frames * p.format_header.BlockAlign)⟩
        p.num_frames p.num_channels p.sample_rate =
      convert_from_raw lame R p.data p.num_frames p.num_channels p.sample_rate := by
  obtain ⟨_, hle, _, hb, hframes, hlen⟩ := run_parse_ok file u p hparse
  have hsz := run_parse_size_lt file u p hparse
  have hpos : 0 < R.sizeof := by cases R <;> decide
  have hnf : p.num_frames * p.format_header.BlockAlign ≤ p.data.Data.length := by
    rw [hframes, hlen]; exact Nat.div_mul_le_self _ _
  have hcases : p.num_channels = 1 ∨ p.num_channels = 2 := by omega
  rcases hcases with h1 | h2
  · rw [h1, Nat.div_one] at hR
    have e : interpret R.sizeof
        (p.data.Data.take (p.num_frames * p.format_header.BlockAlign)) =
        interpret R.sizeof p.data.Data := by
      apply List.ext_getElem?
      intro k
      by_cases hk : k < p.num_frames
      · apply interpret_take_getElem? R.sizeof _ _ k hpos _ hnf
        rw [hR]
        exact Nat.mul_le_mul_right _ hk
      · have l1 : (interpret R.sizeof
            (p.data.Data.take (p.num_frames * p.format_header.BlockAlign))).length ≤ k := by
          rw [interpret_length, List.length_take, Nat.min_eq_left hnf, hR,
            Nat.mul_div_cancel _ hpos]
          omega
        have l2 : (interpret R.sizeof p.data.Data).length ≤ k := by
          rw [interpret_length, hlen, ← hR, ← hframes]
          omega
        rw [List.getElem?_eq_none l1, List.getElem?_eq_none l2]
    simp only [convert_from_raw, h1, if_true, e]
  · rw [h2] at hR
    have hw : 2 * R.sizeof ≤ p.format_header.BlockAlign := by
      rw [← hR]; exact Nat.mul_div_le _ _
    have hbuf : p.num_frames * (2 * R.sizeof) ≤ p.num_frames * p.format_header.BlockAlign :=
      Nat.mul_le_mul_left _ hw
    have hn : p.num_frames * 2 < 2 ^ 64 := by
      rw [hframes]
      have := Nat.div_le_self p.data.Chunk_header.ChunkSize p.format_header.BlockAlign
      omega
    have s1 := split_channels_in_bounds (interpret R.sizeof p.data.Data) p.num_frames
      (by rw [interpret_length, Nat.le_div_iff_mul_le hpos]
          calc 2 * p.num_frames * R.sizeof = p.num_frames * (2 * R.sizeof) := by ring
            _ ≤ p.data.Data.length := le_trans hbuf hnf) hn
    have s2 := split_channels_in_bounds (interpret R.sizeof
        (p.data.Data.take (p.num_frames * p.format_header.BlockAlign))) p.num_frames
      (by rw [interpret_length, List.length_take, Nat.min_eq_left hnf,
            Nat.le_div_iff_mul_le hpos]
          calc 2 * p.num_frames * R.sizeof = p.num_frames * (2 * R.sizeof) := by ring
            _ ≤ p.num_frames * p.format_header.BlockAlign := hbuf) hn
    have hk : ∀ k, k < 2 * p.num_frames →
        (interpret R.sizeof (p.data.Data.take (p.num_frames * p.format_header.BlockAlign)))[k]? =
          (interpret R.sizeof p.data.Data)[k]? := by
      intro k hk
      apply interpret_take_getElem? R.sizeof _ _ k hpos _ hnf
      calc (k + 1) * R.sizeof ≤ (2 * p.num_frames) * R.sizeof :=
            Nat.mul_le_mul_right _ hk
        _ = p.num_frames * (2 * R.sizeof) := by ring
        _ ≤ p.num_frames * p.format_header.BlockAlign := hbuf
    have el : (List.range p.num_frames).map (fun i => (interpret R.sizeof
          (p.data.Data.take (p.num_frames * p.format_header.BlockAlign)))[2 * i]?.getD []) =
        (List.range p.num_frames).map (fun i => (interpret R.sizeof p.data.Data)[2 * i]?.getD [])
        := by
      apply List.map_congr_left
      intro i hi
      rw [hk (2 * i) (by have := List.mem_range.mp hi; omega)]
    have er : (List.range p.num_frames).map (fun i => (interpret R.sizeof
          (p.data.Data.take (p.num_frames * p.format_header.BlockAlign)))[2 * i + 1]?.getD []) =
        (List.range p.num_frames).map
          (fun i => (interpret R.sizeof p.data.Data)[2 * i + 1]?.getD []) := by
      apply List.map_congr_left
      intro i hi
      rw [hk (2 * i + 1) (by have := List.mem_range.mp hi; omega)]
    have h21 : ¬ (2 : Nat) = 1 := by decide
    simp only [convert_from_raw, h2, s1, s2, el, er, h21, if_false, if_true]

/-- Lines 172-216 use `data` through the calls of `convert_from_raw` only. -/
theorem run_dispatch_congr (lame : EncodeCall → Bool) (p : Parsed) (data2 : DataChunk)
    (h : ∀ R : SampleType, p.num_channels ≠ 0 →
      p.format_header.BlockAlign / p.num_channels = R.sizeof →
      convert_from_raw lame R data2 p.num_frames p.num_channels p.sample_rate =
        convert_from_raw lame R p.data p.num_frames p.num_channels p.sample_rate) :
    run_dispatch lame
        ⟨p.format_header, p.num_channels, p.sample_rate, p.num_frames, data2, p.i_stream⟩ =
      run_dispatch lame p := by
  have hrc : ∀ R : SampleType, p.num_channels ≠ 0 →
      p.format_header.BlockAlign / p.num_channels = R.sizeof →
      run_convert lame R
          ⟨p.format_header, p.num_channels, p.sample_rate, p.num_frames, data2, p.i_stream⟩ =
        run_convert lame R p := by
    intro R hc hq
    unfold run_convert
    dsimp only
    rw [h R hc hq]
  unfold run_dispatch
  dsimp only
  by_cases h1 : p.format_header.AudioFormat = 1
  · simp only [if_pos h1]
    by_cases hc : p.num_channels = 0
    · simp only [if_pos hc]
    · simp only [if_neg hc]
      by_cases q2 : p.format_header.BlockAlign / p.num_channels = SampleType.short.sizeof
      · simp only [if_pos q2]
        exact hrc _ hc q2
      · simp only [if_neg q2]
        by_cases q4 : p.format_header.BlockAlign / p.num_channels = SampleType.int.sizeof
        · simp only [if_pos q4]
          exact hrc _ hc q4
        · simp only [if_neg q4]
          by_cases q8 : p.format_header.BlockAlign / p.num_channels = SampleType.long.sizeof
          · simp only [if_pos q8]
            exact hrc _ hc q8
          · simp only [if_neg q8]
  · simp only [if_neg h1]
    by_cases h3 : p.format_header.AudioFormat = 3
    · simp only [if_pos h3]
      by_cases hc : p.num_channels = 0
      · simp only [if_pos hc]
      · simp only [if_neg hc]
        by_cases q4 : p.format_header.BlockAlign / p.num_channels = SampleType.float.sizeof
        · have q8 : ¬ p.format_header.BlockAlign / p.num_channels = SampleType.double.sizeof := by
            rw [q4]; decide
          simp only [if_pos q4, if_neg q8, hrc _ hc q4]
        · simp only [if_neg q4]
          by_cases q8 : p.format_header.BlockAlign / p.num_channels = SampleType.double.sizeof
          · simp only [if_pos q8, h _ hc q8]
          · simp only [if_neg q8]
    · simp only [if_neg h3]

/-- C12. For an input that reaches line 172, `num_frames` is the integer
quotient of the declared size of the `"data"` chunk by `BlockAlign`, every call
of `Encode` gets that count and `run` then ends as `Encode` does, with no
`wave_format_error`; the bytes after the last whole frame are dropped: `run`
does the same on the payload cut after `num_frames` frames. -/
theorem frame_count_is_floor (file : List UInt8) (u : Indeterminate) (lame : EncodeCall → Bool)
    (p : Parsed) (hparse : run_parse file u = .ok p) :
    p.num_frames = p.data.Chunk_header.ChunkSize / p.format_header.BlockAlign ∧
      p.num_frames * p.format_header.BlockAlign +
          p.data.Chunk_header.ChunkSize % p.format_header.BlockAlign = p.data.Data.length ∧
      (∀ call, Event.Encode call ∈ (run file u lame).trace →
        call.num_samples = p.data.Chunk_header.ChunkSize / p.format_header.BlockAlign ∧
        (run file u lame).outcome = Encode lame call ∧
        ∀ e, (run file u lame).outcome ≠ .threw e) ∧
      run_dispatch lame ⟨p.format_header, p.num_channels, p.sample_rate, p.num_frames,
          ⟨p.data.Chunk_header,
            p.data.Data.take (p.num_frames * p.format_header.BlockAlign)⟩, p.i_stream⟩ =
        run file u lame := by
  obtain ⟨_, _, _, _, hframes, hlen⟩ := run_parse_ok file u p hparse
  rw [run_eq_of_parse_ok file u lame p hparse]
  refine ⟨hframes, ?_, ?_, ?_⟩
  · rw [hframes, hlen]
    exact Nat.div_add_mod' _ _
  · intro call hcall
    obtain ⟨h1, h2⟩ := encode_mem_run_dispatch lame p call hcall
    refine ⟨by rw [h1, hframes], h2, ?_⟩
    intro e he
    rw [h2] at he
    unfold Encode at he
    split at he <;> cases he
  · exact run_dispatch_congr lame p _
      (fun R hc hq => convert_from_raw_cut file u lame p R hparse hc hq)

theorem run_parse_sample_partial_frame :
    run_parse sample_partial_frame_file zeroed = .ok sample_partial_frame_parsed := by
  decide

theorem frame_count_is_floor_witness :
    sample_partial_frame_parsed.num_frames =
        sample_partial_frame_parsed.data.Chunk_header.ChunkSize /
          sample_partial_frame_parsed.format_header.BlockAlign ∧
      sample_partial_frame_parsed.num_frames *
            sample_partial_frame_parsed.format_header.BlockAlign +
          sample_partial_frame_parsed.data.Chunk_header.ChunkSize %
            sample_partial_frame_parsed.format_header.BlockAlign =
        sample_partial_frame_parsed.data.Data.length ∧
      (∀ call, Event.Encode call ∈
          (run sample_partial_frame_file zeroed (fun _ => true)).trace →
        call.num_samples = sample_partial_frame_parsed.data.Chunk_header.ChunkSize /
          sample_partial_frame_parsed.format_header.BlockAlign ∧
        (run sample_partial_frame_file zeroed (fun _ => true)).outcome =
          Encode (fun _ => true) call ∧
        ∀ e, (run sample_partial_frame_file zeroed (fun _ => true)).outcome ≠ .threw e) ∧
      run_dispatch (fun _ => true)
          ⟨sample_partial_frame_parsed.format_header, sample_partial_frame_parsed.num_channels,
            sample_partial_frame_parsed.sample_rate, sample_partial_frame_parsed.num_frames,
            ⟨sample_partial_frame_parsed.data.Chunk_header,
              sample_partial_frame_parsed.data.Data.take
                (sample_partial_frame_parsed.num_frames *
                  sample_partial_frame_parsed.format_header.BlockAlign)⟩,
            sample_partial_frame_parsed.i_stream⟩ =
        run sample_partial_frame_file zeroed (fun _ => true) :=
  frame_count_is_floor sample_partial_frame_file zeroed (fun _ => true)
    sample_partial_frame_parsed run_parse_sample_partial_frame

/-- A payload of 6 bytes with 4-byte frames: one frame is encoded, the last
two bytes are not used. -/
theorem run_sample_partial_frame :
    run sample_partial_frame_file zeroed (fun _ => true) =
      ⟨.returned true, [.find_chunk fmt_, .find_chunk data_, .open_output .short,
        .Encode ⟨.short, 1, 44100, 2, [[1, 0]], [[2, 0]]⟩],
        ⟨sample_partial_frame_file, 50, false, false⟩⟩ := by
  decide

/-! ## The chunk search at the end of the stream -/

/-- A header cut after its identifier is returned as found, whatever
`potential_chunk` held before. -/
theorem find_chunk_partial_header (pc : List UInt8) :
    find_chunk data_ pc ⟨sample_truncated_header_file, 36, false, false⟩ =
      (some (CommonHeader.of_bytes (store pc data_)),
        ⟨sample_truncated_header_file, 40, true, true⟩) ∧
      (CommonHeader.of_bytes (store pc data_)).ChunkID = ⟨data_⟩ := by
  have hread : (IStream.mk sample_truncated_header_file 36 false false).read 8 =
      (data_, ⟨sample_truncated_header_file, 40, true, true⟩) := by
    decide
  have hid : (CommonHeader.of_bytes (store pc data_)).ChunkID = ⟨data_⟩ := by
    simp [CommonHeader.of_bytes, store, data_]
  refine ⟨?_, hid⟩
  apply find_chunk_eq_of_loop data_ pc _ 1
  rw [find_chunk_loop]
  have hm : (CommonHeader.of_bytes (store pc data_)).ChunkID.eq data_ = true := by
    rw [hid]; decide
  simp only [hread, IStream.good, Bool.not_false, Bool.and_self, if_true, hm]

/-- C13 (the code departs from it). On a stream that ends four bytes into a
chunk header, those bytes being `"data"`, `find_chunk("data")` does not return
`None`: the failed read has stored the four bytes and the comparison of line
125 is made all the same.  `run` then goes on to encode. -/
theorem find_chunk_returns_partial_header :
    (sample_truncated_header_file.drop 36).length = 4 ∧
      (∀ pc, (find_chunk data_ pc ⟨sample_truncated_header_file, 36, false, false⟩).1 ≠ none) ∧
      find_chunk data_ (List.replicate 8 0) ⟨sample_truncated_header_file, 36, false, false⟩ =
        (some ⟨⟨data_⟩, 0⟩, ⟨sample_truncated_header_file, 40, true, true⟩) ∧
      run sample_truncated_header_file zeroed (fun _ => true) =
        ⟨.returned true, [.find_chunk fmt_, .find_chunk data_, .open_output .short,
          .Encode ⟨.short, 0, 44100, 2, [], []⟩],
          ⟨sample_truncated_header_file, 40, true, true⟩⟩ := by
  refine ⟨by decide, ?_, by decide, by decide⟩
  intro pc
  rw [(find_chunk_partial_header pc).1]
  simp

/-- The search over complete chunks that do not match, then a chunk that does
not match and whose payload ends at or before the end of the file although
more is declared: the seek goes past the end, the next read fails and the
search ends. -/
theorem find_chunk_past_end (identifier pc file : List UInt8) (pos : Nat) (pre : List Chunk)
    (c : Chunk) (tail : List UInt8)
    (hpre : ∀ p ∈ pre, p.complete ∧ p.has_id identifier = false)
    (hlen : c.header.length = 8) (hid : c.has_id identifier = false)
    (hshort : tail.length ≤ c.common_header.ChunkSize)
    (hfile : file.drop pos = serialize pre ++ (c.header ++ tail)) :
    find_chunk identifier pc ⟨file, pos, false, false⟩ =
      (none, ⟨file, pos + (serialize pre).length + 8 + c.common_header.ChunkSize,
        false, true⟩) := by
  apply find_chunk_eq_of_loop identifier pc _ (pre.length + 3)
  rw [find_chunk_loop_skip identifier pre 3 pc file pos (c.header ++ tail) hpre hfile]
  have hread : (IStream.mk file (pos + (serialize pre).length) false false).read 8 =
      (c.header, ⟨file, pos + (serialize pre).length + 8, false, false⟩) :=
    IStream.read_of_prefix ⟨file, pos + (serialize pre).length, false, false⟩ 8 c.header tail rfl
      (drop_add_of_drop_eq_append file _ _ pos hfile) hlen
  have hid3 : (CommonHeader.of_bytes c.header).ChunkID.eq identifier = false := hid
  have hdrop : file.drop (pos + (serialize pre).length + 8 + c.common_header.ChunkSize) = [] := by
    have h1 := drop_add_of_drop_eq_append file _ _ pos hfile
    have h2 := drop_add_of_drop_eq_append file _ _ _ h1
    rw [hlen] at h2
    have h3 : file.drop (pos + (serialize pre).length + 8 + c.common_header.ChunkSize) =
        (file.drop (pos + (serialize pre).length + 8)).drop c.common_header.ChunkSize := by
      rw [List.drop_drop]
    rw [h3, h2]
    exact List.drop_of_length_le hshort
  have hread2 : (IStream.mk file
      (pos + (serialize pre).length + 8 + c.common_header.ChunkSize) false false).read 8 =
      ([], ⟨file, pos + (serialize pre).length + 8 + c.common_header.ChunkSize, true, true⟩) := by
    simp [IStream.read, IStream.good, hdrop]
  have hst : store (store (after_headers pc pre) c.header) [] =
      store (after_headers pc pre) c.header := by
    simp [store]
  rw [find_chunk_loop]
  simp only [hread, IStream.good, Bool.not_false, Bool.and_self, if_true,
    of_bytes_store _ c.header hlen, hid3, Bool.false_eq_true, if_false, IStream.seekg_cur]
  rw [find_chunk_loop]
  simp only [IStream.good, Bool.not_false, Bool.and_self, if_true]
  have hcs : (CommonHeader.of_bytes c.header).ChunkSize = c.common_header.ChunkSize := rfl
  rw [hcs, hread2]
  simp only [hst, of_bytes_store _ c.header hlen, hid3, Bool.false_eq_true, if_false,
    IStream.seekg_cur, if_true]
  rw [find_chunk_loop]
  simp [IStream.good]

/-- C14. When, after complete chunks that do not match, a chunk that does not
match declares more payload bytes than the stream still holds, `find_chunk`
skips past the end, returns `None` and leaves the stream not good; nothing is
thrown (the search has no outcome but a header or `None`). -/
theorem find_chunk_size_past_end (identifier pc : List UInt8) (s : IStream) (pre : List Chunk)
    (c : Chunk) (tail : List UInt8) (hgood : s.good = true)
    (hpre : ∀ p ∈ pre, p.complete ∧ p.has_id identifier = false)
    (hlen : c.header.length = 8) (hid : c.has_id identifier = false)
    (hpast : tail.length < c.common_header.ChunkSize)
    (hfile : s.file.drop s.pos = serialize pre ++ (c.header ++ tail)) :
    (find_chunk identifier pc s).1 = none ∧ (find_chunk identifier pc s).2.good = false ∧
      (find_chunk identifier pc s).2.pos =
        s.pos + (serialize pre).length + 8 + c.common_header.ChunkSize ∧
      s.file.length < (find_chunk identifier pc s).2.pos := by
  obtain ⟨file, pos, eofbit, failbit⟩ := s
  simp only [IStream.good, Bool.and_eq_true, Bool.not_eq_true'] at hgood
  obtain ⟨h1, h2⟩ := hgood
  subst h1 h2
  rw [find_chunk_past_end identifier pc file pos pre c tail hpre hlen hid (le_of_lt hpast) hfile]
  refine ⟨rfl, rfl, rfl, ?_⟩
  have hl : (file.drop pos).length = (serialize pre).length + (8 + tail.length) := by
    have : List.drop pos file = serialize pre ++ (c.header ++ tail) := hfile
    rw [this]
    simp [hlen]
  simp only [List.length_drop] at hl
  show file.length < pos + (serialize pre).length + 8 + c.common_header.ChunkSize
  omega

theorem find_chunk_size_past_end_witness :
    (find_chunk data_ [] ⟨sample_envelope ++ serialize [sample_fmt_chunk] ++
        sample_overlong_chunk.bytes, 12, false, false⟩).1 = none ∧
      (find_chunk data_ [] ⟨sample_envelope ++ serialize [sample_fmt_chunk] ++
        sample_overlong_chunk.bytes, 12, false, false⟩).2.good = false ∧
      (find_chunk data_ [] ⟨sample_envelope ++ serialize [sample_fmt_chunk] ++
        sample_overlong_chunk.bytes, 12, false, false⟩).2.pos =
        12 + (serialize [sample_fmt_chunk]).length + 8 +
          sample_overlong_chunk.common_header.ChunkSize ∧
      (sample_envelope ++ serialize [sample_fmt_chunk] ++ sample_overlong_chunk.bytes).length <
        (find_chunk data_ [] ⟨sample_envelope ++ serialize [sample_fmt_chunk] ++
          sample_overlong_chunk.bytes, 12, false, false⟩).2.pos :=
  find_chunk_size_past_end data_ []
    ⟨sample_envelope ++ serialize [sample_fmt_chunk] ++ sample_overlong_chunk.bytes,
      12, false, false⟩
    [sample_fmt_chunk] sample_overlong_chunk sample_overlong_chunk.payload
    (by decide) (by decide) (by decide) (by decide) (by decide) (by decide)

/-! ## No data chunk after the format chunk -/

theorem IStream.read_pos_le (s : IStream) (n : Nat) : s.pos ≤ (s.read n).2.pos := by
  unfold IStream.read
  split
  · dsimp only
    split
    · exact Nat.le_add_right _ _
    · exact Nat.le_add_right _ _
  · exact Nat.le_refl _

theorem IStream.seekg_cur_pos_le (s : IStream) (n : Nat) : s.pos ≤ (s.seekg_cur n).pos := by
  unfold IStream.seekg_cur
  split
  · exact Nat.le_refl _
  · exact Nat.le_add_right _ _

theorem find_chunk_loop_pos_le (identifier : List UInt8) :
    ∀ (fuel : Nat) (pc : List UInt8) (s : IStream) (r : Option CommonHeader × IStream),
      find_chunk_loop identifier fuel pc s = some r → s.pos ≤ r.2.pos := by
  intro fuel
  induction fuel with
  | zero => intro pc s r h; simp [find_chunk_loop] at h
  | succ n ih =>
    intro pc s r h
    rw [find_chunk_loop] at h
    split at h
    · simp only at h
      split at h
      · injection h with h
        subst h
        exact IStream.read_pos_le s 8
      · exact le_trans (le_trans (IStream.read_pos_le s 8) (IStream.seekg_cur_pos_le _ _))
          (ih _ _ _ h)
    · injection h with h
      subst h
      exact Nat.le_refl _

/-- The cursor never moves backwards in `find_chunk`. -/
theorem find_chunk_pos_le (identifier pc : List UInt8) (s : IStream) :
    s.pos ≤ (find_chunk identifier pc s).2.pos := by
  obtain ⟨r, hr⟩ := find_chunk_loop_total identifier pc s
  rw [find_chunk_eq_of_loop identifier pc s _ r hr]
  exact find_chunk_loop_pos_le identifier _ pc s r hr

/-- The search for `"data"` from behind the payload of the `"fmt "` chunk, when
only complete chunks that are not `"data"` follow. -/
theorem find_data_exhausted (file : List UInt8) (pos : Nat) (mid : List Chunk)
    (u : Indeterminate)
    (hmid : ∀ p ∈ mid, p.complete ∧ p.has_id data_ = false)
    (hu : mid = [] → (CommonHeader.of_bytes u.potential_chunk_data).ChunkID.eq data_ = false)
    (hfile : file.drop pos = serialize mid) :
    find_chunk data_ u.potential_chunk_data ⟨file, pos, false, false⟩ =
      (none, ⟨file, pos + (serialize mid).length, false, true⟩) := by
  rw [find_chunk_exhausted data_ u.potential_chunk_data file pos mid hmid hfile]
  have hno : (CommonHeader.of_bytes (after_headers u.potential_chunk_data mid)).ChunkID.eq data_
      = false := by
    by_cases hm : mid = []
    · subst hm
      exact hu rfl
    · exact after_headers_no_match data_ mid _ hm hmid
  simp only [hno, Bool.false_eq_true, if_false]

/-- `run` on a valid envelope followed by complete chunks in which nothing
that is `"data"` comes after the first `"fmt "` chunk, when the search for
`"data"` does not end on an uninitialised `potential_chunk` that holds
`"data"`. -/
theorem run_no_data_after_fmt (env : List UInt8) (pre mid : List Chunk) (fmt : Chunk)
    (u : Indeterminate) (lame : EncodeCall → Bool) (henv : valid_envelope env)
    (hpre : ∀ p ∈ pre, p.complete ∧ p.has_id fmt_ = false)
    (hfmt : fmt.complete ∧ fmt.has_id fmt_ = true)
    (hmid : ∀ p ∈ mid, p.complete ∧ p.has_id data_ = false)
    (hu : mid = [] → (CommonHeader.of_bytes u.potential_chunk_data).ChunkID.eq data_ = false) :
    run (env ++ serialize pre ++ fmt.bytes ++ serialize mid) u lame =
      match fmt.format_header with
      | none =>
        ⟨.undefined .buffer_overflow, [.find_chunk fmt_],
          ⟨env ++ serialize pre ++ fmt.bytes ++ serialize mid,
            12 + (serialize pre).length + 8 + fmt.common_header.ChunkSize, false, false⟩⟩
      | some format_header =>
        if format_header.NumChannels > 2 then
          ⟨.threw .too_many_channels, [.find_chunk fmt_],
            ⟨env ++ serialize pre ++ fmt.bytes ++ serialize mid,
              12 + (serialize pre).length + 8 + fmt.common_header.ChunkSize, false, false⟩⟩
        else
          ⟨.threw .data_not_found, [.find_chunk fmt_, .find_chunk data_],
            ⟨env ++ serialize pre ++ fmt.bytes ++ serialize mid,
              12 + (serialize pre).length + 8 + fmt.common_header.ChunkSize +
                (serialize mid).length, false, true⟩⟩ := by
  generalize hF : env ++ serialize pre ++ fmt.bytes ++ serialize mid = file
  have hfile : file = env ++ (serialize pre ++ (fmt.header ++ (fmt.payload ++ serialize mid)))
      := by
    rw [← hF]
    simp only [Chunk.bytes, List.append_assoc]
  have hd12 : file.drop 12 = serialize pre ++ (fmt.header ++ (fmt.payload ++ serialize mid)) := by
    rw [hfile, ← henv.1, List.drop_left]
  have hv : run_validate file u = run_format u ⟨file, 12, false, false⟩ := by
    rw [hfile]
    exact run_validate_valid_envelope env _ u henv
  have hf := run_format_hit u file 12 pre fmt (serialize mid) hpre hfmt.1 hfmt.2 hd12
  have hdT : file.drop (12 + (serialize pre).length + 8 + fmt.common_header.ChunkSize) =
      serialize mid := by
    have h1 := drop_add_of_drop_eq_append file _ _ 12 hd12
    have h2 := drop_add_of_drop_eq_append file _ _ _ h1
    have h3 := drop_add_of_drop_eq_append file _ _ _ h2
    rw [hfmt.1.1, hfmt.1.2] at h3
    exact h3
  cases hfh : fmt.format_header with
  | none =>
    rw [hfh] at hf
    exact run_eq_of_validate_error file u lame _ (hv.trans hf)
  | some format_header =>
    rw [hfh] at hf
    simp only
    by_cases hch : format_header.NumChannels > 2
    · simp only [hch, if_true] at hf
      rw [if_pos hch]
      exact run_eq_of_validate_error file u lame _ (hv.trans hf)
    · simp only [hch, if_false] at hf
      rw [if_neg hch]
      unfold run
      rw [hv, hf]
      simp only
      unfold run_read_data
      simp only
      rw [find_data_exhausted file _ mid u hmid hu hdT]

/-- On a valid envelope followed by complete chunks, with a `"fmt "` chunk of at
most 16 payload bytes that passes the channel check and no `"data"` chunk after
it, `run` throws the `wave_format_error` of line 158 without constructing a
task, provided the search for `"data"` does not end on an uninitialised
`potential_chunk` that holds `"data"`. -/
theorem run_short_fmt_data_missing (env : List UInt8) (pre mid : List Chunk) (fmt : Chunk)
    (format_header : FormatHeader) (u : Indeterminate) (lame : EncodeCall → Bool)
    (henv : valid_envelope env)
    (hpre : ∀ p ∈ pre, p.complete ∧ p.has_id fmt_ = false)
    (hfmt : fmt.complete ∧ fmt.has_id fmt_ = true)
    (hfh : fmt.format_header = some format_header)
    (hacc : format_header.NumChannels ≤ 2)
    (hmid : ∀ p ∈ mid, p.complete ∧ p.has_id data_ = false)
    (hu : mid = [] → (CommonHeader.of_bytes u.potential_chunk_data).ChunkID.eq data_ = false) :
    (run (env ++ serialize pre ++ fmt.bytes ++ serialize mid) u lame).outcome =
        .threw .data_not_found ∧
      (run (env ++ serialize pre ++ fmt.bytes ++ serialize mid) u lame).trace =
        [.find_chunk fmt_, .find_chunk data_] := by
  rw [run_no_data_after_fmt env pre mid fmt u lame henv hpre hfmt hmid hu, hfh]
  simp only
  rw [if_neg (by omega)]
  exact ⟨rfl, rfl⟩

/-- C15 (the code departs from it). Two containers with a valid envelope and a
complete `"fmt "` chunk with 2 channels after which no `"data"` chunk follows,
on which `run` does not throw `wave_format_error`.  The first ends with the
payload of a 16-byte `"fmt "` chunk: the read of line 123 extracts nothing and
line 125 compares the uninitialised `potential_chunk`; when that holds `"data"`
and a size of 8, `run` calls `Encode` on 8 bytes that are not in the file and
returns `true`.  In the second the `"fmt "` chunk has 40 payload bytes: the read
of lines 146-147 writes past `format_header`. -/
theorem run_data_missing_departs :
    valid_envelope sample_envelope ∧
      sample_fmt_chunk.complete ∧ sample_fmt_chunk.has_id fmt_ = true ∧
      field sample_fmt_chunk.payload 2 2 = 2 ∧
      (∀ identifier, (find_chunk identifier sample_leftover.potential_chunk_data
          ⟨sample_envelope ++ serialize [sample_fmt_chunk], 36, false, false⟩).2.pos = 36) ∧
      run (sample_envelope ++ serialize [sample_fmt_chunk]) sample_leftover (fun _ => true) =
        ⟨.returned true, [.find_chunk fmt_, .find_chunk data_, .open_output .short,
          .Encode ⟨.short, 2, 44100, 2, [[0, 0], [0, 0]], [[0, 0], [0, 0]]⟩],
          ⟨sample_envelope ++ serialize [sample_fmt_chunk], 36, true, true⟩⟩ ∧
      sample_extensible_fmt_chunk.complete ∧ sample_extensible_fmt_chunk.has_id fmt_ = true ∧
      sample_extensible_fmt_chunk.payload.length = 40 ∧
      field sample_extensible_fmt_chunk.payload 2 2 = 2 ∧
      ∀ (u : Indeterminate) (lame : EncodeCall → Bool),
        run (sample_envelope ++ serialize [sample_extensible_fmt_chunk]) u lame =
          ⟨.undefined .buffer_overflow, [.find_chunk fmt_],
            ⟨sample_envelope ++ serialize [sample_extensible_fmt_chunk], 60, false, false⟩⟩ := by
  refine ⟨by decide, by decide, by decide, by decide, ?_, by decide, by decide, by decide,
    by decide, by decide, ?_⟩
  · intro identifier
    have hread : (IStream.mk (sample_envelope ++ serialize [sample_fmt_chunk]) 36 false
        false).read 8 = ([], ⟨sample_envelope ++ serialize [sample_fmt_chunk], 36, true, true⟩) := by
      decide
    have hloop : ∃ r, find_chunk_loop identifier 2 sample_leftover.potential_chunk_data
        ⟨sample_envelope ++ serialize [sample_fmt_chunk], 36, false, false⟩ = some r ∧
        r.2.pos = 36 := by
      rw [find_chunk_loop]
      simp only [hread, IStream.good, Bool.not_false, Bool.and_self, if_true]
      split
      · exact ⟨_, rfl, rfl⟩
      · rw [find_chunk_loop]
        simp only [IStream.seekg_cur, IStream.good, if_true, Bool.not_false, Bool.not_true,
          Bool.and_self, Bool.false_eq_true, if_false]
        exact ⟨_, rfl, rfl⟩
    obtain ⟨r, hr, hpos⟩ := hloop
    rw [find_chunk_eq_of_loop identifier _ _ 2 r hr]
    exact hpos
  · intro u lame
    have h := run_long_fmt sample_envelope [] sample_extensible_fmt_chunk [] u lame (by decide)
      (by decide) (by decide) (by decide)
    have hfile : sample_envelope ++ serialize [sample_extensible_fmt_chunk] =
        sample_envelope ++ serialize [] ++ sample_extensible_fmt_chunk.bytes ++ [] := by
      decide
    rw [hfile]
    exact h

/-- The file that ends with its `"fmt "` chunk: `run` ends at line 158 when the
uninitialised `potential_chunk` is all zero. -/
theorem run_sample_fmt_only :
    run (sample_envelope ++ serialize [sample_fmt_chunk]) zeroed (fun _ => true) =
      ⟨.threw .data_not_found, [.find_chunk fmt_, .find_chunk data_],
        ⟨sample_envelope ++ serialize [sample_fmt_chunk], 36, false, true⟩⟩ := by
  decide

/-- On a valid envelope followed by complete chunks in which a `"data"` chunk
lies before the first `"fmt "` chunk and none after it: the search for `"fmt "`
ends behind that `"data"` chunk, and the search for `"data"` that starts behind
the `"fmt "` payload returns `None`, provided it does not end on an
uninitialised `potential_chunk` that holds `"data"`. -/
theorem find_chunk_data_before_fmt (env : List UInt8) (pre1 pre2 mid : List Chunk)
    (data fmt : Chunk) (u : Indeterminate)
    (henv : valid_envelope env)
    (hpre : ∀ p ∈ pre1 ++ data :: pre2, p.complete ∧ p.has_id fmt_ = false)
    (hdata : data.has_id data_ = true)
    (hfmt : fmt.complete ∧ fmt.has_id fmt_ = true)
    (hmid : ∀ p ∈ mid, p.complete ∧ p.has_id data_ = false)
    (hu : mid = [] → (CommonHeader.of_bytes u.potential_chunk_data).ChunkID.eq data_ = false) :
    (find_chunk data_ u.potential_chunk_data
          ⟨env ++ serialize (pre1 ++ data :: pre2) ++ fmt.bytes ++ serialize mid,
            12 + (serialize pre1).length, false, false⟩).1 = some data.common_header ∧
      find_chunk fmt_ u.potential_chunk_fmt
          ⟨env ++ serialize (pre1 ++ data :: pre2) ++ fmt.bytes ++ serialize mid,
            12, false, false⟩ =
        (some fmt.common_header,
          ⟨env ++ serialize (pre1 ++ data :: pre2) ++ fmt.bytes ++ serialize mid,
            12 + (serialize (pre1 ++ data :: pre2)).length + 8, false, false⟩) ∧
      (serialize (pre1 ++ data :: pre2)).length =
        (serialize pre1).length + (8 + data.common_header.ChunkSize) +
          (serialize pre2).length ∧
      (find_chunk data_ u.potential_chunk_data
          ⟨env ++ serialize (pre1 ++ data :: pre2) ++ fmt.bytes ++ serialize mid,
            12 + (serialize (pre1 ++ data :: pre2)).length + 8 + fmt.common_header.ChunkSize,
            false, false⟩).1 = none := by
  have hdc : data.complete :=
    (hpre data (List.mem_append_right _ (List.mem_cons_self _ _))).1
  have hfile : env ++ serialize (pre1 ++ data :: pre2) ++ fmt.bytes ++ serialize mid =
      env ++ (serialize (pre1 ++ data :: pre2) ++
        (fmt.header ++ (fmt.payload ++ serialize mid))) := by
    simp only [Chunk.bytes, List.append_assoc]
  have hd12 : (env ++ serialize (pre1 ++ data :: pre2) ++ fmt.bytes ++ serialize mid).drop 12 =
      serialize (pre1 ++ data :: pre2) ++ (fmt.header ++ (fmt.payload ++ serialize mid)) := by
    rw [hfile, ← henv.1, List.drop_left]
  have hdT : (env ++ serialize (pre1 ++ data :: pre2) ++ fmt.bytes ++ serialize mid).drop
      (12 + (serialize (pre1 ++ data :: pre2)).length + 8 + fmt.common_header.ChunkSize) =
      serialize mid := by
    have h1 := drop_add_of_drop_eq_append _ _ _ 12 hd12
    have h2 := drop_add_of_drop_eq_append _ _ _ _ h1
    have h3 := drop_add_of_drop_eq_append _ _ _ _ h2
    rw [hfmt.1.1, hfmt.1.2] at h3
    exact h3
  refine ⟨?_, ?_, ?_, ?_⟩
  · have hd : (env ++ serialize (pre1 ++ data :: pre2) ++ fmt.bytes ++ serialize mid).drop
        (12 + (serialize pre1).length) =
        serialize [] ++ (data.header ++ (data.payload ++ (serialize pre2 ++
          (fmt.header ++ (fmt.payload ++ serialize mid))))) := by
      apply drop_add_of_drop_eq_append _ _ _ 12
      rw [hd12]
      simp only [serialize_append, serialize, Chunk.bytes, List.append_assoc, List.nil_append]
    rw [find_chunk_hit data_ _ _ _ [] data _ (by simp) hdc.1 hdata hd]
  · exact find_chunk_hit fmt_ _ _ 12 _ fmt _ hpre hfmt.1.1 hfmt.2 hd12
  · simp only [serialize_append, serialize, Chunk.bytes, List.length_append, hdc.1, hdc.2]
    omega
  · rw [find_data_exhausted _ _ mid u hmid hu hdT]

/-- C19 (the code departs from it). Two containers whose only `"data"` chunk
lies before the `"fmt "` chunk, on which `run` does not throw the
`wave_format_error` of line 158.  In both the search for `"fmt "` skips the
`"data"` chunk and the cursor never moves back.  The first ends with the
payload of a 16-byte `"fmt "` chunk: the later search for `"data"` reads nothing
at the end of the file and line 125 compares the uninitialised
`potential_chunk`; when that holds `"data"` and a size of 8, the search returns
it, and `run` calls `Encode` and returns `true`.  In the second the `"fmt "`
chunk has 40 payload bytes: the read of lines 146-147 writes past
`format_header` before the search for `"data"` starts. -/
theorem run_data_before_fmt_departs :
    valid_envelope sample_envelope ∧
      sample_data_chunk.complete ∧ sample_data_chunk.has_id data_ = true ∧
      sample_fmt_chunk.complete ∧ sample_fmt_chunk.has_id fmt_ = true ∧
      (∀ (identifier pc : List UInt8) (s : IStream),
        s.pos ≤ (find_chunk identifier pc s).2.pos) ∧
      find_chunk fmt_ sample_leftover.potential_chunk_fmt
          ⟨sample_envelope ++ serialize [sample_data_chunk, sample_fmt_chunk], 12, false, false⟩ =
        (some sample_fmt_chunk.common_header,
          ⟨sample_envelope ++ serialize [sample_data_chunk, sample_fmt_chunk], 36, false,
            false⟩) ∧
      find_chunk data_ sample_leftover.potential_chunk_data
          ⟨sample_envelope ++ serialize [sample_data_chunk, sample_fmt_chunk], 52, false, false⟩ =
        (some ⟨⟨data_⟩, 8⟩,
          ⟨sample_envelope ++ serialize [sample_data_chunk, sample_fmt_chunk], 52, true, true⟩) ∧
      run (sample_envelope ++ serialize [sample_data_chunk, sample_fmt_chunk]) sample_leftover
          (fun _ => true) =
        ⟨.returned true, [.find_chunk fmt_, .find_chunk data_, .open_output .short,
          .Encode ⟨.short, 2, 44100, 2, [[0, 0], [0, 0]], [[0, 0], [0, 0]]⟩],
          ⟨sample_envelope ++ serialize [sample_data_chunk, sample_fmt_chunk], 52, true,
            true⟩⟩ ∧
      sample_extensible_fmt_chunk.complete ∧ sample_extensible_fmt_chunk.has_id fmt_ = true ∧
      ∀ (u : Indeterminate) (lame : EncodeCall → Bool),
        run (sample_envelope ++ serialize [sample_data_chunk, sample_extensible_fmt_chunk]) u
            lame =
          ⟨.undefined .buffer_overflow, [.find_chunk fmt_],
            ⟨sample_envelope ++ serialize [sample_data_chunk, sample_extensible_fmt_chunk], 76,
              false, false⟩⟩ := by
  refine ⟨by decide, by decide, by decide, by decide, by decide, find_chunk_pos_le, by decide,
    by decide, by decide, by decide, by decide, ?_⟩
  intro u lame
  have h := run_long_fmt sample_envelope [sample_data_chunk] sample_extensible_fmt_chunk [] u
    lame (by decide) (by decide) (by decide) (by decide)
  have hfile : sample_envelope ++ serialize [sample_data_chunk, sample_extensible_fmt_chunk] =
      sample_envelope ++ serialize [sample_data_chunk] ++ sample_extensible_fmt_chunk.bytes ++
        [] := by
    decide
  rw [hfile]
  exact h

/-- The file with the `"data"` chunk before the `"fmt "` chunk. -/
theorem run_sample_data_before_fmt :
    run (sample_envelope ++ serialize [sample_data_chunk, sample_fmt_chunk]) zeroed
        (fun _ => true) =
      ⟨.threw .data_not_found, [.find_chunk fmt_, .find_chunk data_],
        ⟨sample_envelope ++ serialize [sample_data_chunk, sample_fmt_chunk], 52, false, true⟩⟩
    := by
  decide

/-! ## Bounds of the sample array -/

/-- C18. When `run` calls `convert_from_raw<R>` with one or two channels, the
`num_frames * num_channels` samples of `sizeof(R)` bytes fit into `data.Data`:
every index below `num_frames * num_channels` is an element of the array that
lies inside the buffer, `convert_from_raw` never reads outside it, and it calls
`Encode` with `num_frames` as number of samples and two buffers that hold at
least that many elements. -/
theorem dispatcher_meets_length_precondition (file : List UInt8) (u : Indeterminate)
    (p : Parsed) (R : SampleType) (hparse : run_parse file u = .ok p)
    (hch : p.num_channels = 1 ∨ p.num_channels = 2)
    (hR : p.format_header.BlockAlign / p.num_channels = R.sizeof) :
    p.num_frames = p.data.Chunk_header.ChunkSize / p.format_header.BlockAlign ∧
      p.num_frames * p.num_channels * R.sizeof ≤ p.data.Data.length ∧
      (∀ i, i < p.num_frames * p.num_channels →
        i * R.sizeof + R.sizeof ≤ p.data.Data.length ∧
        (interpret R.sizeof p.data.Data)[i]? =
          some ((p.data.Data.drop (i * R.sizeof)).take R.sizeof)) ∧
      ∀ lame : EncodeCall → Bool,
        (convert_from_raw lame R p.data p.num_frames p.num_channels p.sample_rate).1 ≠
          .undefined .out_of_bounds_read ∧
        ∃ call, convert_from_raw lame R p.data p.num_frames p.num_channels p.sample_rate =
            (Encode lame call, [.open_output R, .Encode call]) ∧
          call.num_samples = p.num_frames ∧ call.num_samples ≤ call.buffer_l.length ∧
          call.num_samples ≤ call.buffer_r.length := by
  obtain ⟨_, _, _, hb, hframes, hlen⟩ := run_parse_ok file u p hparse
  have hpos : 0 < R.sizeof := by cases R <;> decide
  have hnf : p.num_frames * p.format_header.BlockAlign ≤ p.data.Data.length := by
    rw [hframes, hlen]; exact Nat.div_mul_le_self _ _
  have hw : p.num_channels * R.sizeof ≤ p.format_header.BlockAlign := by
    rw [← hR, Nat.mul_comm]; exact Nat.div_mul_le_self _ _
  have hbuf : p.num_frames * p.num_channels * R.sizeof ≤ p.data.Data.length := by
    calc p.num_frames * p.num_channels * R.sizeof
        = p.num_frames * (p.num_channels * R.sizeof) := by ring
      _ ≤ p.num_frames * p.format_header.BlockAlign := Nat.mul_le_mul_left _ hw
      _ ≤ p.data.Data.length := hnf
  refine ⟨hframes, hbuf, ?_, ?_⟩
  · intro i hi
    have h1 : (i + 1) * R.sizeof ≤ p.data.Data.length :=
      le_trans (Nat.mul_le_mul_right _ hi) hbuf
    have h2 : i < p.data.Data.length / R.sizeof := (Nat.le_div_iff_mul_le hpos).mpr h1
    refine ⟨?_, interpret_getElem? R.sizeof p.data.Data i h2⟩
    have : (i + 1) * R.sizeof = i * R.sizeof + R.sizeof := by ring
    omega
  · intro lame
    have hc0 : p.num_channels ≠ 0 := by omega
    obtain ⟨call, e, hcall⟩ := convert_from_raw_in_run file u lame p R hparse hc0 hR
    refine ⟨?_, call, e, hcall⟩
    rw [e]
    unfold Encode
    split <;> simp

theorem dispatcher_meets_length_precondition_witness :
    sample_stereo_parsed.num_frames =
        sample_stereo_parsed.data.Chunk_header.ChunkSize /
          sample_stereo_parsed.format_header.BlockAlign ∧
      sample_stereo_parsed.num_frames * sample_stereo_parsed.num_channels *
          SampleType.short.sizeof ≤ sample_stereo_parsed.data.Data.length ∧
      (∀ i, i < sample_stereo_parsed.num_frames * sample_stereo_parsed.num_channels →
        i * SampleType.short.sizeof + SampleType.short.sizeof ≤
          sample_stereo_parsed.data.Data.length ∧
        (interpret SampleType.short.sizeof sample_stereo_parsed.data.Data)[i]? =
          some ((sample_stereo_parsed.data.Data.drop (i * SampleType.short.sizeof)).take
            SampleType.short.sizeof)) ∧
      ∀ lame : EncodeCall → Bool,
        (convert_from_raw lame .short sample_stereo_parsed.data sample_stereo_parsed.num_frames
          sample_stereo_parsed.num_channels sample_stereo_parsed.sample_rate).1 ≠
          .undefined .out_of_bounds_read ∧
        ∃ call, convert_from_raw lame .short sample_stereo_parsed.data
            sample_stereo_parsed.num_frames sample_stereo_parsed.num_channels
            sample_stereo_parsed.sample_rate =
            (Encode lame call, [.open_output .short, .Encode call]) ∧
          call.num_samples = sample_stereo_parsed.num_frames ∧
          call.num_samples ≤ call.buffer_l.length ∧
          call.num_samples ≤ call.buffer_r.length :=
  dispatcher_meets_length_precondition sample_stereo_file zeroed sample_stereo_parsed .short
    run_parse_sample_stereo (Or.inr rfl) rfl

/-! ## Divisions -/

/-- C20 (the code departs from it). Envelope and format validation succeed and
a `"data"` chunk is found, yet `BlockAlign` is 0 at line 164 on the first file
and `num_channels` is 0 at line 175 on the second: `run` divides by zero. -/
theorem run_divides_by_zero :
    (∃ v, run_validate sample_zero_block_align_file zeroed = .ok v ∧
        v.format_header.BlockAlign = 0 ∧
        (find_chunk data_ zeroed.potential_chunk_data v.i_stream).1 = some ⟨⟨data_⟩, 8⟩) ∧
      run sample_zero_block_align_file zeroed (fun _ => true) =
        ⟨.undefined .division_by_zero, [.find_chunk fmt_, .find_chunk data_],
          ⟨sample_zero_block_align_file, 44, false, false⟩⟩ ∧
      (∃ v, run_validate sample_zero_channel_file zeroed = .ok v ∧ v.num_channels = 0 ∧
        v.format_header.BlockAlign = 4 ∧
        (find_chunk data_ zeroed.potential_chunk_data v.i_stream).1 = some ⟨⟨data_⟩, 8⟩) ∧
      run sample_zero_channel_file zeroed (fun _ => true) =
        ⟨.undefined .division_by_zero, [.find_chunk fmt_, .find_chunk data_],
          ⟨sample_zero_channel_file, 52, false, false⟩⟩ := by
  refine ⟨⟨⟨⟨⟨⟨fmt_⟩, 16⟩, 1, 2, 44100, 176400, 0, 16⟩, 2, 44100,
      ⟨sample_zero_block_align_file, 36, false, false⟩⟩, ?_, rfl, ?_⟩, ?_,
    ⟨⟨⟨⟨⟨fmt_⟩, 16⟩, 1, 0, 44100, 176400, 4, 16⟩, 0, 44100,
      ⟨sample_zero_channel_file, 36, false, false⟩⟩, ?_, rfl, rfl, ?_⟩, ?_⟩ <;> decide

/-! ## The report of the batch -/

theorem report_fold (wav_file_list : List String) (futures : List TaskResult) :
    ∀ n : Nat, n ≤ futures.length → n ≤ wav_file_list.length →
      (List.range n).foldl (report_step wav_file_list futures) [] =
        (List.range n).map fun i =>
          report_entry i (wav_file_list[i]?.getD "") (futures[i]?.getD (.returned false)) := by
  intro n
  induction n with
  | zero => intro _ _; rfl
  | succ n ih =>
    intro h1 h2
    have e1 : futures[n]? = some futures[n] := List.getElem?_eq_getElem (by omega)
    have e2 : wav_file_list[n]? = some wav_file_list[n] := List.getElem?_eq_getElem (by omega)
    rw [List.range_succ, List.foldl_append, ih (by omega) (by omega), List.map_append]
    simp only [List.foldl_cons, List.foldl_nil, report_step, e1, e2, List.map_cons, List.map_nil,
      Option.getD_some]

theorem report_loop_getElem? (wav_file_list : List String) (futures : List TaskResult)
    (hlen : futures.length = wav_file_list.length) (i : Nat) (f : String) (r : TaskResult)
    (hf : wav_file_list[i]? = some f) (hr : futures[i]? = some r) :
    (report_loop wav_file_list futures)[i]? = some (report_entry i f r) := by
  have hi : i < futures.length := by
    by_contra h
    rw [List.getElem?_eq_none (by omega)] at hr
    cases hr
  unfold report_loop
  rw [report_fold wav_file_list futures futures.length (Nat.le_refl _) (by omega)]
  simp [List.getElem?_range hi, hi, hf, hr]

/-- C16. With one result per input file, the loop of lines 148-178 writes
exactly one entry per file, entry `i` for file `i`: the "converted" line when
task `i` returned `true`, the "failed" line when it returned `false`, the line
with the message of the exception when it threw; and turning the result of
task `k` into an exception leaves every other entry as it was. -/
theorem report_loop_entries (wav_file_list : List String) (futures : List TaskResult)
    (hlen : futures.length = wav_file_list.length) :
    (report_loop wav_file_list futures).length = wav_file_list.length ∧
      (∀ i f, wav_file_list[i]? = some f → futures[i]? = some (.returned true) →
        (report_loop wav_file_list futures)[i]? =
          some ( msg_prefix i ++ "converted file " ++ f ++ "\n")) ∧
      (∀ i f, wav_file_list[i]? = some f → futures[i]? = some (.returned false) →
        (report_loop wav_file_list futures)[i]? = some ( msg_prefix i ++ "failed.\n")) ∧
      (∀ i f what, wav_file_list[i]? = some f → futures[i]? = some (.threw what) →
        (report_loop wav_file_list futures)[i]? =
          some ( msg_prefix i ++ "converting file " ++ f ++ " failed with exception: " ++
            what ++ "\n")) ∧
      ∀ k what i, i ≠ k →
        (report_loop wav_file_list (futures.set k (.threw what)))[i]? =
          (report_loop wav_file_list futures)[i]? := by
  refine ⟨?_, ?_, ?_, ?_, ?_⟩
  · unfold report_loop
    rw [report_fold wav_file_list futures futures.length (Nat.le_refl _) (by omega)]
    simp [hlen]
  · intro i f hf hr
    exact report_loop_getElem? wav_file_list futures hlen i f _ hf hr
  · intro i f hf hr
    exact report_loop_getElem? wav_file_list futures hlen i f _ hf hr
  · intro i f what hf hr
    exact report_loop_getElem? wav_file_list futures hlen i f _ hf hr
  · intro k what i hik
    have hlen2 : (futures.set k (.threw what)).length = wav_file_list.length := by
      rw [List.length_set]; exact hlen
    by_cases hi : i < futures.length
    · have e1 : futures[i]? = some futures[i] := List.getElem?_eq_getElem hi
      have e2 : wav_file_list[i]? = some wav_file_list[i] :=
        List.getElem?_eq_getElem (by omega)
      have e3 : (futures.set k (.threw what))[i]? = some futures[i] := by
        rw [List.getElem?_set_ne (Ne.symm hik)]; exact e1
      rw [report_loop_getElem? wav_file_list _ hlen2 i _ _ e2 e3,
        report_loop_getElem? wav_file_list futures hlen i _ _ e2 e1]
    · have l1 : (report_loop wav_file_list futures).length ≤ i := by
        unfold report_loop
        rw [report_fold wav_file_list futures futures.length (Nat.le_refl _) (by omega)]
        simp; omega
      have l2 : (report_loop wav_file_list (futures.set k (.threw what))).length ≤ i := by
        unfold report_loop
        rw [report_fold wav_file_list _ _ (Nat.le_refl _) (by omega)]
        simp; omega
      rw [List.getElem?_eq_none l1, List.getElem?_eq_none l2]

theorem report_loop_entries_witness :
    (report_loop ["a.wav", "b.wav", "c.wav"]
        [.returned true, .threw "Did not find fmt chunk in file.", .returned false]).length =
        ["a.wav", "b.wav", "c.wav"].length ∧
      (∀ i f, ["a.wav", "b.wav", "c.wav"][i]? = some f →
        [TaskResult.returned true, .threw "Did not find fmt chunk in file.",
          .returned false][i]? = some (.returned true) →
        (report_loop ["a.wav", "b.wav", "c.wav"]
          [.returned true, .threw "Did not find fmt chunk in file.", .returned false])[i]? =
          some ( msg_prefix i ++ "converted file " ++ f ++ "\n")) ∧
      (∀ i f, ["a.wav", "b.wav", "c.wav"][i]? = some f →
        [TaskResult.returned true, .threw "Did not find fmt chunk in file.",
          .returned false][i]? = some (.returned false) →
        (report_loop ["a.wav", "b.wav", "c.wav"]
          [.returned true, .threw "Did not find fmt chunk in file.", .returned false])[i]? =
          some ( msg_prefix i ++ "failed.\n")) ∧
      (∀ i f what, ["a.wav", "b.wav", "c.wav"][i]? = some f →
        [TaskResult.returned true, .threw "Did not find fmt chunk in file.",
          .returned false][i]? = some (.threw what) →
        (report_loop ["a.wav", "b.wav", "c.wav"]
          [.returned true, .threw "Did not find fmt chunk in file.", .returned false])[i]? =
          some ( msg_prefix i ++ "converting file " ++ f ++ " failed with exception: " ++
            what ++ "\n")) ∧
      ∀ k what i, i ≠ k →
        (report_loop ["a.wav", "b.wav", "c.wav"]
          (([.returned true, .threw "Did not find fmt chunk in file.",
            .returned false] : List TaskResult).set k (.threw what)))[i]? =
          (report_loop ["a.wav", "b.wav", "c.wav"]
            [.returned true, .threw "Did not find fmt chunk in file.", .returned false])[i]? :=
  report_loop_entries ["a.wav", "b.wav", "c.wav"]
    [.returned true, .threw "Did not find fmt chunk in file.", .returned false] rfl

theorem report_loop_sample :
    report_loop ["a.wav", "b.wav", "c.wav"]
        [.returned true, .threw "Did not find fmt chunk in file.", .returned false] =
      ["Thread 0: converted file a.wav\n",
        "Thread 1: converting file b.wav failed with exception: Did not find fmt chunk in file.\n",
        "Thread 2: failed.\n"] := by
  decide

/-! ## The admission gate -/

/-- C17 (the code departs from it). With a semaphore of capacity 1 and two
tasks, the state in which both threads are inside `task.run()` is reachable:
the temporary of line 134 is destroyed, and its unit given back, before
`task.run()` starts, so no thread holds a unit while it runs. -/
theorem gate_does_not_bound_running_tasks :
    ((BatchState.initial 1 2).after [0, 0, 0, 1, 1, 1]).executing = 2 ∧
      ((BatchState.initial 1 2).after [0, 0, 0, 1, 1, 1]).thread_limiter.count = 1 ∧
      ((BatchState.initial 1 2).after [0, 0, 0, 1, 1, 1]).holders = 0 ∧
      (BatchState.initial 1 2).after [0, 0, 0, 1, 1, 1] =
        ⟨⟨1⟩, [.running, .running]⟩ := by
  decide

theorem filter_length_set (q : TaskPc → Bool) :
    ∀ (l : List TaskPc) (i : Nat) (old x : TaskPc), l[i]? = some old →
      ((l.set i x).filter q).length + (if q old then 1 else 0) =
        (l.filter q).length + (if q x then 1 else 0) := by
  intro l
  induction l with
  | nil => intro i old x h; simp at h
  | cons a l ih =>
    intro i old x h
    cases i with
    | zero =>
      simp only [List.getElem?_cons_zero, Option.some.injEq] at h
      subst h
      simp only [List.set_cons_zero, List.filter_cons]
      by_cases ha : q a = true <;> by_cases hx : q x = true <;> simp [ha, hx]
    | succ j =>
      simp only [List.getElem?_cons_succ] at h
      have := ih j old x h
      simp only [List.set_cons_succ, List.filter_cons]
      by_cases ha : q a = true
      · simp only [ha, if_true, List.length_cons]
        omega
      · simp only [ha, if_false]
        exact this

/-- The semaphore itself keeps its count: in every step the number of threads
between `wait` and `notify` plus `count` stays the capacity. -/
theorem gate_step_invariant (c : Nat) (hc : c < 2 ^ 32) (s t : BatchState) (i : Nat)
    (hs : s.holders + s.thread_limiter.count = c) (ht : s.step i = some t) :
    t.holders + t.thread_limiter.count = c := by
  unfold BatchState.step at ht
  unfold BatchState.holders at hs ⊢
  rcases hget : s.tasks[i]? with _ | pc
  · simp [hget] at ht
  · cases pc with
    | waiting =>
      simp only [hget, Semaphore.wait] at ht
      by_cases h0 : s.thread_limiter.count = 0
      · simp [h0] at ht
      · simp only [ne_eq, h0, not_false_eq_true, if_true, Option.some.injEq] at ht
        subst ht
        have := filter_length_set (fun pc => pc == .holding) s.tasks i .waiting .holding hget
        simp only [beq_self_eq_true, if_true] at this
        have hw : ((TaskPc.waiting == TaskPc.holding) = true) = False := by decide
        simp only [hw, if_false] at this
        simp only
        omega
    | holding =>
      simp only [hget, Option.some.injEq, Semaphore.notify] at ht
      subst ht
      have := filter_length_set (fun pc => pc == .holding) s.tasks i .holding .released hget
      simp only [beq_self_eq_true, if_true] at this
      have hw : ((TaskPc.released == TaskPc.holding) = true) = False := by decide
      simp only [hw, if_false] at this
      simp only
      rw [Nat.mod_eq_of_lt (by omega)]
      omega
    | released =>
      simp only [hget, Option.some.injEq] at ht
      subst ht
      have := filter_length_set (fun pc => pc == .holding) s.tasks i .released .running hget
      have hw : ((TaskPc.released == TaskPc.holding) = true) = False := by decide
      have hw2 : ((TaskPc.running == TaskPc.holding) = true) = False := by decide
      simp only [hw, hw2, if_false] at this
      simp only
      omega
    | running =>
      simp only [hget, Option.some.injEq] at ht
      subst ht
      have := filter_length_set (fun pc => pc == .holding) s.tasks i .running .finished hget
      have hw : ((TaskPc.running == TaskPc.holding) = true) = False := by decide
      have hw2 : ((TaskPc.finished == TaskPc.holding) = true) = False := by decide
      simp only [hw, hw2, if_false] at this
      simp only
      omega
    | finished => simp [hget] at ht

theorem gate_after_invariant (c : Nat) (hc : c < 2 ^ 32) :
    ∀ (schedule : List Nat) (s : BatchState), s.holders + s.thread_limiter.count = c →
      (s.after schedule).holders + (s.after schedule).thread_limiter.count = c := by
  intro schedule
  induction schedule with
  | nil => intro s hs; exact hs
  | cons i rest ih =>
    intro s hs
    unfold BatchState.after
    rcases hstep : s.step i with _ | t
    · exact ih s hs
    · exact ih t (gate_step_invariant c hc s t i hs hstep)

/-- What the semaphore does bound: at most `c` threads are between `wait` and
`notify` in any state reached from the start. -/
theorem gate_bounds_holders (c n : Nat) (hc : c < 2 ^ 32) (schedule : List Nat) :
    ((BatchState.initial c n).after schedule).holders ≤ c := by
  have h0 : (BatchState.initial c n).holders + (BatchState.initial c n).thread_limiter.count
      = c := by
    have : ((List.replicate n TaskPc.waiting).filter fun pc => pc == .holding) = [] := by
      rw [List.filter_eq_nil_iff]
      intro a ha
      rw [List.eq_of_mem_replicate ha]
      decide
    simp [BatchState.initial, BatchState.holders, this]
  have := gate_after_invariant c hc schedule _ h0
  omega

/-! ## What reaches the encoder, and when nothing does -/

theorem encode_args_mem_convert (lame : EncodeCall → Bool) (R : SampleType) (data : DataChunk)
    (n c sr : Nat) (call : EncodeCall)
    (h : Event.Encode call ∈ (convert_from_raw lame R data n c sr).2) :
    call.sample_rate = sr ∧ call.num_channels = c ∧ call.R = R := by
  unfold convert_from_raw at h
  simp only at h
  by_cases hc : c = 1
  · subst hc
    simp only [if_true, List.mem_cons, List.mem_singleton, Event.Encode.injEq,
      List.not_mem_nil, or_false, false_or, reduceCtorEq] at h
    subst h
    exact ⟨rfl, rfl, rfl⟩
  · by_cases hc2 : c = 2
    · subst hc2
      rcases hs : split_channels (interpret R.sizeof data.Data) n with _ | ⟨l, r⟩
      · simp [hs] at h
      · simp only [hs, hc, if_false, if_true, List.mem_cons, List.mem_singleton,
          Event.Encode.injEq, List.not_mem_nil, or_false, false_or, reduceCtorEq] at h
        subst h
        exact ⟨rfl, rfl, rfl⟩
    · simp [hc, hc2] at h

theorem encode_args_mem_run_dispatch (lame : EncodeCall → Bool) (p : Parsed)
    (call : EncodeCall) (h : Event.Encode call ∈ (run_dispatch lame p).trace) :
    call.sample_rate = p.sample_rate ∧ call.num_channels = p.num_channels := by
  rcases run_dispatch_cases lame p with ⟨R, _, _, e⟩ | ⟨o, e⟩
  · rw [e] at h
    unfold run_convert at h
    simp only [List.mem_append, List.mem_cons, List.mem_singleton, reduceCtorEq,
      List.not_mem_nil, or_false, false_or] at h
    have := encode_args_mem_convert lame R p.data p.num_frames p.num_channels p.sample_rate
      call h
    exact ⟨this.1, this.2.1⟩
  · rw [e] at h
    simp at h

theorem convert_from_raw_not_threw (lame : EncodeCall → Bool) (R : SampleType)
    (data : DataChunk) (n c sr : Nat) (e : wave_format_error) :
    (convert_from_raw lame R data n c sr).1 ≠ .threw e := by
  unfold convert_from_raw Encode
  simp only
  split
  · split <;> simp
  · split
    · split
      · split <;> simp
      · simp
    · simp

/-- Before line 172, `run` ends only with `find_chunk` events behind it. -/
theorem run_parse_error_trace (file : List UInt8) (u : Indeterminate) (r : RunResult)
    (h : run_parse file u = .error r) : ∀ ev ∈ r.trace, ∃ identifier, ev = .find_chunk identifier
    := by
  unfold run_parse at h
  split at h
  · rename_i r2 hv
    injection h with h
    subst h
    unfold run_validate at hv
    simp only at hv
    split at hv
    · injection hv with hv; subst hv; simp
    · split at hv
      · injection hv with hv; subst hv; simp
      · unfold run_format at hv
        split at hv
        · injection hv with hv; subst hv; simp
        · split at hv
          · injection hv with hv; subst hv; simp
          · simp only at hv
            split at hv
            · injection hv with hv; subst hv; simp
            · cases hv
  · unfold run_read_data at h
    split at h
    · injection h with h; subst h; simp
    · simp only at h
      split at h
      · injection h with h; subst h; simp
      · cases h

theorem run_parse_sample_rate_lt (file : List UInt8) (u : Indeterminate) (p : Parsed)
    (h : run_parse file u = .ok p) : p.format_header.SampleRate < 2 ^ 32 := by
  unfold run_parse at h
  split at h
  · cases h
  · rename_i v hv
    rw [(run_read_data_ok v u p h).1]
    unfold run_validate at hv
    simp only at hv
    split at hv
    · cases hv
    · split at hv
      · cases hv
      · unfold run_format at hv
        split at hv
        · cases hv
        · split at hv
          · cases hv
          · simp only at hv
            split at hv
            · cases hv
            · injection hv with hv
              subst hv
              exact field_lt _ 4 4

/-- On a container, the `SampleRate` that `run` parses is the 32-bit field at
bytes 4 to 7 of the payload of the first `"fmt "` chunk. -/
theorem container_sample_rate (env : List UInt8) (pre mid : List Chunk) (fmt data : Chunk)
    (rest : List UInt8) (u : Indeterminate) (p : Parsed) (henv : valid_envelope env)
    (hpre : ∀ c ∈ pre, c.complete ∧ c.has_id fmt_ = false)
    (hfmt : fmt.complete ∧ fmt.has_id fmt_ = true)
    (hmid : ∀ c ∈ mid, c.complete ∧ c.has_id data_ = false)
    (hdata : data.complete ∧ data.has_id data_ = true)
    (hfield : 8 ≤ fmt.payload.length)
    (hparse : run_parse
      (env ++ serialize pre ++ fmt.bytes ++ serialize mid ++ data.bytes ++ rest) u = .ok p) :
    p.format_header.SampleRate = field fmt.payload 4 4 := by
  have hview := run_parse_container env pre mid fmt data rest u henv hpre hfmt hmid hdata
  rw [hparse] at hview
  unfold container_view at hview
  cases hfh : fmt.format_header with
  | none =>
    rw [hfh] at hview
    simp only [parse_view, reduceCtorEq] at hview
  | some format_header =>
    rw [hfh] at hview
    simp only [parse_view] at hview
    split at hview
    · cases hview
    · split at hview
      · cases hview
      · injection hview with hview
        injection hview with h1 _
        rw [h1, ((Chunk.format_header_eq_some fmt format_header).mp hfh).2]
        simp only [FormatHeader.of_fields]
        exact field_store _ fmt.payload 4 4 (by omega)

/-- C21. Every call of `Encode` that `run` makes gets as sample rate the
parsed 32-bit `SampleRate` reduced modulo `2 ^ 16`, the value the `uint16_t` of
line 154 holds; it is the parsed `SampleRate` exactly when that is below 65536.
On a container the parsed `SampleRate` is the field at bytes 4 to 7 of the
`"fmt "` payload. -/
theorem encoder_sample_rate (file : List UInt8) (u : Indeterminate) (lame : EncodeCall → Bool)
    (call : EncodeCall) (h : Event.Encode call ∈ (run file u lame).trace) :
    ∃ p, run_parse file u = .ok p ∧ p.format_header.SampleRate < 2 ^ 32 ∧
      call.sample_rate = p.format_header.SampleRate % 2 ^ 16 ∧
      (call.sample_rate = p.format_header.SampleRate ↔ p.format_header.SampleRate < 65536) ∧
      ∀ (env : List UInt8) (pre mid : List Chunk) (fmt data : Chunk) (rest : List UInt8),
        file = env ++ serialize pre ++ fmt.bytes ++ serialize mid ++ data.bytes ++ rest →
        valid_envelope env →
        (∀ c ∈ pre, c.complete ∧ c.has_id fmt_ = false) →
        fmt.complete ∧ fmt.has_id fmt_ = true →
        (∀ c ∈ mid, c.complete ∧ c.has_id data_ = false) →
        data.complete ∧ data.has_id data_ = true →
        8 ≤ fmt.payload.length →
        p.format_header.SampleRate = field fmt.payload 4 4 := by
  rcases hp : run_parse file u with r | p
  · exfalso
    rw [run_eq_of_parse_error file u lame r hp] at h
    obtain ⟨identifier, hid⟩ := run_parse_error_trace file u r hp _ h
    cases hid
  · rw [run_eq_of_parse_ok file u lame p hp] at h
    obtain ⟨hsr, _⟩ := encode_args_mem_run_dispatch lame p call h
    obtain ⟨_, _, hrate, _⟩ := run_parse_ok file u p hp
    have hcall : call.sample_rate = p.format_header.SampleRate % 2 ^ 16 := by
      rw [hsr, hrate]
    refine ⟨p, rfl, run_parse_sample_rate_lt file u p hp, hcall, ?_, ?_⟩
    · rw [hcall]
      constructor
      · intro heq
        have := Nat.mod_lt p.format_header.SampleRate (by decide : 2 ^ 16 > 0)
        omega
      · intro hlt
        exact Nat.mod_eq_of_lt hlt
    · intro env pre mid fmt data rest hfile henv hpre hfmt hmid hdata hfield
      subst hfile
      exact container_sample_rate env pre mid fmt data rest u p henv hpre hfmt hmid hdata
        hfield hp

/-- A file of 96000 Hz: `Encode` is told 30464 Hz. -/
theorem run_sample_96k :
    run sample_96k_file zeroed (fun _ => true) =
      ⟨.returned true, [.find_chunk fmt_, .find_chunk data_, .open_output .short,
        .Encode ⟨.short, 2, 30464, 2, [[1, 0], [3, 0]], [[2, 0], [4, 0]]⟩],
        ⟨sample_96k_file, 52, false, false⟩⟩ ∧
      field sample_96k_fmt_chunk.payload 4 4 = 96000 := by
  decide

theorem encoder_sample_rate_witness :
    ∃ p, run_parse sample_96k_file zeroed = .ok p ∧ p.format_header.SampleRate < 2 ^ 32 ∧
      (EncodeCall.mk .short 2 30464 2 [[1, 0], [3, 0]] [[2, 0], [4, 0]]).sample_rate =
        p.format_header.SampleRate % 2 ^ 16 ∧
      ((EncodeCall.mk .short 2 30464 2 [[1, 0], [3, 0]] [[2, 0], [4, 0]]).sample_rate =
        p.format_header.SampleRate ↔ p.format_header.SampleRate < 65536) ∧
      ∀ (env : List UInt8) (pre mid : List Chunk) (fmt data : Chunk) (rest : List UInt8),
        sample_96k_file =
          env ++ serialize pre ++ fmt.bytes ++ serialize mid ++ data.bytes ++ rest →
        valid_envelope env →
        (∀ c ∈ pre, c.complete ∧ c.has_id fmt_ = false) →
        fmt.complete ∧ fmt.has_id fmt_ = true →
        (∀ c ∈ mid, c.complete ∧ c.has_id data_ = false) →
        data.complete ∧ data.has_id data_ = true →
        8 ≤ fmt.payload.length →
        p.format_header.SampleRate = field fmt.payload 4 4 :=
  encoder_sample_rate sample_96k_file zeroed (fun _ => true)
    ⟨.short, 2, 30464, 2, [[1, 0], [3, 0]], [[2, 0], [4, 0]]⟩ (by decide)

/-- C22. Whenever `run` ends by throwing `wave_format_error`, only calls of
`find_chunk` lie behind it: `convert_from_raw` has not been called, no
`LameEncodingTask` has been constructed, so the output file has not been
opened, and `Encode` has not run. -/
theorem no_output_on_wave_format_error (file : List UInt8) (u : Indeterminate)
    (lame : EncodeCall → Bool) (e : wave_format_error)
    (h : (run file u lame).outcome = .threw e) :
    (∀ ev ∈ (run file u lame).trace, ∃ identifier, ev = .find_chunk identifier) ∧
      (∀ R, Event.open_output R ∉ (run file u lame).trace) ∧
      ∀ call, Event.Encode call ∉ (run file u lame).trace := by
  have hfind : ∀ ev ∈ (run file u lame).trace, ∃ identifier, ev = .find_chunk identifier := by
    rcases hp : run_parse file u with r | p
    · rw [run_eq_of_parse_error file u lame r hp]
      exact run_parse_error_trace file u r hp
    · rw [run_eq_of_parse_ok file u lame p hp] at h ⊢
      rcases run_dispatch_cases lame p with ⟨R, _, _, hrun⟩ | ⟨o, hrun⟩
      · exfalso
        rw [hrun] at h
        exact convert_from_raw_not_threw lame R p.data p.num_frames p.num_channels
          p.sample_rate e h
      · rw [hrun]
        simp
  refine ⟨hfind, ?_, ?_⟩
  · intro R hmem
    obtain ⟨identifier, hid⟩ := hfind _ hmem
    cases hid
  · intro call hmem
    obtain ⟨identifier, hid⟩ := hfind _ hmem
    cases hid

theorem no_output_on_wave_format_error_witness :
    (∀ ev ∈ (run sample_24bit_file zeroed (fun _ => true)).trace,
        ∃ identifier, ev = .find_chunk identifier) ∧
      (∀ R, Event.open_output R ∉ (run sample_24bit_file zeroed (fun _ => true)).trace) ∧
      ∀ call, Event.Encode call ∉ (run sample_24bit_file zeroed (fun _ => true)).trace :=
  no_output_on_wave_format_error sample_24bit_file zeroed (fun _ => true)
    .unsupported_integer_width (by decide)

/-- One input for each `throw` of `run`, with the events up to it. -/
theorem run_sample_wave_format_errors :
    run (data_ ++ [4, 0, 0, 0] ++ WAVE) zeroed (fun _ => true) =
        ⟨.threw .no_riff_header, [], ⟨data_ ++ [4, 0, 0, 0] ++ WAVE, 12, false, false⟩⟩ ∧
      run (RIFF ++ [4, 0, 0, 0] ++ data_) zeroed (fun _ => true) =
        ⟨.threw .no_wave_header, [], ⟨RIFF ++ [4, 0, 0, 0] ++ data_, 12, false, false⟩⟩ ∧
      run (sample_envelope ++ serialize [sample_data_chunk]) zeroed (fun _ => true) =
        ⟨.threw .fmt_not_found, [.find_chunk fmt_],
          ⟨sample_envelope ++ serialize [sample_data_chunk], 28, false, true⟩⟩ ∧
      run (sample_envelope ++ serialize [sample_three_channel_fmt_chunk, sample_data_chunk])
          zeroed (fun _ => true) =
        ⟨.threw .too_many_channels, [.find_chunk fmt_],
          ⟨sample_envelope ++ serialize [sample_three_channel_fmt_chunk, sample_data_chunk],
            36, false, false⟩⟩ ∧
      run (sample_envelope ++ serialize [sample_fmt_chunk, sample_list_chunk]) zeroed
          (fun _ => true) =
        ⟨.threw .data_not_found, [.find_chunk fmt_, .find_chunk data_],
          ⟨sample_envelope ++ serialize [sample_fmt_chunk, sample_list_chunk],
            46, false, true⟩⟩ ∧
      run sample_24bit_file zeroed (fun _ => true) =
        ⟨.threw .unsupported_integer_width, [.find_chunk fmt_, .find_chunk data_],
          ⟨sample_24bit_file, 52, false, false⟩⟩ ∧
      run sample_adpcm_file zeroed (fun _ => true) =
        ⟨.threw .unsupported_encoding, [.find_chunk fmt_, .find_chunk data_],
          ⟨sample_adpcm_file, 52, false, false⟩⟩ := by
  decide

end mp3_converter
